import Mathlib

/-!
# Programs of the repository: a shallow embedding

The two connection monitors, the calendar navigator, the calculator and the
snake game.  C strings are lists of characters.  A character buffer is read
as the C string it holds, that is, up to its first NUL.  The C library calls
the programs make (`sscanf`, `fgets`, `strtok_r`, `strncpy`, `snprintf`, ...)
are given as small executable functions next to the program functions that
use them.  Where a sum of `int`s can leave the 32 bits, it is the sum wrapped
to 32 bits.
-/

set_option maxRecDepth 100000

namespace CLib

/-- The NUL character that ends a C string. -/
def NUL : Char := Char.ofNat 0

/-- The C string held in a buffer: the characters before the first NUL. -/
def cstr (s : List Char) : List Char := s.takeWhile (fun c => c ≠ NUL)

/-- The test `strcmp(a, b) == 0`. -/
def strcmp_eq (a b : List Char) : Bool := cstr a = cstr b

/-- The test `strncmp(a, b, n) == 0`. -/
def strncmp_eq (a b : List Char) (n : Nat) : Bool := (cstr a).take n = (cstr b).take n

/-- The `isspace` of the C locale. -/
def isspace (c : Char) : Bool := c.toNat = 32 ∨ (9 ≤ c.toNat ∧ c.toNat ≤ 13)

/-- The `isdigit` of the C locale. -/
def isdigit (c : Char) : Bool := 48 ≤ c.toNat ∧ c.toNat ≤ 57

/-- The `isxdigit` of the C locale. -/
def isxdigit (c : Char) : Bool :=
  (48 ≤ c.toNat ∧ c.toNat ≤ 57) ∨ (65 ≤ c.toNat ∧ c.toNat ≤ 70) ∨ (97 ≤ c.toNat ∧ c.toNat ≤ 102)

/-- Value of one hexadecimal digit. -/
def hexDigitValue (c : Char) : Nat :=
  if c.toNat ≤ 57 then c.toNat - 48
  else if c.toNat ≤ 70 then c.toNat - 55
  else c.toNat - 87

/-- Value of a run of hexadecimal digits, most significant first. -/
def hexValue (ds : List Char) : Nat := ds.foldl (fun acc c => acc * 16 + hexDigitValue c) 0

/-- Value of a run of decimal digits, most significant first. -/
def decValue (ds : List Char) : Nat := ds.foldl (fun acc c => acc * 10 + (c.toNat - 48)) 0

/-- Optional sign of a number: whether it is negative, and the text after it. -/
def skipSign (s : List Char) : Bool × List Char :=
  match s with
  | [] => (false, [])
  | c :: t => if c = '-' then (true, t) else if c = '+' then (false, t) else (false, c :: t)

/-- Optional `0x` or `0X` in front of a hexadecimal number. -/
def skipHexPrefix (s : List Char) : List Char :=
  match s with
  | c0 :: c1 :: c2 :: t =>
    if c0 = '0' ∧ (c1 = 'x' ∨ c1 = 'X') ∧ isxdigit c2 = true then c2 :: t else s
  | _ => s

/-- The value `sscanf(s, "%x", &v)` stores in the `unsigned int` v, or `none`
when no number is found and v is left as it was.  White space is skipped,
a sign and a `0x` are accepted, the digits are read as far as they go; the
number is converted as `strtoul` does on a 64-bit `unsigned long` and then
cut to 32 bits. -/
def sscanf_x (s : List Char) : Option Nat :=
  let signed := skipSign (s.dropWhile isspace)
  let ds := (skipHexPrefix signed.2).takeWhile isxdigit
  if ds = [] then none
  else
    let v := hexValue ds
    let ul := if 2 ^ 64 ≤ v then 2 ^ 64 - 1 else if signed.1 then (2 ^ 64 - v) % 2 ^ 64 else v
    some (ul % 2 ^ 32)

/-- Conversion of an `unsigned int` to `int`. -/
def toInt32 (u : Nat) : Int :=
  if u % 2 ^ 32 < 2 ^ 31 then ((u % 2 ^ 32 : Nat) : Int) else ((u % 2 ^ 32 : Nat) : Int) - 2 ^ 32

/-- The text `printf("%u")` writes. -/
def fmt_u (n : Nat) : List Char := Nat.toDigits 10 n

/-- The text `printf("%d")` writes. -/
def fmt_d (i : Int) : List Char :=
  if i < 0 then '-' :: Nat.toDigits 10 i.natAbs else Nat.toDigits 10 i.toNat

/-- The function `htonl` of a little-endian host: the four bytes reversed. -/
def htonl (x : Nat) : Nat :=
  (x % 256) * 2 ^ 24 + (x / 2 ^ 8 % 256) * 2 ^ 16 + (x / 2 ^ 16 % 256) * 2 ^ 8 + (x / 2 ^ 24 % 256)

/-- The function `inet_ntoa` of a little-endian host: the four bytes of
`s_addr` in memory order, lowest byte first, in decimal with dots. -/
def inet_ntoa (s_addr : Nat) : List Char :=
  fmt_u (s_addr % 256) ++ '.' :: fmt_u (s_addr / 2 ^ 8 % 256) ++ '.' ::
    fmt_u (s_addr / 2 ^ 16 % 256) ++ '.' :: fmt_u (s_addr / 2 ^ 24 % 256)

/-- The characters one `fgets` with room for `n` characters stores, and the
unread rest of the stream: it stops after a newline or after `n` characters. -/
def fgets_take : Nat → List Char → List Char × List Char
  | 0, s => ([], s)
  | _ + 1, [] => ([], [])
  | n + 1, c :: s =>
    if c = '\n' then ([c], s)
    else
      let r := fgets_take n s
      (c :: r.1, r.2)

/-- One call `fgets(buf, size, fp)` on the unread rest of a stream: `none`
(NULL) at the end of the stream, otherwise the characters stored and the
new unread rest. -/
def fgets (size : Nat) (s : List Char) : Option (List Char × List Char) :=
  if s = [] then none else some (fgets_take (size - 1) s)

/-- The results of calling `fgets` again and again, at most `fuel` times. -/
def fgets_all (size : Nat) : Nat → List Char → List (List Char)
  | 0, _ => []
  | fuel + 1, s =>
    match fgets size s with
    | none => []
    | some (line, rest) => line :: fgets_all size fuel rest

/-- The results of the successive `fgets(buf, size, fp)` calls on a stream
until one returns NULL.  Every call takes at least one character when
`size` is at least 2, so the length of the text is fuel enough. -/
def read_lines (size : Nat) (text : List Char) : List (List Char) :=
  fgets_all size text.length text

/-- The directive `%*d` of `sscanf`: white space, an optional sign, decimal
digits; the text after them, or `none` when there is no digit. -/
def scan_skip_d (s : List Char) : Option (List Char) :=
  let signed := skipSign (s.dropWhile isspace)
  let ds := signed.2.takeWhile isdigit
  if ds = [] then none else some (signed.2.drop ds.length)

/-- A literal character of a `sscanf` format. -/
def scan_lit (ch : Char) (s : List Char) : Option (List Char) :=
  match s with
  | [] => none
  | c :: t => if c = ch then some t else none

/-- The directive `%N[0-9A-Fa-f]` of `sscanf`: the longest run of at most
`width` hexadecimal digits and the text after it, or `none` when the run is
empty. -/
def scan_hexset (width : Nat) (s : List Char) : Option (List Char × List Char) :=
  let run := (s.takeWhile isxdigit).take width
  if run = [] then none else some (run, s.drop run.length)

/-- The directive `%Ns` of `sscanf`: white space, then the longest run of at
most `width` characters that are not white space, or `none` when the run is
empty. -/
def scan_s (width : Nat) (s : List Char) : Option (List Char × List Char) :=
  let s1 := s.dropWhile isspace
  let run := (s1.takeWhile (fun c => !isspace c)).take width
  if run = [] then none else some (run, s1.drop run.length)

/-- The tokens the successive calls of `strtok_r` return for a string with
no NUL in it: the maximal runs of characters that are not delimiters. -/
def strtok_all (delim : Char → Bool) : List Char → List (List Char)
  | [] => []
  | c :: s =>
    if delim c then strtok_all delim s
    else
      match s with
      | [] => [[c]]
      | d :: _ =>
        if delim d then [c] :: strtok_all delim s
        else
          match strtok_all delim s with
          | [] => [[c]]
          | t :: ts => (c :: t) :: ts

/-- The function `strstr`: the rest of `hay` from the first place where
`needle` occurs, or `none` (NULL). -/
def strstr (hay needle : List Char) : Option (List Char) :=
  match hay with
  | [] => if needle = [] then some [] else none
  | c :: s => if needle.isPrefixOf (c :: s) then some (c :: s) else strstr s needle

/-- The function `strrchr`, as an index: the last place of `ch` in `s`. -/
def strrchr (s : List Char) (ch : Char) : Option Nat :=
  match s with
  | [] => none
  | c :: t =>
    match strrchr t ch with
    | some j => some (j + 1)
    | none => if c = ch then some 0 else none

/-- Conversion of a `long` to `int`. -/
def wrapInt32 (l : Int) : Int := (l + 2 ^ 31) % 2 ^ 32 - 2 ^ 31

/-- The function `atoi`, which is `(int) strtol(s, NULL, 10)` with a 64-bit
`long`. -/
def atoi (s : List Char) : Int :=
  let signed := skipSign (s.dropWhile isspace)
  let v : Int := (decValue (signed.2.takeWhile isdigit) : Nat)
  let l : Int :=
    if signed.1 then (if 2 ^ 63 < v then -(2 ^ 63) else -v)
    else (if 2 ^ 63 ≤ v then 2 ^ 63 - 1 else v)
  wrapInt32 l

/-- The largest `int`. -/
def INT_MAX : Int := 2147483647

/-- The smallest `int`. -/
def INT_MIN : Int := -2147483648

/-- The sum of two `int`s as the machine gives it: wrapped to 32 bits. -/
def add32 (a b : Int) : Int := wrapInt32 (a + b)

/-- The difference of two `int`s, wrapped to 32 bits. -/
def sub32 (a b : Int) : Int := wrapInt32 (a - b)

/-- The product of two `int`s, wrapped to 32 bits. -/
def mul32 (a b : Int) : Int := wrapInt32 (a * b)

end CLib

namespace TcpUdpShow
open CLib

/-- The record `Conn` of tcp_udp_show. -/
structure Conn where
  proto : List Char
  laddr : List Char
  raddr : List Char
  country : List Char
  asn : List Char
  latency : Int
  state : List Char
  deriving DecidableEq, Repr

/-- The function `hex_to_ip_port`; the result is `(ip_str, *port)`.  Its
locals `ip` and `p` are not initialised, so `ip0` and `p0` stand for the
values they hold when `sscanf` stores nothing. -/
def hex_to_ip_port (ip0 p0 : Nat) (hex_ip hex_port : List Char) : List Char × Int :=
  let ip := (sscanf_x hex_ip).getD (ip0 % 2 ^ 32)
  let ip_str := inet_ntoa (htonl ip)
  let p := (sscanf_x hex_port).getD (p0 % 2 ^ 32)
  (ip_str, toInt32 p)

/-- The bytes of a character array of `size` bytes that holds the string
`s` from its start: the string, cut to the array, and NULs after it. -/
def field_bytes (size : Nat) (s : List Char) : List Char :=
  (cstr s ++ List.replicate size NUL).take size

/-- The bytes of a region of memory after `strcpy(region + off, src)`: the
characters of `src` and a NUL are written from byte `off` on, whatever array
of the region they fall in. -/
def strcpy_at (mem : List Char) (off : Nat) (src : List Char) : List Char :=
  mem.take off ++ (cstr src ++ [NUL]) ++ mem.drop (off + (cstr src).length + 1)

/-- The function `enrich_data`.  In the struct `Conn` the array `country[8]`
is followed at once by `asn[16]`, so the two are one region of 24 bytes
here: `strcpy(c->country, ...)` writes from byte 0 and `strcpy(c->asn, "N/A")`
from byte 8, and the fields `country` and `asn` of the result are the C
strings that start at byte 0 and at byte 8.  The label `EXTERNAL` has 8
characters: its NUL goes to byte 8, where the second `strcpy` then writes
`N`, so the string that starts at `country` runs on into `asn`. -/
def enrich_data (c : Conn) : Conn :=
  let label :=
    if strncmp_eq c.raddr "127.".toList 4 || strcmp_eq c.raddr "0.0.0.0".toList then
      "LOCAL".toList
    else if strncmp_eq c.raddr "10.".toList 3 || strncmp_eq c.raddr "192.168.".toList 8 ||
        strncmp_eq c.raddr "172.".toList 4 then
      "PRIVATE".toList
    else
      "EXTERNAL".toList
  let mem0 := field_bytes 8 c.country ++ field_bytes 16 c.asn
  let mem1 := strcpy_at mem0 0 label
  let mem2 := strcpy_at mem1 8 "N/A".toList
  { c with country := cstr mem2, asn := cstr (mem2.drop 8), latency := -1 }

/-- The five fields the `sscanf` of `load_connections` stores from a line
with the format
`"%*d: %63[0-9A-Fa-f]:%7[0-9A-Fa-f] %63[0-9A-Fa-f]:%7[0-9A-Fa-f] %7s"`,
in the order `local_hex, local_port, rem_hex, rem_port, state`; `none` when
it returns less than 5. -/
def sscanf_line (line : List Char) :
    Option (List Char × List Char × List Char × List Char × List Char) :=
  match scan_skip_d (cstr line) with
  | none => none
  | some s0 =>
  match scan_lit ':' s0 with
  | none => none
  | some s1 =>
  match scan_hexset 63 (s1.dropWhile isspace) with
  | none => none
  | some (local_hex, s2) =>
  match scan_lit ':' s2 with
  | none => none
  | some s3 =>
  match scan_hexset 7 s3 with
  | none => none
  | some (local_port, s4) =>
  match scan_hexset 63 (s4.dropWhile isspace) with
  | none => none
  | some (rem_hex, s5) =>
  match scan_lit ':' s5 with
  | none => none
  | some s6 =>
  match scan_hexset 7 s6 with
  | none => none
  | some (rem_port, s7) =>
  match scan_s 7 (s7.dropWhile isspace) with
  | none => none
  | some (state, _) => some (local_hex, local_port, rem_hex, rem_port, state)

/-- The body of the loop of `load_connections` for one line: the record it
stores in `list[count]`, or `none` when it leaves by `continue`. -/
def conn_of_line (ip0 p0 : Nat) (proto line : List Char) : Option Conn :=
  match sscanf_line line with
  | none => none
  | some (local_hex, local_port, rem_hex, rem_port, state) =>
    if local_hex.length = 0 ∨ local_port.length = 0 ∨ rem_hex.length = 0 ∨
        rem_port.length = 0 then none
    else
      let l := hex_to_ip_port ip0 p0 local_hex local_port
      let r := hex_to_ip_port ip0 p0 rem_hex rem_port
      if strcmp_eq l.1 "0.0.0.0".toList && strcmp_eq r.1 "0.0.0.0".toList then none
      else
        some (enrich_data
          { proto := (cstr proto).take 4
            laddr := (l.1 ++ ':' :: fmt_d l.2).take 63
            raddr := (r.1 ++ ':' :: fmt_d r.2).take 63
            country := []
            asn := []
            latency := 0
            state := state.take 7 })

/-- The loop `while (fgets(...) && count < max)` of `load_connections` over
the lines still to read; `list` holds the `count` records stored so far. -/
def load_loop (ip0 p0 : Nat) (proto : List Char) (max : Int) :
    List (List Char) → List Conn → List Conn
  | [], list => list
  | line :: rest, list =>
    if (list.length : Int) < max then
      match conn_of_line ip0 p0 proto line with
      | none => load_loop ip0 p0 proto max rest list
      | some c => load_loop ip0 p0 proto max rest (list ++ [c])
    else list

/-- The function `load_connections`: the records it stores in `list[0]`,
`list[1]`, ...; the count it returns is their number.  `file` is the
content of the file at `path`, `none` when it cannot be opened. -/
def load_connections (ip0 p0 : Nat) (file : Option (List Char)) (proto : List Char)
    (max : Int) : List Conn :=
  match file with
  | none => []
  | some text => load_loop ip0 p0 proto max ((read_lines 512 text).drop 1) []

end TcpUdpShow

open CLib TcpUdpShow

namespace NetMonitor
open CLib

/-- The constant `MAX_LINE`. -/
def MAX_LINE : Nat := 1024
/-- The constant `MAX_PROC_NAME`. -/
def MAX_PROC_NAME : Nat := 64
/-- The constant `MAX_CMDLINE`. -/
def MAX_CMDLINE : Nat := 256
/-- The constant `MAX_PID_STR`. -/
def MAX_PID_STR : Nat := 16
/-- The constant `MAX_CONNECTIONS`. -/
def MAX_CONNECTIONS : Nat := 4096
/-- What `sizeof(cpu)` and `sizeof(mem)` are in `get_process_details`, where
`cpu` and `mem` are parameters of type `char *`: the size of a pointer. -/
def SIZEOF_PTR : Nat := 8

/-- The record `NetConn`.  The fields `has_pid` and `pid` are one optional
value: `none` is `has_pid == 0`, and `pid` is not read then. -/
structure NetConn where
  proto : List Char
  state : List Char
  local_ : List Char
  remote : List Char
  pid : Option Int
  process : List Char
  cmd : List Char
  cpu : List Char
  mem : List Char
  deriving DecidableEq, Repr

/-- The place reached from `i` by `while (p[i] is c) i++` over `line`. -/
def skip_fwd (line : List Char) (p : Char → Bool) (i : Nat) : Nat :=
  i + ((line.drop i).takeWhile p).length

/-- The place reached from `i` by `while (i > lo && p(line[i])) i--`. -/
def skip_back (line : List Char) (p : Char → Bool) (lo : Nat) : Nat → Nat
  | 0 => 0
  | i + 1 => if lo < i + 1 ∧ p (line.getD (i + 1) NUL) = true then skip_back line p lo i else i + 1

/-- The parsing of `get_process_details` once `fgets` has stored `line0`:
`(name, cmd, cpu, mem)` when it returns 0, `none` when it returns -1. -/
def parse_process_line (line0 : List Char) :
    Option (List Char × List Char × List Char × List Char) :=
  let line := (cstr line0).takeWhile (fun c => c ≠ '\n')
  if line.length = 0 then none
  else
    match strtok_all (fun c => c = ' ' ∨ c = '\t') line with
    | [] => none
    | tok :: _ =>
      let name := tok.take (MAX_PROC_NAME - 1)
      let remaining := skip_fwd line (fun c => c = ' ' ∨ c = '\t') tok.length
      match strrchr (line.drop remaining) ' ' with
      | none => none
      | some j =>
        let last_space := remaining + j
        let prev1 := skip_back line (fun c => c = ' ') remaining last_space
        let prev_space := skip_back line (fun c => c ≠ ' ') remaining prev1
        if prev_space ≤ remaining then none
        else
          let cpu_start := skip_fwd line (fun c => c = ' ') (prev_space + 1)
          let mem_start := skip_fwd line (fun c => c = ' ') (last_space + 1)
          let cpu := (((line.drop cpu_start).take (SIZEOF_PTR - 1))).takeWhile (fun c => c ≠ ' ')
          let mem := (line.drop mem_start).take (SIZEOF_PTR - 1)
          let cmd := ((line.take prev_space).drop remaining).take (MAX_CMDLINE - 1)
          some (name, cmd, cpu, mem)

/-- The function `get_process_details`.  `ps pid` is what the `ps` command
run for `pid` writes, `none` when `popen` fails. -/
def get_process_details (ps : Int → Option (List Char)) (pid : Int) :
    Option (List Char × List Char × List Char × List Char) :=
  match ps pid with
  | none => none
  | some out =>
    match fgets MAX_LINE out with
    | none => none
    | some (line, _) => parse_process_line line

/-- The tokens of a line as `collect_connections` cuts it with the
delimiters `" \t\n"`: blank, tab and newline. -/
def line_tokens (line : List Char) : List (List Char) :=
  strtok_all (fun c => c = ' ' ∨ c = '\t' ∨ c = '\n') (cstr line)

/-- The tokens `parts[0 .. part_count-1]` that `collect_connections` keeps
from a line: the first 20. -/
def line_parts (line : List Char) : List (List Char) :=
  (line_tokens line).take 20

/-- The loop that builds `users` from `parts[6 .. part_count-1]`. -/
def users_loop : List (List Char) → List Char → List Char
  | [], users => users
  | part :: rest, users =>
    if users.length + part.length + 1 < MAX_LINE then
      users_loop rest (if rest ≠ [] then users ++ part ++ [' '] else users ++ part)
    else users_loop rest users

/-- The body of the loop of `collect_connections` for one line: the record
stored in `conns[idx]`, or `none` when it leaves by `continue`. -/
def netconn_of_line (ps : Int → Option (List Char)) (line : List Char) : Option NetConn :=
  let parts := line_parts line
  if parts.length < 6 then none
  else
    let c : NetConn :=
      { proto := (parts.getD 0 []).take (MAX_PROC_NAME - 1)
        state := (parts.getD 1 []).take (MAX_PROC_NAME - 1)
        local_ := (parts.getD 4 []).take (MAX_PROC_NAME - 1)
        remote := (parts.getD 5 []).take (MAX_PROC_NAME - 1)
        pid := none
        process := "-".toList
        cmd := "-".toList
        cpu := "-".toList
        mem := "-".toList }
    if 6 < parts.length then
      let users := users_loop (parts.drop 6) []
      match strstr users "pid=".toList with
      | none => some c
      | some found =>
        let num := (found.drop 4).takeWhile isdigit
        if 0 < num.length ∧ num.length < MAX_PID_STR then
          let pid := atoi num
          match get_process_details ps pid with
          | some (name, cmd, cpu, mem) =>
            some { c with pid := some pid, process := name, cmd := cmd, cpu := cpu, mem := mem }
          | none =>
            some { c with pid := some pid, process := "???".toList, cmd := "???".toList }
        else some c
    else some c

/-- The loop `while (fgets(...) && idx < MAX_CONNECTIONS)` of
`collect_connections` over the lines still to read; `conns` holds the `idx`
records stored so far. -/
def collect_loop (ps : Int → Option (List Char)) :
    List (List Char) → List NetConn → List NetConn
  | [], conns => conns
  | line :: rest, conns =>
    if conns.length < MAX_CONNECTIONS then
      match netconn_of_line ps line with
      | none => collect_loop ps rest conns
      | some c => collect_loop ps rest (conns ++ [c])
    else conns

/-- The function `collect_connections`: `none` when it returns -1, otherwise
the records stored in `conns[0]`, `conns[1]`, ...; the count returned is
their number.  `ss` is what the `ss` command writes, `none` when `popen`
fails. -/
def collect_connections (ps : Int → Option (List Char)) (ss : Option (List Char)) :
    Option (List NetConn) :=
  match ss with
  | none => none
  | some text =>
    match read_lines MAX_LINE text with
    | [] => some []
    | _ :: body => some (collect_loop ps body [])

/-- The constant `MAX_INTERVAL`. -/
def MAX_INTERVAL : Int := 3600
/-- The constant `DEFAULT_INTERVAL`. -/
def DEFAULT_INTERVAL : Int := 3

/-- The function `truncate_str`: the string it leaves in `dst`.  The test
`strlen(src) <= max_len` compares as `size_t`, so a negative `max_len`
counts as a huge one.  With `0 <= max_len < 3` and a longer string the C
code calls `memcpy` with a negative size; the model says nothing true of
that case. -/
def truncate_str (src : List Char) (max_len : Int) : List Char :=
  if ((cstr src).length : Int) ≤ (if max_len < 0 then max_len + 2 ^ 64 else max_len) then
    cstr src
  else (cstr src).take (max_len - 3).toNat ++ "...".toList

/-- The three outputs of `parse_args`. -/
structure Args where
  json_mode : Int
  watch : Int
  interval : Int
  deriving DecidableEq, Repr

/-- The loop of `parse_args` over `argv[i], argv[i+1], ...`. -/
def parse_args_loop : List (List Char) → Args → Args
  | [], a => a
  | arg :: rest, a =>
    if strcmp_eq arg "--json".toList then parse_args_loop rest { a with json_mode := 1 }
    else if strcmp_eq arg "--watch".toList then parse_args_loop rest { a with watch := 1 }
    else if strcmp_eq arg "--interval".toList then
      match rest with
      | [] => a
      | v :: rest2 =>
        let val := atoi v
        parse_args_loop rest2
          (if 0 < val ∧ val ≤ MAX_INTERVAL then { a with interval := val } else a)
    else parse_args_loop rest a

/-- The function `parse_args`; `argv[0]` is the name of the program. -/
def parse_args (argv : List (List Char)) : Args :=
  parse_args_loop (argv.drop 1) { json_mode := 0, watch := 0, interval := DEFAULT_INTERVAL }

/-- The text `clear_screen` writes. -/
def clear_screen : List Char := "\x1B[2J\x1B[0;0H".toList

/-- What `printf` writes for one record in `print_json`; `last` is the test
`i == count - 1`. -/
def json_object (c : NetConn) (last : Bool) : List Char :=
  "  \x7b\n".toList ++
  "    \x22proto\x22: \x22".toList ++ cstr c.proto ++ "\x22,\n".toList ++
  "    \x22state\x22: \x22".toList ++ cstr c.state ++ "\x22,\n".toList ++
  "    \x22local\x22: \x22".toList ++ cstr c.local_ ++ "\x22,\n".toList ++
  "    \x22remote\x22: \x22".toList ++ cstr c.remote ++ "\x22,\n".toList ++
  (match c.pid with
    | some pid =>
      "    \x22pid\x22: ".toList ++ fmt_d pid ++ ",\n".toList ++
      "    \x22process\x22: \x22".toList ++ cstr c.process ++ "\x22,\n".toList ++
      "    \x22cmd\x22: \x22".toList ++ cstr c.cmd ++ "\x22,\n".toList ++
      "    \x22cpu\x22: \x22".toList ++ cstr c.cpu ++ "\x22,\n".toList ++
      "    \x22mem\x22: \x22".toList ++ cstr c.mem ++ "\x22\n".toList
    | none =>
      "    \x22pid\x22: null,\n".toList ++
      "    \x22process\x22: null,\n".toList ++
      "    \x22cmd\x22: null,\n".toList ++
      "    \x22cpu\x22: null,\n".toList ++
      "    \x22mem\x22: null\n".toList) ++
  "  \x7d".toList ++ (if last then [] else ",".toList) ++ "\n".toList

/-- The loop of `print_json` from index `i` over the records still to
print. -/
def print_json_loop (count : Int) : Int → List NetConn → List Char
  | _, [] => []
  | i, c :: rest => json_object c (i = count - 1) ++ print_json_loop count (i + 1) rest

/-- The function `print_json`: the text it writes for the `count` records of
`conns`. -/
def print_json (conns : List NetConn) : List Char :=
  "[\n".toList ++ print_json_loop conns.length 0 conns ++ "]\n".toList

/-- What `printf` writes for `%-Ns`: the string, then blanks up to the width. -/
def pad_to (width : Nat) (s : List Char) : List Char :=
  cstr s ++ List.replicate (width - (cstr s).length) ' '

/-- What `printf` writes for the format
`"%-8s | %-5s | %-15s | %-8s | %-25s | %-25s | %-5s | %-5s\n"`. -/
def fmt_row (c0 c1 c2 c3 c4 c5 c6 c7 : List Char) : List Char :=
  pad_to 8 c0 ++ " | ".toList ++ pad_to 5 c1 ++ " | ".toList ++ pad_to 15 c2 ++
  " | ".toList ++ pad_to 8 c3 ++ " | ".toList ++ pad_to 25 c4 ++ " | ".toList ++
  pad_to 25 c5 ++ " | ".toList ++ pad_to 5 c6 ++ " | ".toList ++ pad_to 5 c7 ++ "\n".toList

/-- The three strings `proc_trunc`, `local_trunc` and `remote_trunc` of a
table row. -/
def row_truncated (c : NetConn) : List Char × List Char × List Char :=
  (truncate_str c.process 15, truncate_str c.local_ 25, truncate_str c.remote 25)

/-- The string `pid_str` of a table row: `snprintf` with room for 5
characters, or `-`. -/
def row_pid_str (c : NetConn) : List Char :=
  match c.pid with
  | some pid => (fmt_d pid).take 5
  | none => "-".toList

/-- What `print_table_with_header` writes for one record. -/
def table_row (c : NetConn) : List Char :=
  fmt_row c.proto (row_pid_str c) (row_truncated c).1 c.state (row_truncated c).2.1
    (row_truncated c).2.2 c.cpu c.mem

/-- The counting loop of `print_table_with_header`: `(active, listening)`. -/
def count_states : List NetConn → Int × Int → Int × Int
  | [], acc => acc
  | c :: rest, acc =>
    let active := if strcmp_eq c.state "ESTAB".toList then acc.1 + 1 else acc.1
    let listening := if strcmp_eq c.state "LISTEN".toList then acc.2 + 1 else acc.2
    count_states rest (active, listening)

/-- The summary line of `print_table_with_header`. -/
def summary_line (conns : List NetConn) : List Char :=
  "Total connections: ".toList ++ fmt_d conns.length ++ " (".toList ++
  fmt_d (count_states conns (0, 0)).1 ++ " active, ".toList ++
  fmt_d (count_states conns (0, 0)).2 ++ " listening)\n".toList

/-- The function `print_table_with_header`: the text it writes.  `time_str`
is the local time of `timestamp` as `strftime` writes it. -/
def print_table_with_header (conns : List NetConn) (time_str : List Char) : List Char :=
  "Last updated: ".toList ++ cstr time_str ++ "\n".toList ++
  summary_line conns ++
  "--------------------------------------------------------------------------------\n".toList ++
  fmt_row "Proto".toList "PID".toList "Process".toList "State".toList "Local".toList
    "Remote".toList "CPU%".toList "MEM%".toList ++
  ("--------+-------+-----------------+----------+---------------" ++
    "------------+---------------------------+-------+------\n").toList ++
  (conns.map table_row).flatten

/-- Where the run of `main` stands. -/
inductive Phase where
  | initial
  | first_render (conns : List NetConn)
  | loop_test
  | sleeping
  | woke
  | collecting
  | rendering (conns : List NetConn)
  | finished (code : Int)
  deriving DecidableEq, Repr

/-- The state of a run of `main`: the global `shutdown_flag`, the place in
the code, and what has been written to `stdout` and `stderr`. -/
structure MainState where
  flag : Bool
  phase : Phase
  out : List Char
  err : List Char
  deriving DecidableEq, Repr

/-- What the world does during one step of `main`: whether SIGINT is
delivered (the handler sets `shutdown_flag`), what `ss` writes if the step
calls `collect_connections` (`none`: `popen` fails), and the local time
`strftime` writes if the step prints the table. -/
structure StepInput where
  sigint : Bool
  ss : Option (List Char)
  time_str : List Char

/-- The two lines `main` prints above the table in watch mode. -/
def banner (a : Args) : List Char :=
  "Network Monitor - Press Ctrl+C to exit\n".toList ++
  "Update interval: ".toList ++ fmt_d a.interval ++ "s\n\n".toList

/-- The text one rendering of a snapshot writes. -/
def render (a : Args) (conns : List NetConn) (time_str : List Char) : List Char :=
  if a.json_mode ≠ 0 then print_json conns else print_table_with_header conns time_str

/-- One step of `main` after `parse_args` and `signal`.
`initial`: the first `collect_connections`, in watch mode after
`clear_screen` and the banner; `first_render`: the first rendering;
`loop_test`: the test `while (!shutdown_flag)`; `sleeping`: `sleep`;
`woke`: the test `if (shutdown_flag) break`; `collecting`: `clear_screen`
and `collect_connections` in the loop; `rendering`: the rendering in the
loop; `finished`: `main` has returned the code.  A SIGINT delivered during
the step sets the flag after the step has read it. -/
def main_step (a : Args) (ps : Int → Option (List Char)) (inp : StepInput) (s : MainState) :
    MainState :=
  let flag := s.flag || inp.sigint
  match s.phase with
  | Phase.initial =>
    let out := if a.watch ≠ 0 then
        s.out ++ clear_screen ++ (if a.json_mode ≠ 0 then [] else banner a)
      else s.out
    match collect_connections ps inp.ss with
    | none =>
      { flag := flag, phase := Phase.finished 1, out := out,
        err := s.err ++ "Failed to run \x27ss\x27\n".toList ++
          "Failed to collect connections.\n".toList }
    | some conns => { flag := flag, phase := Phase.first_render conns, out := out, err := s.err }
  | Phase.first_render conns =>
    { flag := flag, phase := if a.watch ≠ 0 then Phase.loop_test else Phase.finished 0,
      out := s.out ++ render a conns inp.time_str, err := s.err }
  | Phase.loop_test =>
    if s.flag then
      { flag := flag, phase := Phase.finished 0,
        out := s.out ++ "\n\nShutting down gracefully...\n".toList, err := s.err }
    else { flag := flag, phase := Phase.sleeping, out := s.out, err := s.err }
  | Phase.sleeping => { flag := flag, phase := Phase.woke, out := s.out, err := s.err }
  | Phase.woke =>
    if s.flag then
      { flag := flag, phase := Phase.finished 0,
        out := s.out ++ "\n\nShutting down gracefully...\n".toList, err := s.err }
    else { flag := flag, phase := Phase.collecting, out := s.out, err := s.err }
  | Phase.collecting =>
    match collect_connections ps inp.ss with
    | none =>
      { flag := flag, phase := Phase.loop_test, out := s.out ++ clear_screen,
        err := s.err ++ "Failed to run \x27ss\x27\n".toList }
    | some conns =>
      { flag := flag, phase := Phase.rendering conns, out := s.out ++ clear_screen,
        err := s.err }
  | Phase.rendering conns =>
    { flag := flag, phase := Phase.loop_test,
      out := s.out ++ (if a.json_mode ≠ 0 then print_json conns
        else banner a ++ print_table_with_header conns inp.time_str),
      err := s.err }
  | Phase.finished _ => s

/-- The state a run of `main` reaches from `s` after one step for each
input. -/
def main_run (a : Args) (ps : Int → Option (List Char)) :
    List StepInput → MainState → MainState
  | [], s => s
  | inp :: rest, s => main_run a ps rest (main_step a ps inp s)

/-- The function `main`: the state reached from its start, where nothing
has been written and the flag is 0. -/
def main (argv : List (List Char)) (ps : Int → Option (List Char))
    (inputs : List StepInput) : MainState :=
  main_run (parse_args argv) ps inputs
    { flag := false, phase := Phase.initial, out := [], err := [] }

end NetMonitor

/-! ## Vocabulary of the statements -/

namespace Spec
open CLib

/-- Whether a string is empty or starts with a character that is neither a
hexadecimal digit, white space nor a sign: `sscanf` with `%x` finds no
number in it. -/
def starts_no_number (s : List Char) : Bool :=
  match s with
  | [] => true
  | c :: _ => !isxdigit c && !isspace c && !(c == '-') && !(c == '+')

/-- Whether `sscanf` with `%x` finds no number in a string: after the white
space it skips and the sign it accepts, the string ends or goes on with a
character that is no hexadecimal digit. -/
def no_hex_number (s : List Char) : Bool :=
  match (skipSign (s.dropWhile isspace)).2 with
  | [] => true
  | c :: _ => !isxdigit c

/-- The tokens of a line that white space separates: the maximal runs of
characters that are not `isspace` characters. -/
def ws_tokens (line : List Char) : List (List Char) := strtok_all isspace line

/-- A line of `ss` of more than 1022 characters: the fields of a `tcp`
socket, a run of 990 blanks, and, from character 1024 on, text that reads
like the fields of a `udp` socket. -/
def long_ss_line : List Char :=
  "tcp ESTAB 0 0 1.1.1.1:1 2.2.2.2:2".toList ++ List.replicate 990 ' ' ++
    "udp UNCONN 0 0 3.3.3.3:3 4.4.4.4:4".toList

/-- What `parse_args` reads an argument of the command line as. -/
inductive CliOption where
  | json
  | watch
  | interval (value : List Char)
  | other
  deriving DecidableEq

/-- The arguments after the program name as `parse_args` reads them, from
left to right: the argument that follows an `--interval` is its value and is
not read as an option, and an `--interval` in the last place has no value. -/
def read_options : List (List Char) → List CliOption
  | [] => []
  | arg :: rest =>
    if strcmp_eq arg "--json".toList then CliOption.json :: read_options rest
    else if strcmp_eq arg "--watch".toList then CliOption.watch :: read_options rest
    else if strcmp_eq arg "--interval".toList then
      match rest with
      | [] => [CliOption.other]
      | v :: rest2 => CliOption.interval v :: read_options rest2
    else CliOption.other :: read_options rest

/-- The interval an option sets: for `--interval` with a value that `atoi`
reads as a number from 1 to `MAX_INTERVAL`, that number. -/
def valid_interval : CliOption → Option Int
  | CliOption.interval v => if 0 < atoi v ∧ atoi v ≤ NetMonitor.MAX_INTERVAL then some (atoi v) else none
  | _ => none

/-- The settings a list of options stands for: json mode when `--json` is
among them, watch mode when `--watch` is, and the interval of the last
`--interval` with a value in range, `DEFAULT_INTERVAL` when there is none. -/
def args_of_options (opts : List CliOption) : NetMonitor.Args :=
  { json_mode := if CliOption.json ∈ opts then 1 else 0
    watch := if CliOption.watch ∈ opts then 1 else 0
    interval := ((opts.filterMap valid_interval).getLast?).getD NetMonitor.DEFAULT_INTERVAL }

/-- The upper-case form of a letter, as `toupper` gives it. -/
def toupper (c : Char) : Char :=
  if 97 ≤ c.toNat ∧ c.toNat ≤ 122 then Char.ofNat (c.toNat - 32) else c

/-- The upper-case hexadecimal digit of a value below 16. -/
def hexDigit (n : Nat) : Char := if n < 10 then Char.ofNat (48 + n) else Char.ofNat (55 + n)

/-- A number written with `width` upper-case hexadecimal digits. -/
def hex_encode : Nat → Nat → List Char
  | 0, _ => []
  | width + 1, n => hex_encode width (n / 16) ++ [hexDigit (n % 16)]

/-- The fields of a string between its dots. -/
def split_dots : List Char → List (List Char)
  | [] => [[]]
  | c :: s =>
    if c = '.' then [] :: split_dots s
    else
      match split_dots s with
      | [] => [[c]]
      | f :: fs => (c :: f) :: fs

/-- A decimal field of a dotted quad: digits only, at most 255. -/
def parse_octet (f : List Char) : Option Nat :=
  if f ≠ [] ∧ f.all isdigit = true ∧ decValue f ≤ 255 then some (decValue f) else none

/-- Standard dotted-quad parsing: four decimal octets separated by dots. -/
def parse_dotted_quad (s : List Char) : Option (List Nat) :=
  match split_dots s with
  | [a, b, c, d] =>
    match parse_octet a, parse_octet b, parse_octet c, parse_octet d with
    | some a, some b, some c, some d => some [a, b, c, d]
    | _, _, _, _ => none
  | _ => none

/-- The octets of an address written as 8 upper-case hexadecimal digits, in
the order given. -/
def encode_quad (octets : List Nat) : List Char :=
  match octets with
  | [] => []
  | o :: os => hex_encode 2 o ++ encode_quad os

/-- Lines of text put together, each followed by a newline. -/
def unlines : List (List Char) → List Char
  | [] => []
  | l :: ls => l ++ '\n' :: unlines ls

/-- Strings put together with one blank between them. -/
def join_blank : List (List Char) → List Char
  | [] => []
  | [p] => p
  | p :: q :: r => p ++ ' ' :: join_blank (q :: r)

/-- The decimal digits that directly follow the first `pid=` of a text;
empty when the text has no `pid=` or no digit follows the first one. -/
def digits_after_pid (users : List Char) : List Char :=
  match strstr users "pid=".toList with
  | none => []
  | some found => (found.drop 4).takeWhile isdigit

/-- A value of a member of a JSON object, as `print_json` can write one. -/
inductive JsonValue where
  | null
  | number (i : Int)
  | string (s : List Char)
  deriving DecidableEq, Repr

/-- The text of a value; a string is copied between double quotes as it is. -/
def JsonValue.raw_text : JsonValue → List Char
  | JsonValue.null => "null".toList
  | JsonValue.number i => fmt_d i
  | JsonValue.string s => "\x22".toList ++ s ++ "\x22".toList

/-- The members of an object, one on a line, with a comma after every member
but the last. -/
def members_text : List (List Char × JsonValue) → List Char
  | [] => []
  | [m] => "    \x22".toList ++ m.1 ++ "\x22: ".toList ++ m.2.raw_text ++ "\n".toList
  | m :: m2 :: ms =>
    "    \x22".toList ++ m.1 ++ "\x22: ".toList ++ m.2.raw_text ++ ",\n".toList ++
      members_text (m2 :: ms)

/-- The objects of a list, with a comma after every object but the last. -/
def objects_text : List (List (List Char × JsonValue)) → List Char
  | [] => []
  | [o] => "  \x7b\n".toList ++ members_text o ++ "  \x7d\n".toList
  | o :: o2 :: os =>
    "  \x7b\n".toList ++ members_text o ++ "  \x7d,\n".toList ++ objects_text (o2 :: os)

/-- A document: a bracketed list of objects. -/
def document_text (objects : List (List (List Char × JsonValue))) : List Char :=
  "[\n".toList ++ objects_text objects ++ "]\n".toList

/-- The nine members of the object of a record: the five that depend on the
pid are all values when the record has a pid and all `null` when it has
none. -/
def record_members (c : NetMonitor.NetConn) : List (List Char × JsonValue) :=
  [("proto".toList, JsonValue.string (cstr c.proto)),
   ("state".toList, JsonValue.string (cstr c.state)),
   ("local".toList, JsonValue.string (cstr c.local_)),
   ("remote".toList, JsonValue.string (cstr c.remote))] ++
  (match c.pid with
    | some pid =>
      [("pid".toList, JsonValue.number pid),
       ("process".toList, JsonValue.string (cstr c.process)),
       ("cmd".toList, JsonValue.string (cstr c.cmd)),
       ("cpu".toList, JsonValue.string (cstr c.cpu)),
       ("mem".toList, JsonValue.string (cstr c.mem))]
    | none =>
      [("pid".toList, JsonValue.null), ("process".toList, JsonValue.null),
       ("cmd".toList, JsonValue.null), ("cpu".toList, JsonValue.null),
       ("mem".toList, JsonValue.null)])

/-- Whether a string can stand between double quotes in a JSON document as
it is: it has no double quote, no backslash and no control character. -/
def needs_no_escape (s : List Char) : Bool :=
  s.all (fun c => c.toNat ≠ 34 ∧ c.toNat ≠ 92 ∧ 32 ≤ c.toNat)

/-- What `ps` writes in the examples: a line for the pid 1234, nothing for
any other pid. -/
def ps_sshd : Int → Option (List Char) :=
  fun pid => if pid = 1234 then some "sshd sshd: root@pts/0 0.0 0.1\n".toList else none

/-- A record of which only the state is filled in. -/
def conn_with_state (state : List Char) : NetMonitor.NetConn :=
  { proto := "tcp".toList, state := state, local_ := "1.1.1.1:1".toList,
    remote := "2.2.2.2:2".toList, pid := none, process := "-".toList, cmd := "-".toList,
    cpu := "-".toList, mem := "-".toList }

/-- A record owned by pid 77 whose command line holds double quotes and a
backslash. -/
def conn_quoted_cmd : NetMonitor.NetConn :=
  { proto := "tcp".toList, state := "ESTAB".toList, local_ := "1.1.1.1:1".toList,
    remote := "2.2.2.2:2".toList, pid := some 77, process := "sh".toList,
    cmd := "sh -c \x22a\x5cb\x22".toList, cpu := "0.0".toList, mem := "0.1".toList }

/-- After the first collection has succeeded `main` is never back at its
start and can only return 0. -/
def past_start (s : NetMonitor.MainState) : Prop :=
  s.phase ≠ NetMonitor.Phase.initial ∧ ∀ code, s.phase = NetMonitor.Phase.finished code → code = 0

/-- How many steps of `main` are left at most, in watch mode, once the
shutdown flag is set. -/
def shutdown_dist : NetMonitor.Phase → Nat
  | NetMonitor.Phase.initial => 4
  | NetMonitor.Phase.first_render _ => 2
  | NetMonitor.Phase.loop_test => 1
  | NetMonitor.Phase.sleeping => 2
  | NetMonitor.Phase.woke => 1
  | NetMonitor.Phase.collecting => 3
  | NetMonitor.Phase.rendering _ => 2
  | NetMonitor.Phase.finished _ => 0

/-- A step in which `ss` writes a header and one connection line and no
signal arrives. -/
def step_ok : NetMonitor.StepInput :=
  { sigint := false,
    ss := some "Netid State\ntcp ESTAB 0 0 1.1.1.1:1 2.2.2.2:2\n".toList,
    time_str := "2024-01-01 00:00:00".toList }

/-- A step in which `ss` cannot be run and no signal arrives. -/
def step_fail : NetMonitor.StepInput :=
  { sigint := false, ss := none, time_str := "2024-01-01 00:00:03".toList }

/-- A step during which SIGINT arrives. -/
def step_sigint : NetMonitor.StepInput :=
  { sigint := true, ss := none, time_str := "2024-01-01 00:00:06".toList }

/-- A watch-mode run: the first collection and rendering, a sleep, a
collection that fails, a SIGINT during the next sleep, the wake-up. -/
def watch_inputs : List NetMonitor.StepInput :=
  [step_ok, step_ok, step_ok, step_ok, step_ok, step_fail, step_ok, step_sigint, step_ok]

/-- The state of `main` in the watch loop, about to collect, with a display
already written. -/
def state_collecting : NetMonitor.MainState :=
  { flag := false, phase := NetMonitor.Phase.collecting, out := "previous display\n".toList,
    err := [] }

/-- Two records that agree in everything `collect_connections` takes from
the line of `ss`, and in everything else too unless their pid is `p`. -/
def same_but_details (p : Int) (x y : NetMonitor.NetConn) : Prop :=
  x.proto = y.proto ∧ x.state = y.state ∧ x.local_ = y.local_ ∧ x.remote = y.remote ∧
    x.pid = y.pid ∧ (x.pid ≠ some p → x = y)

/-- What `ps` writes when only the process 77 is alive. -/
def ps_only_77 : Int → Option (List Char) :=
  fun pid => if pid = 77 then some "x /bin/x 0.0 0.1\n".toList else none

/-- The record of a line owned by pid 77 when `ps` gives nothing. -/
def conn_pid_77 : NetMonitor.NetConn :=
  { proto := "tcp".toList, state := "ESTAB".toList, local_ := "1.1.1.1:1".toList,
    remote := "2.2.2.2:2".toList, pid := some 77, process := "???".toList,
    cmd := "???".toList, cpu := "-".toList, mem := "-".toList }

/-- What `ps` writes for a process whose name has 64 characters. -/
def ps_long_name : Int → Option (List Char) :=
  fun _ => some (List.replicate 64 'a' ++ " /bin/a 0.0 0.1\n".toList)

end Spec

namespace CalculatorApp
open CLib

/-- The operations on `double` the calculator uses, kept abstract: the
program is embedded over any carrier `V` of values with these operations.
`small v` is the test `fabs(v) < 1e-10`, `hundredth v` is `v / 100.0`, and
`format v` is the text `UpdateDisplay` produces for a value outside the
error state (the `snprintf` with `%.4e` or `%.10f` and the trimming of
trailing zeros). -/
structure DoubleOps (V : Type) where
  zero : V
  neg : V → V
  add : V → V → V
  sub : V → V → V
  mul : V → V → V
  div : V → V → V
  hundredth : V → V
  small : V → Bool
  atof : List Char → V
  format : V → List Char

/-- The struct `Calculator`. -/
structure Calculator (V : Type) where
  display : List Char
  currentValue : V
  storedValue : V
  operation : Char
  newInput : Bool
  error : Bool
  deriving DecidableEq

/-- The array `buttonLabels`; its last entry is the arrow U+2190. -/
def buttonLabels : List (List Char) :=
  ["C".toList, "+/-".toList, "%".toList, "/".toList, "7".toList, "8".toList, "9".toList,
   "*".toList, "4".toList, "5".toList, "6".toList, "-".toList, "1".toList, "2".toList,
   "3".toList, "+".toList, "0".toList, ".".toList, "=".toList, "←".toList]

/-- The function `InitCalculator`. -/
def InitCalculator {V : Type} (ops : DoubleOps V) : Calculator V :=
  { display := "0".toList, currentValue := ops.zero, storedValue := ops.zero,
    operation := NUL, newInput := true, error := false }

/-- The function `UpdateDisplay`. -/
def UpdateDisplay {V : Type} (ops : DoubleOps V) (cs : Calculator V) : Calculator V :=
  if cs.error then { cs with display := "Error".toList }
  else { cs with display := ops.format cs.currentValue }

/-- The body of `ProcessButtonPress`, with the function it calls for the
nested press of button 18 passed as `self`.  The result is `none` when
`buttonIndex` is outside the array `buttonLabels`.  The string compared for
the backspace branch is U+232B and the one for the sign branch is U+00B1, as
in the source. -/
def ProcessButtonPress_body {V : Type} (ops : DoubleOps V)
    (self : Calculator V → Int → Option (Calculator V))
    (cs : Calculator V) (buttonIndex : Int) : Option (Calculator V) :=
  if cs.error && buttonIndex != 0 then some cs
  else if buttonIndex < 0 then none
  else
    match buttonLabels.get? buttonIndex.toNat with
    | none => none
    | some label =>
      if strcmp_eq label "C".toList then some (InitCalculator ops)
      else if strcmp_eq label "⌫".toList then
        if 1 < cs.display.length then
          let display := cs.display.dropLast
          some { cs with display := display, currentValue := ops.atof display }
        else
          some { cs with display := "0".toList, currentValue := ops.zero, newInput := true }
      else if strcmp_eq label "±".toList then
        some (UpdateDisplay ops { cs with currentValue := ops.neg cs.currentValue })
      else if strcmp_eq label "%".toList then
        some (UpdateDisplay ops { cs with currentValue := ops.hundredth cs.currentValue })
      else if strcmp_eq label ".".toList then
        if cs.newInput then
          some { cs with display := "0.".toList, currentValue := ops.zero, newInput := false }
        else if !cs.display.contains '.' then
          some { cs with display := cs.display ++ ".".toList }
        else some cs
      else if strcmp_eq label "=".toList then
        if cs.operation != NUL then
          if cs.operation = '/' && ops.small cs.currentValue then
            some { cs with error := true }
          else
            let result :=
              if cs.operation = '+' then ops.add cs.storedValue cs.currentValue
              else if cs.operation = '-' then ops.sub cs.storedValue cs.currentValue
              else if cs.operation = '*' then ops.mul cs.storedValue cs.currentValue
              else if cs.operation = '/' then ops.div cs.storedValue cs.currentValue
              else ops.zero
            some { UpdateDisplay ops { cs with currentValue := result, operation := NUL }
                   with newInput := true }
        else some cs
      else if strcmp_eq label "+".toList || strcmp_eq label "-".toList ||
          strcmp_eq label "*".toList || strcmp_eq label "/".toList then
        let evaluated :=
          if cs.operation != NUL && !cs.newInput then self cs 18 else some cs
        evaluated.map fun c =>
          { c with storedValue := c.currentValue, operation := label.headD NUL, newInput := true }
      else if '0' ≤ label.headD NUL && label.headD NUL ≤ '9' then
        if cs.newInput then
          some { cs with display := label, currentValue := ops.atof label, newInput := false }
        else if cs.display.length < 15 then
          let display := if strcmp_eq cs.display "0".toList then label else cs.display ++ label
          some { cs with display := display, currentValue := ops.atof display }
        else some cs
      else some cs

/-- The function `ProcessButtonPress`.  It calls itself only from the branch
of the four operation buttons, with index 18, and that call takes the `=`
branch, which makes no further call; two levels of the body are the whole
recursion. -/
def ProcessButtonPress {V : Type} (ops : DoubleOps V) (cs : Calculator V)
    (buttonIndex : Int) : Option (Calculator V) :=
  ProcessButtonPress_body ops (ProcessButtonPress_body ops (fun c _ => some c)) cs buttonIndex

/-- The key code `KEY_ZERO` of raylib. -/
def KEY_ZERO : Int := 48

/-- The key code `KEY_NINE` of raylib. -/
def KEY_NINE : Int := 57

/-- The button index the keyboard handler of `main` computes for a digit:
`(digit == 0) ? 16 : (13 - (9 - digit))`. -/
def digit_button_index (digit : Int) : Int :=
  if digit = 0 then 16 else 13 - (9 - digit)

/-- The digit-key part of the keyboard handler of `main`: a key between
`KEY_ZERO` and `KEY_NINE` presses the button of the computed index; another
key leaves the calculator to the other tests of the handler. -/
def digit_key_press {V : Type} (ops : DoubleOps V) (cs : Calculator V) (key : Int) :
    Option (Calculator V) :=
  if KEY_ZERO ≤ key && key ≤ KEY_NINE then
    ProcessButtonPress ops cs (digit_button_index (key - KEY_ZERO))
  else some cs

end CalculatorApp

namespace CalcSpec
open CLib CalculatorApp

/-- An arithmetic for the examples: the integer-valued doubles, with exact
quotients.  For an integer the test `fabs(v) < 1e-10` is `v = 0`, `atof`
reads the leading integer, and the display text of an integer is its
decimal writing. -/
def int_ops : DoubleOps Int :=
  { zero := 0, neg := fun v => -v, add := fun a b => a + b, sub := fun a b => a - b,
    mul := fun a b => a * b, div := fun a b => Int.tdiv a b,
    hundredth := fun v => Int.tdiv v 100, small := fun v => v = 0,
    atof := atoi, format := fmt_d }

/-- The label of the button a digit names: the one-character string of the
digit. -/
def digit_label (d : Nat) : List Char := [Char.ofNat (48 + d)]

/-- The state after the presses 5, /, 0 from the initial state. -/
def five_over_zero : Calculator Int :=
  { display := "0".toList, currentValue := 0, storedValue := 5, operation := '/',
    newInput := false, error := false }

/-- The state with display 12 and value 12, outside the error state. -/
def shows_twelve : Calculator Int :=
  { display := "12".toList, currentValue := 12, storedValue := 0, operation := NUL,
    newInput := false, error := false }

end CalcSpec

namespace CliSnake
open CLib

/-- The constant `WINDOW_WIDTH`. -/
def WINDOW_WIDTH : Int := 800
/-- The constant `WINDOW_HEIGHT`. -/
def WINDOW_HEIGHT : Int := 600
/-- The constant `GRID_SIZE`. -/
def GRID_SIZE : Int := 20
/-- The constant `GRID_WIDTH`. -/
def GRID_WIDTH : Int := WINDOW_WIDTH / GRID_SIZE
/-- The constant `GRID_HEIGHT`. -/
def GRID_HEIGHT : Int := WINDOW_HEIGHT / GRID_SIZE
/-- The constant `MAX_SNAKE_LENGTH`. -/
def MAX_SNAKE_LENGTH : Int := 1000

/-- The enumeration `Direction`. -/
inductive Direction where
  | DIR_UP
  | DIR_DOWN
  | DIR_LEFT
  | DIR_RIGHT
  deriving DecidableEq

/-- The struct `Point`. -/
structure Point where
  x : Int
  y : Int
  deriving DecidableEq

/-- The struct `GameState`, without its two `double` fields (the time of the
last move and the interval between moves), which no other field depends on.
The array `snake` is the list of its `MAX_SNAKE_LENGTH` slots. -/
structure GameState where
  snake : List Point
  snake_length : Int
  direction : Direction
  food : Point
  score : Int
  game_over : Int
  paused : Int
  deriving DecidableEq

/-- The array read `game.snake[i]`. -/
def slot (g : GameState) (i : Nat) : Point := g.snake.getD i ⟨0, 0⟩

/-- The function `is_position_occupied`. -/
def is_position_occupied (g : GameState) (x y : Int) : Bool :=
  (List.range g.snake_length.toNat).any fun i => (slot g i).x = x && (slot g i).y = y

/-- The do-while loop of `generate_food` from the attempt numbered
`attempts`, with at most `remaining` rounds; `rand k` is the result of the
call of `rand()` numbered `k` since `generate_food` was entered. -/
def generate_food_loop (rand : Nat → Nat) : Nat → Nat → GameState → GameState
  | 0, _, g => g
  | remaining + 1, attempts, g =>
    let g1 := { g with food := ⟨(rand (2 * attempts) : Int) % GRID_WIDTH,
                                (rand (2 * attempts + 1) : Int) % GRID_HEIGHT⟩ }
    if is_position_occupied g1 g1.food.x g1.food.y && decide (attempts + 1 < 100) then
      generate_food_loop rand remaining (attempts + 1) g1
    else g1

/-- The function `generate_food`: the loop ends after at most 100 rounds. -/
def generate_food (rand : Nat → Nat) (g : GameState) : GameState :=
  generate_food_loop rand 100 0 g

/-- The head moved one cell in the direction (the `switch` of `move_snake`),
in the arithmetic of `int`. -/
def step_head (d : Direction) (p : Point) : Point :=
  match d with
  | .DIR_UP => { p with y := sub32 p.y 1 }
  | .DIR_DOWN => { p with y := add32 p.y 1 }
  | .DIR_LEFT => { p with x := sub32 p.x 1 }
  | .DIR_RIGHT => { p with x := add32 p.x 1 }

/-- The four wrap-around tests of `move_snake`, in their order. -/
def wrap_head (p : Point) : Point :=
  let p1 := if p.x < 0 then { p with x := GRID_WIDTH - 1 } else p
  let p2 := if p1.x ≥ GRID_WIDTH then { p1 with x := 0 } else p1
  let p3 := if p2.y < 0 then { p2 with y := GRID_HEIGHT - 1 } else p2
  if p3.y ≥ GRID_HEIGHT then { p3 with y := 0 } else p3

/-- The loop `for (i = snake_length - 1; i > 0; i--) snake[i] = snake[i - 1]`
from `i` down to 1. -/
def shift_body : Nat → List Point → List Point
  | 0, s => s
  | i + 1, s => shift_body i (s.set (i + 1) (s.getD i ⟨0, 0⟩))

/-- The function `move_snake`. -/
def move_snake (rand : Nat → Nat) (g : GameState) : GameState :=
  if g.game_over ≠ 0 ∨ g.paused ≠ 0 then g
  else
    let new_head := wrap_head (step_head g.direction (slot g 0))
    if is_position_occupied g new_head.x new_head.y then { g with game_over := 1 }
    else
      let body := shift_body (g.snake_length - 1).toNat g.snake
      let g1 := { g with snake := body.set 0 new_head }
      if (slot g1 0).x = g1.food.x ∧ (slot g1 0).y = g1.food.y then
        let g2 := { g1 with score := add32 g1.score 10 }
        let g3 := if g2.snake_length < MAX_SNAKE_LENGTH then
            { g2 with snake_length := g2.snake_length + 1 } else g2
        generate_food rand g3
      else g1

end CliSnake

namespace SnakeSpec
open CLib CliSnake

/-- A point inside the grid: `0 <= x < 40` and `0 <= y < 30`. -/
def in_grid (p : Point) : Prop :=
  0 ≤ p.x ∧ p.x < GRID_WIDTH ∧ 0 ≤ p.y ∧ p.y < GRID_HEIGHT

instance (p : Point) : Decidable (in_grid p) := by unfold in_grid; infer_instance

/-- The active segments, those of the first `snake_length` slots, all lie
inside the grid. -/
def active_in_grid (g : GameState) : Prop :=
  ∀ i ∈ List.range g.snake_length.toNat, in_grid (slot g i)

instance (g : GameState) : Decidable (active_in_grid g) := by
  unfold active_in_grid; infer_instance

/-- The state `init_game` sets up in the zeroed global, with the food one
cell ahead of the head. -/
def start_state : GameState :=
  { snake := [⟨20, 15⟩, ⟨19, 15⟩, ⟨18, 15⟩] ++ List.replicate 997 ⟨0, 0⟩,
    snake_length := 3, direction := .DIR_RIGHT, food := ⟨21, 15⟩, score := 0,
    game_over := 0, paused := 0 }

/-- The state `start_state` with the point (100, 100) in slot 3, the first
slot past the active segments. -/
def stale_state : GameState :=
  { start_state with
    snake := [⟨20, 15⟩, ⟨19, 15⟩, ⟨18, 15⟩, ⟨100, 100⟩] ++ List.replicate 996 ⟨0, 0⟩ }

end SnakeSpec

namespace CalNavigate
open CLib

/-- The struct `Date`. -/
structure Date where
  year : Int
  month : Int
  day : Int
  deriving DecidableEq

/-- The function `is_leap_year`; `tmod` is the remainder of C, which takes
the sign of the dividend. -/
def is_leap_year (year : Int) : Bool :=
  (year.tmod 4 == 0 && year.tmod 100 != 0) || year.tmod 400 == 0

/-- The function `days_in_month`. -/
def days_in_month (year month : Int) : Int :=
  if month = 1 ∨ month = 3 ∨ month = 5 ∨ month = 7 ∨ month = 8 ∨ month = 10 ∨ month = 12 then 31
  else if month = 4 ∨ month = 6 ∨ month = 9 ∨ month = 11 then 30
  else if month = 2 then (if is_leap_year year then 29 else 28)
  else 30

/-- The function `get_weekday`; `tdiv` and `tmod` are the quotient and the
remainder of C, which round toward zero, and the sums, differences and
products are those of `int`, wrapped to 32 bits. -/
def get_weekday (d : Date) : Int :=
  let month := if d.month < 3 then add32 d.month 12 else d.month
  let year := if d.month < 3 then sub32 d.year 1 else d.year
  let k := year.tmod 100
  let j := year.tdiv 100
  let h := (sub32 (add32 (add32 (add32 (add32 d.day ((mul32 13 (add32 month 1)).tdiv 5)) k)
    (k.tdiv 4)) (j.tdiv 4)) (mul32 2 j)).tmod 7
  (add32 h 7).tmod 7

/-- The first loop of `add_days`, `while (days > 0)`, on the pair of the
date and the count; one unit of fuel for each test of the loop condition,
and `none` when the fuel runs out.  The arithmetic is that of `int`, wrapped
to 32 bits. -/
def add_days_forward : Nat → Date → Int → Option (Date × Int)
  | 0, _, _ => none
  | fuel + 1, d, days =>
    if days > 0 then
      let limit := days_in_month d.year d.month
      if add32 d.day days ≤ limit then
        add_days_forward fuel { d with day := add32 d.day days } 0
      else
        let days1 := sub32 days (add32 (sub32 limit d.day) 1)
        if d.month = 12 then add_days_forward fuel ⟨add32 d.year 1, 1, 1⟩ days1
        else add_days_forward fuel ⟨d.year, add32 d.month 1, 1⟩ days1
    else some (d, days)

/-- The second loop of `add_days`, `while (days < 0)`. -/
def add_days_backward : Nat → Date → Int → Option (Date × Int)
  | 0, _, _ => none
  | fuel + 1, d, days =>
    if days < 0 then
      if add32 d.day days > 0 then
        add_days_backward fuel { d with day := add32 d.day days } 0
      else
        let days1 := add32 days d.day
        if d.month = 1 then
          add_days_backward fuel ⟨sub32 d.year 1, 12, days_in_month (sub32 d.year 1) 12⟩ days1
        else
          add_days_backward fuel
            ⟨d.year, sub32 d.month 1, days_in_month d.year (sub32 d.month 1)⟩ days1
    else some (d, days)

/-- The function `add_days`: the first loop, then the second one on what
the first left; `fuel` bounds the tests of each loop. -/
def add_days (fuel : Nat) (d : Date) (days : Int) : Option Date :=
  match add_days_forward fuel d days with
  | none => none
  | some (d1, days1) => (add_days_backward fuel d1 days1).map Prod.fst

/-- The blank cells `render` writes before day 1 of the month: three spaces
for each `i` below `get_weekday` of the first of the month. -/
def render_blanks (year month : Int) : List Char :=
  (List.replicate (get_weekday ⟨year, month, 1⟩).toNat "   ".toList).flatten

end CalNavigate

namespace CalSpec
open CLib CalNavigate

/-- A value of the type `int`. -/
def is_int (x : Int) : Prop := INT_MIN ≤ x ∧ x ≤ INT_MAX

instance (x : Int) : Decidable (is_int x) := by unfold is_int; infer_instance

/-- A valid date: the month is in 1..12 and the day in 1..days_in_month. -/
def valid_date (d : Date) : Prop :=
  1 ≤ d.month ∧ d.month ≤ 12 ∧ 1 ≤ d.day ∧ d.day ≤ days_in_month d.year d.month

instance (d : Date) : Decidable (valid_date d) := by unfold valid_date; infer_instance

/-- The day after a date, the year counted in `int`. -/
def next_day (d : Date) : Date :=
  if d.day < days_in_month d.year d.month then { d with day := d.day + 1 }
  else if d.month = 12 then ⟨add32 d.year 1, 1, 1⟩
  else ⟨d.year, d.month + 1, 1⟩

/-- The day before a date, the year counted in `int`. -/
def prev_day (d : Date) : Date :=
  if 1 < d.day then { d with day := d.day - 1 }
  else if d.month = 1 then ⟨sub32 d.year 1, 12, days_in_month (sub32 d.year 1) 12⟩
  else ⟨d.year, d.month - 1, days_in_month d.year (d.month - 1)⟩

/-- The year `get_weekday` computes with: the year before for January and
February, which it counts as months 13 and 14. -/
def zeller_year (d : Date) : Int := if d.month < 3 then sub32 d.year 1 else d.year

end CalSpec

namespace TcpUdpShowKeys
open CLib

/-- The key code `KEY_DOWN` of the curses header. -/
def KEY_DOWN : Int := 258
/-- The key code `KEY_UP` of the curses header. -/
def KEY_UP : Int := 259
/-- The key code `KEY_NPAGE` of the curses header. -/
def KEY_NPAGE : Int := 338
/-- The key code `KEY_PPAGE` of the curses header. -/
def KEY_PPAGE : Int := 339

/-- The key handling at the end of the loop of `main`: from the key `ch`,
the screen height `row`, the number `count` of connections and the scroll
`offset`, the new offset and whether the loop is left.  The arithmetic is
that of `int`. -/
def key_step (ch row count offset : Int) : Int × Bool :=
  if ch = KEY_DOWN ∧ offset < sub32 count 1 then (add32 offset 1, false)
  else if ch = KEY_UP ∧ offset > 0 then (sub32 offset 1, false)
  else if ch = KEY_NPAGE then
    let moved := add32 offset (sub32 row 3)
    (if moved > sub32 count 1 then sub32 count 1 else moved, false)
  else if ch = KEY_PPAGE then
    let moved := sub32 offset (sub32 row 3)
    (if moved < 0 then 0 else moved, false)
  else if ch = 113 ∨ ch = 81 then (offset, true)
  else (offset, false)

end TcpUdpShowKeys

open CLib TcpUdpShow NetMonitor Spec

/-! ## Address decoder and classification (`tcp_udp_show`) -/

/-- A record of which only the remote address is filled in. -/
def conn_with_raddr (raddr : List Char) : Conn :=
  { proto := [], laddr := [], raddr := raddr, country := [], asn := [], latency := 0, state := [] }

/-- C1, evaluated on the code: for the kernel's little-endian encoding
`0100007F` of 127.0.0.1 and the port `0016`, `hex_to_ip_port` gives the port
22 but the address with its bytes in the reverse order, `1.0.0.127`, whatever
its locals held before. -/
theorem hex_to_ip_port_loopback (ip0 p0 : Nat) :
    hex_to_ip_port ip0 p0 "0100007F".toList "0016".toList = ("1.0.0.127".toList, 22) := by
  have h1 : sscanf_x "0100007F".toList = some 16777343 := by decide
  have h2 : sscanf_x "0016".toList = some 22 := by decide
  simp only [hex_to_ip_port, h1, h2, Option.getD_some]
  decide

/-- C2, evaluated on the code: the listening-socket line
`0: 0100007F:0277 00000000:0000 0A` is accepted by `load_connections`, its
remote address is stored as `0.0.0.0:0`, and the record is not classified
LOCAL: the branch of the label EXTERNAL is taken, and the field `country`
reads `EXTERNALN/A`. -/
theorem load_connections_listening_socket :
    load_connections 0 0 (some "  sl  local_address rem_address   st\n   0: 0100007F:0277 00000000:0000 0A\n".toList)
        "TCP".toList 1024 =
      [{ proto := "TCP".toList, laddr := "1.0.0.127:631".toList, raddr := "0.0.0.0:0".toList,
         country := "EXTERNALN/A".toList, asn := "N/A".toList, latency := -1,
         state := "0A".toList }] := by
  decide

theorem field_bytes_length (n : Nat) (s : List Char) : (field_bytes n s).length = n := by
  simp [field_bytes, List.length_take, List.length_append, List.length_replicate]

/-- The strings that start at `country` and at `asn` after the two `strcpy`
calls of `enrich_data`, for each of the three labels, whatever the arrays
held before. -/
theorem enrich_data_fields (country asn : List Char) :
    (cstr (strcpy_at (strcpy_at (field_bytes 8 country ++ field_bytes 16 asn) 0 "LOCAL".toList) 8
        "N/A".toList) = "LOCAL".toList ∧
     cstr (strcpy_at (strcpy_at (field_bytes 8 country ++ field_bytes 16 asn) 0 "PRIVATE".toList)
        8 "N/A".toList) = "PRIVATE".toList ∧
     cstr (strcpy_at (strcpy_at (field_bytes 8 country ++ field_bytes 16 asn) 0
        "EXTERNAL".toList) 8 "N/A".toList) = "EXTERNALN/A".toList) ∧
    (cstr ((strcpy_at (strcpy_at (field_bytes 8 country ++ field_bytes 16 asn) 0
        "LOCAL".toList) 8 "N/A".toList).drop 8) = "N/A".toList ∧
     cstr ((strcpy_at (strcpy_at (field_bytes 8 country ++ field_bytes 16 asn) 0
        "PRIVATE".toList) 8 "N/A".toList).drop 8) = "N/A".toList ∧
     cstr ((strcpy_at (strcpy_at (field_bytes 8 country ++ field_bytes 16 asn) 0
        "EXTERNAL".toList) 8 "N/A".toList).drop 8) = "N/A".toList) := by
  have h8 := field_bytes_length 8 country
  have h16 := field_bytes_length 16 asn
  generalize field_bytes 8 country = A at h8
  generalize field_bytes 16 asn = B at h16
  match A, h8 with
  | [a0, a1, a2, a3, a4, a5, a6, a7], _ =>
    match B, h16 with
    | b0 :: b1 :: b2 :: b3 :: t, _ =>
      refine ⟨⟨?_, ?_, ?_⟩, ?_, ?_, ?_⟩ <;> rfl

/-- The field `country` after `enrich_data`, by the tests on the remote
address. -/
theorem enrich_data_country (c : Conn) :
    (enrich_data c).country =
      (if strncmp_eq c.raddr "127.".toList 4 || strcmp_eq c.raddr "0.0.0.0".toList then
        "LOCAL".toList
      else if strncmp_eq c.raddr "10.".toList 3 || strncmp_eq c.raddr "192.168.".toList 8 ||
          strncmp_eq c.raddr "172.".toList 4 then
        "PRIVATE".toList
      else
        "EXTERNALN/A".toList) := by
  obtain ⟨⟨h1, h2, h3⟩, _⟩ := enrich_data_fields c.country c.asn
  unfold enrich_data
  dsimp only
  split_ifs
  · exact h1
  · exact h2
  · exact h3

/-- C3 (refuted, defect of the code): for the remote address `203.0.113.1`
the field `country` does not read EXTERNAL.  The array `country` has 8
bytes and `strcpy` writes 9, the 8 characters of `EXTERNAL` and a NUL; the
NUL falls in the first byte of `asn`, where `strcpy(c->asn, "N/A")`
overwrites it, so the field reads `EXTERNALN/A`.  The rest of the claim holds: the
field depends on the remote address only, it reads LOCAL, PRIVATE and LOCAL
for `127.0.0.1`, `10.0.0.5` and `0.0.0.0`, and every record gets exactly one
of three texts. -/
theorem enrich_data_label :
    (∀ c : Conn, c.raddr = "203.0.113.1".toList →
      (enrich_data c).country = "EXTERNALN/A".toList ∧ (enrich_data c).asn = "N/A".toList) ∧
    "EXTERNALN/A".toList ≠ "EXTERNAL".toList ∧
    (enrich_data (conn_with_raddr "203.0.113.1:443".toList)).country = "EXTERNALN/A".toList ∧
    (∀ c1 c2 : Conn, c1.raddr = c2.raddr →
      (enrich_data c1).country = (enrich_data c2).country) ∧
    (∀ c : Conn, c.raddr = "127.0.0.1".toList → (enrich_data c).country = "LOCAL".toList) ∧
    (∀ c : Conn, c.raddr = "10.0.0.5".toList → (enrich_data c).country = "PRIVATE".toList) ∧
    (∀ c : Conn, c.raddr = "0.0.0.0".toList → (enrich_data c).country = "LOCAL".toList) ∧
    (∀ c : Conn, (enrich_data c).country = "LOCAL".toList ∨
      (enrich_data c).country = "PRIVATE".toList ∨
      (enrich_data c).country = "EXTERNALN/A".toList) := by
  refine ⟨?_, by decide, by decide, ?_, ?_, ?_, ?_, ?_⟩
  · intro c h
    constructor
    · rw [enrich_data_country, h]
      decide
    · have h3 := (enrich_data_fields c.country c.asn).2.2.2
      have hl : (strncmp_eq c.raddr "127.".toList 4 || strcmp_eq c.raddr "0.0.0.0".toList)
          = false := by rw [h]; decide
      have hp : (strncmp_eq c.raddr "10.".toList 3 || strncmp_eq c.raddr "192.168.".toList 8 ||
          strncmp_eq c.raddr "172.".toList 4) = false := by rw [h]; decide
      unfold enrich_data
      dsimp only
      rw [hl, hp]
      exact h3
  · intro c1 c2 h
    rw [enrich_data_country, enrich_data_country, h]
  · intro c h
    rw [enrich_data_country, h]
    decide
  · intro c h
    rw [enrich_data_country, h]
    decide
  · intro c h
    rw [enrich_data_country, h]
    decide
  · intro c
    rw [enrich_data_country]
    split_ifs
    · exact Or.inl rfl
    · exact Or.inr (Or.inl rfl)
    · exact Or.inr (Or.inr rfl)

/-- C4 fails on the code: `172.32.0.1` and `172.15.255.255` are classified
PRIVATE, not EXTERNAL. -/
theorem enrich_data_172_32_private :
    (enrich_data (conn_with_raddr "172.32.0.1".toList)).country = "PRIVATE".toList ∧
    (enrich_data (conn_with_raddr "172.15.255.255".toList)).country = "PRIVATE".toList ∧
    "PRIVATE".toList ≠ "EXTERNAL".toList := by
  decide

/-- C4 as amended: every remote address that begins with `172.` is classified
PRIVATE, whatever its second octet, and a remote address that is not
`0.0.0.0` and begins with none of `127.`, `10.`, `192.168.` and `172.` is
classified neither LOCAL nor PRIVATE. -/
theorem enrich_data_172_private (c : Conn) (rest : List Char)
    (h : c.raddr = "172.".toList ++ rest) :
    (enrich_data c).country = "PRIVATE".toList ∧
    ∀ c2 : Conn, strcmp_eq c2.raddr "0.0.0.0".toList = false →
      strncmp_eq c2.raddr "127.".toList 4 = false →
      strncmp_eq c2.raddr "10.".toList 3 = false →
      strncmp_eq c2.raddr "192.168.".toList 8 = false →
      strncmp_eq c2.raddr "172.".toList 4 = false →
      (enrich_data c2).country ≠ "LOCAL".toList ∧
      (enrich_data c2).country ≠ "PRIVATE".toList := by
  have e : "172.".toList ++ rest = '1' :: '7' :: '2' :: '.' :: rest := rfl
  constructor
  · have h1 : strncmp_eq c.raddr "127.".toList 4 = false := by
      rw [h, e]; simp [strncmp_eq, cstr, List.takeWhile, NUL]
    have h2 : strcmp_eq c.raddr "0.0.0.0".toList = false := by
      rw [h, e]; simp [strcmp_eq, cstr, List.takeWhile, NUL]
    have h3 : strncmp_eq c.raddr "172.".toList 4 = true := by
      rw [h, e]; simp [strncmp_eq, cstr, List.takeWhile, NUL]
    rw [enrich_data_country]
    simp only [h1, h2, h3, Bool.or_false, Bool.or_true, Bool.false_eq_true,
      if_false, if_true]
  · intro c2 h0 h1 h2 h3 h4
    rw [enrich_data_country]
    simp only [h0, h1, h2, h3, h4, Bool.or_false, Bool.false_eq_true, if_false]
    decide

/-- C4 as amended, at `172.20.1.1`. -/
theorem enrich_data_172_private_witness :
    (enrich_data (conn_with_raddr "172.20.1.1".toList)).country = "PRIVATE".toList :=
  (enrich_data_172_private (conn_with_raddr "172.20.1.1".toList) "20.1.1".toList rfl).1

/-! ### Reading hexadecimal fields -/

theorem isxdigit_not_space {c : Char} (h : isxdigit c = true) : isspace c = false := by
  simp only [isxdigit, isspace, decide_eq_true_eq, Bool.decide_or, Bool.decide_and,
    Bool.or_eq_true, Bool.and_eq_true, Bool.or_eq_false_iff, Bool.and_eq_false_imp,
    decide_eq_false_iff_not] at h ⊢
  omega

theorem isxdigit_toNat {c : Char} (h : isxdigit c = true) :
    (48 ≤ c.toNat ∧ c.toNat ≤ 57) ∨ (65 ≤ c.toNat ∧ c.toNat ≤ 70) ∨
      (97 ≤ c.toNat ∧ c.toNat ≤ 102) := by
  simpa [isxdigit] using h

theorem char_ne_of_toNat {c d : Char} (h : c.toNat ≠ d.toNat) : c ≠ d := by
  intro e
  exact h (by rw [e])

theorem skipSign_xdigit {c : Char} (t : List Char) (h : isxdigit c = true) :
    skipSign (c :: t) = (false, c :: t) := by
  have hb := isxdigit_toNat h
  have h1 : c ≠ '-' := char_ne_of_toNat (by
    have : ('-' : Char).toNat = 45 := by decide
    omega)
  have h2 : c ≠ '+' := char_ne_of_toNat (by
    have : ('+' : Char).toNat = 43 := by decide
    omega)
  simp [skipSign, h1, h2]

theorem skipHexPrefix_xdigits (s : List Char) (h : ∀ c ∈ s, isxdigit c = true) :
    skipHexPrefix s = s := by
  match s, h with
  | [], _ => rfl
  | [_], _ => rfl
  | [_, _], _ => rfl
  | c0 :: c1 :: c2 :: t, h =>
    have hb := isxdigit_toNat (h c1 (by simp))
    have h1 : c1 ≠ 'x' := char_ne_of_toNat (by
      have : ('x' : Char).toNat = 120 := by decide
      omega)
    have h2 : c1 ≠ 'X' := char_ne_of_toNat (by
      have : ('X' : Char).toNat = 88 := by decide
      omega)
    simp [skipHexPrefix, h1, h2]

theorem hexDigitValue_lt {c : Char} (h : isxdigit c = true) : hexDigitValue c < 16 := by
  have hb := isxdigit_toNat h
  unfold hexDigitValue
  split
  · omega
  · split <;> omega

theorem hexValue_append_one (ds : List Char) (c : Char) :
    hexValue (ds ++ [c]) = hexValue ds * 16 + hexDigitValue c := by
  simp [hexValue, List.foldl_append]

theorem hexValue_lt (ds : List Char) (h : ∀ c ∈ ds, isxdigit c = true) :
    hexValue ds < 16 ^ ds.length := by
  induction ds using List.reverseRecOn with
  | nil => simp [hexValue]
  | append_singleton ds c ih =>
    have h1 := ih (fun x hx => h x (by simp [hx]))
    have h2 := hexDigitValue_lt (h c (by simp))
    rw [hexValue_append_one, List.length_append, List.length_singleton, pow_succ]
    omega

/-- On a non-empty run of at most 8 hexadecimal digits `sscanf` with `%x`
stores the value of the run. -/
theorem sscanf_x_xdigits (s : List Char) (hne : s ≠ []) (h : ∀ c ∈ s, isxdigit c = true)
    (hlen : s.length ≤ 8) : sscanf_x s = some (hexValue s) := by
  obtain ⟨c, t, rfl⟩ := List.exists_cons_of_ne_nil hne
  have hc := h c (by simp)
  have hd : List.dropWhile isspace (c :: t) = c :: t :=
    List.dropWhile_cons_of_neg (by simp [isxdigit_not_space hc])
  have ht : List.takeWhile isxdigit (c :: t) = c :: t := List.takeWhile_eq_self_iff.2 h
  have hv : hexValue (c :: t) < 2 ^ 32 := by
    have h1 := hexValue_lt (c :: t) h
    have h2 : 16 ^ (c :: t).length ≤ 16 ^ 8 := Nat.pow_le_pow_right (by norm_num) hlen
    have h3 : (16 : Nat) ^ 8 = 2 ^ 32 := by norm_num
    omega
  have hv64 : ¬ 2 ^ 64 ≤ hexValue (c :: t) := by
    have : (2 : Nat) ^ 32 < 2 ^ 64 := by norm_num
    omega
  simp only [sscanf_x, hd, skipSign_xdigit t hc, skipHexPrefix_xdigits (c :: t) h, ht]
  simp only [reduceCtorEq, if_false, hv64, Bool.false_eq_true]
  rw [Nat.mod_eq_of_lt hv]

theorem sscanf_x_no_number (s : List Char) (h : starts_no_number s = true) :
    sscanf_x s = none := by
  match s, h with
  | [], _ => rfl
  | c :: t, h =>
    simp only [starts_no_number, Bool.and_eq_true, Bool.not_eq_true', beq_eq_false_iff_ne,
      ne_eq] at h
    obtain ⟨⟨⟨hx, hs⟩, hm⟩, hp⟩ := h
    have hd : List.dropWhile isspace (c :: t) = c :: t :=
      List.dropWhile_cons_of_neg (by simp [hs])
    have hpre : ∃ t2, skipHexPrefix (c :: t) = c :: t2 := by
      match t with
      | [] => exact ⟨_, rfl⟩
      | [_] => exact ⟨_, rfl⟩
      | c1 :: c2 :: t3 =>
        have h0 : c ≠ '0' := by
          intro e
          rw [e] at hx
          exact absurd hx (by decide)
        exact ⟨c1 :: c2 :: t3, by simp [skipHexPrefix, h0]⟩
    obtain ⟨t2, hpre⟩ := hpre
    simp [sscanf_x, hd, skipSign, hm, hp, hpre, List.takeWhile, hx]

theorem skipHexPrefix_head (c : Char) (t : List Char) :
    (isxdigit c = false → ∃ t2, skipHexPrefix (c :: t) = c :: t2) ∧
    (isxdigit c = true → ∃ c2 t2, skipHexPrefix (c :: t) = c2 :: t2 ∧ isxdigit c2 = true) := by
  constructor
  · intro hx
    match t with
    | [] => exact ⟨_, rfl⟩
    | [_] => exact ⟨_, rfl⟩
    | c1 :: c2 :: t3 =>
      have h0 : c ≠ '0' := by
        intro e
        rw [e] at hx
        exact absurd hx (by decide)
      exact ⟨c1 :: c2 :: t3, by simp [skipHexPrefix, h0]⟩
  · intro hx
    match t with
    | [] => exact ⟨c, [], rfl, hx⟩
    | [c1] => exact ⟨c, [c1], rfl, hx⟩
    | c1 :: c2 :: t3 =>
      by_cases hp : c = '0' ∧ (c1 = 'x' ∨ c1 = 'X') ∧ isxdigit c2 = true
      · exact ⟨c2, t3, by simp only [skipHexPrefix, hp, and_self, if_true], hp.2.2⟩
      · exact ⟨c, c1 :: c2 :: t3, by simp only [skipHexPrefix, hp, if_false], hx⟩

/-- The call of `sscanf` with `%x` stores nothing exactly when the string
has no hexadecimal digit after its white space and sign. -/
theorem sscanf_x_none_iff (s : List Char) : sscanf_x s = none ↔ no_hex_number s = true := by
  unfold sscanf_x no_hex_number
  dsimp only
  cases hr : (skipSign (List.dropWhile isspace s)).2 with
  | nil => simp [skipHexPrefix]
  | cons c t =>
    by_cases hx : isxdigit c = true
    · obtain ⟨c2, t2, e, hx2⟩ := (skipHexPrefix_head c t).2 hx
      simp [e, List.takeWhile, hx2, hx]
    · have hx' : isxdigit c = false := Bool.eq_false_iff.2 hx
      obtain ⟨t2, e⟩ := (skipHexPrefix_head c t).1 hx'
      simp [e, List.takeWhile, hx']

theorem starts_no_number_no_hex (s : List Char) (h : starts_no_number s = true) :
    no_hex_number s = true :=
  (sscanf_x_none_iff s).1 (sscanf_x_no_number s h)

theorem dropWhile_isspace_append (ws rest : List Char) (h : ∀ c ∈ ws, isspace c = true) :
    (ws ++ rest).dropWhile isspace = rest.dropWhile isspace := by
  induction ws with
  | nil => rfl
  | cons c t ih =>
    rw [List.cons_append, List.dropWhile_cons_of_pos (h c (by simp))]
    exact ih (fun x hx => h x (by simp [hx]))

/-- White space in front of a string changes nothing for `sscanf` with `%x`. -/
theorem sscanf_x_skip_space (ws rest : List Char) (h : ∀ c ∈ ws, isspace c = true) :
    sscanf_x (ws ++ rest) = sscanf_x rest := by
  unfold sscanf_x
  rw [dropWhile_isspace_append ws rest h]

/-- A sign in front of a run of at most 8 hexadecimal digits: `+` changes
nothing, `-` negates the value modulo 2^32. -/
theorem sscanf_x_signed (ds : List Char) (hne : ds ≠ []) (h : ∀ c ∈ ds, isxdigit c = true)
    (hlen : ds.length ≤ 8) :
    sscanf_x ('+' :: ds) = some (hexValue ds) ∧
    sscanf_x ('-' :: ds) = some ((2 ^ 32 - hexValue ds) % 2 ^ 32) := by
  obtain ⟨c, t, rfl⟩ := List.exists_cons_of_ne_nil hne
  have ht : List.takeWhile isxdigit (c :: t) = c :: t := List.takeWhile_eq_self_iff.2 h
  have hv : hexValue (c :: t) < 2 ^ 32 := by
    have h1 := hexValue_lt (c :: t) h
    have h2 : 16 ^ (c :: t).length ≤ 16 ^ 8 := Nat.pow_le_pow_right (by norm_num) hlen
    have h3 : (16 : Nat) ^ 8 = 2 ^ 32 := by norm_num
    omega
  have hv64 : ¬ 2 ^ 64 ≤ hexValue (c :: t) := by
    have : (2 : Nat) ^ 32 < 2 ^ 64 := by norm_num
    omega
  have hp : List.dropWhile isspace ('+' :: c :: t) = '+' :: c :: t :=
    List.dropWhile_cons_of_neg (by decide)
  have hm : List.dropWhile isspace ('-' :: c :: t) = '-' :: c :: t :=
    List.dropWhile_cons_of_neg (by decide)
  have hsp : skipHexPrefix (c :: t) = c :: t := skipHexPrefix_xdigits (c :: t) h
  have sp : skipSign ('+' :: c :: t) = (false, c :: t) := by simp [skipSign]
  have sm : skipSign ('-' :: c :: t) = (true, c :: t) := by simp [skipSign]
  constructor
  · unfold sscanf_x
    rw [hp, sp]
    dsimp only
    rw [hsp, ht, if_neg (by simp), if_neg hv64, if_neg (by simp), Nat.mod_eq_of_lt hv]
  · unfold sscanf_x
    rw [hm, sm]
    dsimp only
    rw [hsp, ht, if_neg (by simp), if_neg hv64, if_pos rfl]
    congr 1
    generalize hexValue (c :: t) = v at hv
    norm_num at hv ⊢
    omega

/-- C6 fails on the code: an address field that starts with a blank and a
port field that starts with a sign are read as numbers, and for an empty
address field and the port field `zz` the result is what the locals held,
here `10.0.0.1` and 80, not `0.0.0.0` and 0. -/
theorem hex_to_ip_port_malformed_values :
    hex_to_ip_port 0 0 " 7F000001".toList "-1".toList = ("127.0.0.1".toList, -1) ∧
    hex_to_ip_port 167772161 80 [] "zz".toList = ("10.0.0.1".toList, 80) := by
  decide

/-- C6 as amended: `hex_to_ip_port` always returns, and each argument is
read on its own.  When `hex_ip` has no hexadecimal digit after its white
space and sign (so when it is empty or starts with a character that is
neither a hexadecimal digit, white space nor a sign), the address is that of
the value the uninitialised local `ip` holds, whatever `hex_port` is; when
`hex_port` has none, the port is the value the local `p` holds, whatever
`hex_ip` is; these are `0.0.0.0` and 0 when the locals hold 0.  White space
before an argument changes nothing, and a sign before a run of at most 8
hexadecimal digits is read with it: `+` gives the value of the run and `-`
its negative modulo 2^32. -/
theorem hex_to_ip_port_no_number (ip0 p0 : Nat) (hex_ip hex_port : List Char) :
    (no_hex_number hex_ip = true →
      (hex_to_ip_port ip0 p0 hex_ip hex_port).1 = inet_ntoa (htonl (ip0 % 2 ^ 32))) ∧
    (no_hex_number hex_port = true →
      (hex_to_ip_port ip0 p0 hex_ip hex_port).2 = toInt32 (p0 % 2 ^ 32)) ∧
    (starts_no_number hex_ip = true → no_hex_number hex_ip = true) ∧
    (starts_no_number hex_port = true → no_hex_number hex_port = true) ∧
    (inet_ntoa (htonl (0 % 2 ^ 32)) = "0.0.0.0".toList ∧ toInt32 (0 % 2 ^ 32) = 0) ∧
    (∀ ws1 ws2 : List Char, (∀ c ∈ ws1, isspace c = true) → (∀ c ∈ ws2, isspace c = true) →
      hex_to_ip_port ip0 p0 (ws1 ++ hex_ip) (ws2 ++ hex_port) =
        hex_to_ip_port ip0 p0 hex_ip hex_port) ∧
    (∀ ds : List Char, ds ≠ [] → (∀ c ∈ ds, isxdigit c = true) → ds.length ≤ 8 →
      sscanf_x ds = some (hexValue ds) ∧ sscanf_x ('+' :: ds) = some (hexValue ds) ∧
      sscanf_x ('-' :: ds) = some ((2 ^ 32 - hexValue ds) % 2 ^ 32)) := by
  refine ⟨?_, ?_, starts_no_number_no_hex hex_ip, starts_no_number_no_hex hex_port,
    by decide, ?_, ?_⟩
  · intro h
    have e := (sscanf_x_none_iff hex_ip).2 h
    simp only [hex_to_ip_port, e, Option.getD_none]
  · intro h
    have e := (sscanf_x_none_iff hex_port).2 h
    simp only [hex_to_ip_port, e, Option.getD_none]
  · intro ws1 ws2 h1 h2
    simp only [hex_to_ip_port, sscanf_x_skip_space ws1 hex_ip h1,
      sscanf_x_skip_space ws2 hex_port h2]
  · intro ds hne hd hlen
    exact ⟨sscanf_x_xdigits ds hne hd hlen, sscanf_x_signed ds hne hd hlen⟩

/-- C6 as amended, with the locals holding 10.0.0.1 and 80: for the address
field `zz` and the port field `1F90` the address is `10.0.0.1` and the port
is read, 8080; for the address field `0100007F` and an empty port field the
port is 80. -/
theorem hex_to_ip_port_no_number_witness :
    (hex_to_ip_port 167772161 80 "zz".toList "1F90".toList).1 = "10.0.0.1".toList ∧
    (hex_to_ip_port 167772161 80 "zz".toList "1F90".toList).2 = 8080 ∧
    (hex_to_ip_port 167772161 80 "0100007F".toList []).2 = 80 ∧
    (hex_to_ip_port 167772161 80 "0100007F".toList []).1 = "1.0.0.127".toList :=
  ⟨((hex_to_ip_port_no_number 167772161 80 "zz".toList "1F90".toList).1 (by decide)).trans
      (by decide),
    by decide,
    ((hex_to_ip_port_no_number 167772161 80 "0100007F".toList []).2.1 (by decide)).trans
      (by decide),
    by decide⟩

/-! ### Dotted quads read back -/

theorem hexDigit_hexDigitValue {c : Char} (h : isxdigit c = true) :
    hexDigit (hexDigitValue c) = toupper c := by
  have hb := isxdigit_toNat h
  have hc := Char.ofNat_toNat c
  unfold hexDigit hexDigitValue toupper
  rcases hb with hb | hb | hb
  · have e : 48 + (c.toNat - 48) = c.toNat := by omega
    simp only [show c.toNat ≤ 57 from hb.2, if_true, show c.toNat - 48 < 10 by omega, e, hc,
      show ¬ (97 ≤ c.toNat ∧ c.toNat ≤ 122) by omega, if_false]
  · have e : 55 + (c.toNat - 55) = c.toNat := by omega
    simp only [show ¬ c.toNat ≤ 57 by omega, if_false, show c.toNat ≤ 70 from hb.2, if_true,
      show ¬ c.toNat - 55 < 10 by omega, e, hc,
      show ¬ (97 ≤ c.toNat ∧ c.toNat ≤ 122) by omega]
  · have e : 55 + (c.toNat - 87) = c.toNat - 32 := by omega
    simp only [show ¬ c.toNat ≤ 57 by omega, if_false, show ¬ c.toNat ≤ 70 by omega,
      show ¬ c.toNat - 87 < 10 by omega, e,
      show (97 ≤ c.toNat ∧ c.toNat ≤ 122) by omega, and_self, if_true]

theorem hex_encode_two (v1 v2 : Nat) (h1 : v1 < 16) (h2 : v2 < 16) :
    hex_encode 2 (v1 * 16 + v2) = [hexDigit v1, hexDigit v2] := by
  have e1 : (v1 * 16 + v2) / 16 % 16 = v1 := by omega
  have e2 : (v1 * 16 + v2) % 16 = v2 := by omega
  simp [hex_encode, e1, e2]

theorem split_dots_ne_nil (s : List Char) : split_dots s ≠ [] := by
  cases s with
  | nil => simp [split_dots]
  | cons c s =>
    unfold split_dots
    split
    · simp
    · split <;> simp

theorem split_dots_nodot (f : List Char) (h : ∀ c ∈ f, c ≠ '.') : split_dots f = [f] := by
  induction f with
  | nil => rfl
  | cons c f ih =>
    have hc : c ≠ '.' := h c (by simp)
    have ih2 := ih (fun x hx => h x (by simp [hx]))
    simp [split_dots, hc, ih2]

theorem split_dots_append (f rest : List Char) (h : ∀ c ∈ f, c ≠ '.') :
    split_dots (f ++ '.' :: rest) = f :: split_dots rest := by
  induction f with
  | nil => simp [split_dots]
  | cons c f ih =>
    have hc : c ≠ '.' := h c (by simp)
    have ih2 := ih (fun x hx => h x (by simp [hx]))
    simp [split_dots, hc, ih2]

theorem fmt_u_octet :
    ∀ n, n < 256 →
      ((fmt_u n).all isdigit = true ∧ decValue (fmt_u n) = n ∧ fmt_u n ≠ []) := by
  decide

theorem fmt_u_nodot (n : Nat) (h : n < 256) : ∀ c ∈ fmt_u n, c ≠ '.' := by
  intro c hc e
  have h1 := (fmt_u_octet n h).1
  rw [List.all_eq_true] at h1
  have h2 := h1 c hc
  rw [e] at h2
  exact absurd h2 (by decide)

theorem parse_octet_fmt_u (n : Nat) (h : n < 256) : parse_octet (fmt_u n) = some n := by
  obtain ⟨h1, h2, h3⟩ := fmt_u_octet n h
  have h4 : n ≤ 255 := by omega
  simp [parse_octet, h1, h2, h3, h4]

theorem parse_dotted_quad_fmt (a b c d : Nat) (ha : a < 256) (hb : b < 256) (hc : c < 256)
    (hd : d < 256) :
    parse_dotted_quad (fmt_u a ++ '.' :: fmt_u b ++ '.' :: fmt_u c ++ '.' :: fmt_u d) =
      some [a, b, c, d] := by
  have e : split_dots (fmt_u a ++ '.' :: fmt_u b ++ '.' :: fmt_u c ++ '.' :: fmt_u d) =
      [fmt_u a, fmt_u b, fmt_u c, fmt_u d] := by
    have e1 := split_dots_append (fmt_u a) (fmt_u b ++ '.' :: fmt_u c ++ '.' :: fmt_u d)
      (fmt_u_nodot a ha)
    have e2 := split_dots_append (fmt_u b) (fmt_u c ++ '.' :: fmt_u d) (fmt_u_nodot b hb)
    have e3 := split_dots_append (fmt_u c) (fmt_u d) (fmt_u_nodot c hc)
    have e4 := split_dots_nodot (fmt_u d) (fmt_u_nodot d hd)
    simp only [List.append_assoc, List.cons_append] at e1 e2 e3 ⊢
    rw [e1, e2, e3, e4]
  simp only [parse_dotted_quad, e, parse_octet_fmt_u a ha, parse_octet_fmt_u b hb,
    parse_octet_fmt_u c hc, parse_octet_fmt_u d hd]

theorem bytes_of_word (b3 b2 b1 b0 : Nat) (h3 : b3 < 256) (h2 : b2 < 256) (h1 : b1 < 256)
    (h0 : b0 < 256) :
    (b3 * 16777216 + b2 * 65536 + b1 * 256 + b0) % 256 = b0 ∧
    (b3 * 16777216 + b2 * 65536 + b1 * 256 + b0) / 256 % 256 = b1 ∧
    (b3 * 16777216 + b2 * 65536 + b1 * 256 + b0) / 65536 % 256 = b2 ∧
    (b3 * 16777216 + b2 * 65536 + b1 * 256 + b0) / 16777216 % 256 = b3 := by
  refine ⟨?_, ?_, ?_, ?_⟩ <;> omega

theorem inet_ntoa_htonl_bytes (b3 b2 b1 b0 : Nat) (h3 : b3 < 256) (h2 : b2 < 256)
    (h1 : b1 < 256) (h0 : b0 < 256) :
    inet_ntoa (htonl (b3 * 16777216 + b2 * 65536 + b1 * 256 + b0)) =
      fmt_u b3 ++ '.' :: fmt_u b2 ++ '.' :: fmt_u b1 ++ '.' :: fmt_u b0 := by
  obtain ⟨a0, a1, a2, a3⟩ := bytes_of_word b3 b2 b1 b0 h3 h2 h1 h0
  obtain ⟨c0, c1, c2, c3⟩ := bytes_of_word b0 b1 b2 b3 h0 h1 h2 h3
  have e : htonl (b3 * 16777216 + b2 * 65536 + b1 * 256 + b0) =
      b0 * 16777216 + b1 * 65536 + b2 * 256 + b3 := by
    simp only [htonl, Nat.reducePow, a0, a1, a2, a3]
  rw [e]
  simp only [inet_ntoa, Nat.reducePow, c0, c1, c2, c3]

theorem hex_encode_four (w1 w2 w3 w4 : Nat) (h1 : w1 < 16) (h2 : w2 < 16) (h3 : w3 < 16)
    (h4 : w4 < 16) :
    hex_encode 4 (((w1 * 16 + w2) * 16 + w3) * 16 + w4) =
      [hexDigit w1, hexDigit w2, hexDigit w3, hexDigit w4] := by
  have e4 : (((w1 * 16 + w2) * 16 + w3) * 16 + w4) % 16 = w4 := by omega
  have e3 : (((w1 * 16 + w2) * 16 + w3) * 16 + w4) / 16 % 16 = w3 := by omega
  have e2 : (((w1 * 16 + w2) * 16 + w3) * 16 + w4) / 16 / 16 % 16 = w2 := by omega
  have e1 : (((w1 * 16 + w2) * 16 + w3) * 16 + w4) / 16 / 16 / 16 % 16 = w1 := by omega
  simp only [hex_encode, e1, e2, e3, e4, List.nil_append, List.cons_append]

/-- C5: for an address field of exactly 8 hexadecimal digits and a port
field of exactly 4, the result of `hex_to_ip_port` does not depend on what
its locals held; the dotted quad it returns parses back into four octets
whose 8 hexadecimal digits, in the order printed, are the address field in
upper case; and the port, written with 4 hexadecimal digits, is the port
field in upper case. -/
theorem hex_to_ip_port_roundtrip (ip0 p0 ip1 p1 : Nat) (h p : List Char)
    (hlen : h.length = 8) (hhex : ∀ c ∈ h, isxdigit c = true)
    (plen : p.length = 4) (phex : ∀ c ∈ p, isxdigit c = true) :
    hex_to_ip_port ip0 p0 h p = hex_to_ip_port ip1 p1 h p ∧
    (parse_dotted_quad (hex_to_ip_port ip0 p0 h p).1).map encode_quad =
      some (h.map toupper) ∧
    0 ≤ (hex_to_ip_port ip0 p0 h p).2 ∧
    hex_encode 4 (hex_to_ip_port ip0 p0 h p).2.toNat = p.map toupper := by
  have hne : h ≠ [] := by intro e; rw [e] at hlen; simp at hlen
  have pne : p ≠ [] := by intro e; rw [e] at plen; simp at plen
  have sh := sscanf_x_xdigits h hne hhex (by omega)
  have sp := sscanf_x_xdigits p pne phex (by omega)
  have hdet : ∀ i q, hex_to_ip_port i q h p = (inet_ntoa (htonl (hexValue h)), toInt32 (hexValue p)) := by
    intro i q
    simp only [hex_to_ip_port, sh, sp, Option.getD_some]
  refine ⟨by rw [hdet, hdet], ?_⟩
  rw [hdet]
  match h, hlen, hhex with
  | [c1, c2, c3, c4, c5, c6, c7, c8], _, hhex =>
  match p, plen, phex with
  | [d1, d2, d3, d4], _, phex =>
    have v1 := hexDigitValue_lt (hhex c1 (by simp))
    have v2 := hexDigitValue_lt (hhex c2 (by simp))
    have v3 := hexDigitValue_lt (hhex c3 (by simp))
    have v4 := hexDigitValue_lt (hhex c4 (by simp))
    have v5 := hexDigitValue_lt (hhex c5 (by simp))
    have v6 := hexDigitValue_lt (hhex c6 (by simp))
    have v7 := hexDigitValue_lt (hhex c7 (by simp))
    have v8 := hexDigitValue_lt (hhex c8 (by simp))
    have w1 := hexDigitValue_lt (phex d1 (by simp))
    have w2 := hexDigitValue_lt (phex d2 (by simp))
    have w3 := hexDigitValue_lt (phex d3 (by simp))
    have w4 := hexDigitValue_lt (phex d4 (by simp))
    have u1 := hexDigit_hexDigitValue (hhex c1 (by simp))
    have u2 := hexDigit_hexDigitValue (hhex c2 (by simp))
    have u3 := hexDigit_hexDigitValue (hhex c3 (by simp))
    have u4 := hexDigit_hexDigitValue (hhex c4 (by simp))
    have u5 := hexDigit_hexDigitValue (hhex c5 (by simp))
    have u6 := hexDigit_hexDigitValue (hhex c6 (by simp))
    have u7 := hexDigit_hexDigitValue (hhex c7 (by simp))
    have u8 := hexDigit_hexDigitValue (hhex c8 (by simp))
    have x1 := hexDigit_hexDigitValue (phex d1 (by simp))
    have x2 := hexDigit_hexDigitValue (phex d2 (by simp))
    have x3 := hexDigit_hexDigitValue (phex d3 (by simp))
    have x4 := hexDigit_hexDigitValue (phex d4 (by simp))
    have hv : hexValue [c1, c2, c3, c4, c5, c6, c7, c8] =
        (hexDigitValue c1 * 16 + hexDigitValue c2) * 16777216 +
          (hexDigitValue c3 * 16 + hexDigitValue c4) * 65536 +
          (hexDigitValue c5 * 16 + hexDigitValue c6) * 256 +
          (hexDigitValue c7 * 16 + hexDigitValue c8) := by
      simp only [hexValue, List.foldl]
      ring
    have pv : hexValue [d1, d2, d3, d4] =
        ((hexDigitValue d1 * 16 + hexDigitValue d2) * 16 + hexDigitValue d3) * 16 +
          hexDigitValue d4 := by
      simp only [hexValue, List.foldl]
      ring
    have o1 : hexDigitValue c1 * 16 + hexDigitValue c2 < 256 := by omega
    have o2 : hexDigitValue c3 * 16 + hexDigitValue c4 < 256 := by omega
    have o3 : hexDigitValue c5 * 16 + hexDigitValue c6 < 256 := by omega
    have o4 : hexDigitValue c7 * 16 + hexDigitValue c8 < 256 := by omega
    have pb : ((hexDigitValue d1 * 16 + hexDigitValue d2) * 16 + hexDigitValue d3) * 16 +
        hexDigitValue d4 < 65536 := by omega
    have ti : toInt32 (hexValue [d1, d2, d3, d4]) = ((hexValue [d1, d2, d3, d4] : Nat) : Int) := by
      have hm : hexValue [d1, d2, d3, d4] % 2 ^ 32 = hexValue [d1, d2, d3, d4] :=
        Nat.mod_eq_of_lt (by rw [pv]; norm_num; omega)
      have hl : hexValue [d1, d2, d3, d4] < 2 ^ 31 := by rw [pv]; norm_num; omega
      simp only [toInt32, hm, hl, if_true]
    refine ⟨?_, ?_, ?_⟩
    · rw [hv, inet_ntoa_htonl_bytes _ _ _ _ o1 o2 o3 o4, parse_dotted_quad_fmt _ _ _ _ o1 o2 o3 o4]
      simp only [Option.map_some', encode_quad, hex_encode_two _ _ v1 v2,
        hex_encode_two _ _ v3 v4, hex_encode_two _ _ v5 v6, hex_encode_two _ _ v7 v8,
        u1, u2, u3, u4, u5, u6, u7, u8, List.map, List.cons_append, List.nil_append,
        List.append_nil]
    · rw [ti]
      exact Int.ofNat_nonneg _
    · rw [ti, Int.toNat_ofNat, pv, hex_encode_four _ _ _ _ w1 w2 w3 w4]
      simp only [x1, x2, x3, x4, List.map]

/-- C5, at the address field `0100007f` and the port field `01bb`. -/
theorem hex_to_ip_port_roundtrip_witness :
    (parse_dotted_quad (hex_to_ip_port 0 0 "0100007f".toList "01bb".toList).1).map
        encode_quad = some ("0100007f".toList.map toupper) ∧
    hex_encode 4 (hex_to_ip_port 0 0 "0100007f".toList "01bb".toList).2.toNat =
      "01bb".toList.map toupper :=
  ⟨(hex_to_ip_port_roundtrip 0 0 0 0 "0100007f".toList "01bb".toList (by decide) (by decide)
      (by decide) (by decide)).2.1,
   (hex_to_ip_port_roundtrip 0 0 0 0 "0100007f".toList "01bb".toList (by decide) (by decide)
      (by decide) (by decide)).2.2.2⟩

/-! ## Collection loops -/

theorem fgets_take_append (n : Nat) (s : List Char) :
    (fgets_take n s).1 ++ (fgets_take n s).2 = s := by
  induction n generalizing s with
  | zero => simp [fgets_take]
  | succ n ih =>
    cases s with
    | nil => simp [fgets_take]
    | cons c s =>
      by_cases hc : c = '\n'
      · simp [fgets_take, hc]
      · simp [fgets_take, hc, ih s]

theorem fgets_take_rest_length (n : Nat) (c : Char) (s : List Char) :
    (fgets_take (n + 1) (c :: s)).2.length ≤ s.length := by
  by_cases hc : c = '\n'
  · simp [fgets_take, hc]
  · have h := congrArg List.length (fgets_take_append n s)
    simp only [List.length_append] at h
    simp only [fgets_take, hc, if_false]
    omega

theorem fgets_all_join (size : Nat) (hsize : 2 ≤ size) (fuel : Nat) (s : List Char)
    (hfuel : s.length ≤ fuel) : (fgets_all size fuel s).flatten = s := by
  induction fuel generalizing s with
  | zero =>
    have : s = [] := List.length_eq_zero.1 (by omega)
    simp [fgets_all, this]
  | succ fuel ih =>
    cases s with
    | nil => simp [fgets_all, fgets]
    | cons c s =>
      obtain ⟨m, hm⟩ : ∃ m, size - 1 = m + 1 := ⟨size - 2, by omega⟩
      have hr := fgets_take_rest_length m c s
      have ha := fgets_take_append (m + 1) (c :: s)
      simp only [List.length_cons] at hfuel
      simp only [fgets_all, fgets, reduceCtorEq, if_false, hm, List.flatten_cons]
      rw [ih (fgets_take (m + 1) (c :: s)).2 (by omega), ha]

/-- The fuel of `read_lines` is enough: the lines read, put together, are the
whole text. -/
theorem read_lines_join (size : Nat) (hsize : 2 ≤ size) (text : List Char) :
    (read_lines size text).flatten = text :=
  fgets_all_join size hsize text.length text (Nat.le_refl _)

theorem collect_loop_eq (ps : Int → Option (List Char)) (lines : List (List Char))
    (conns : List NetConn) (h : conns.length ≤ MAX_CONNECTIONS) :
    collect_loop ps lines conns =
      (conns ++ lines.filterMap (netconn_of_line ps)).take MAX_CONNECTIONS := by
  induction lines generalizing conns with
  | nil => simp [collect_loop, List.take_of_length_le h]
  | cons line rest ih =>
    by_cases hlt : conns.length < MAX_CONNECTIONS
    · cases hc : netconn_of_line ps line with
      | none => simp [collect_loop, hlt, hc, ih conns h]
      | some c =>
        have h2 : (conns ++ [c]).length ≤ MAX_CONNECTIONS := by
          simp only [List.length_append, List.length_singleton]; omega
        simp [collect_loop, hlt, hc, ih (conns ++ [c]) h2]
    · have he : conns.length = MAX_CONNECTIONS := by omega
      simp only [collect_loop, hlt, if_false]
      rw [List.take_append_of_le_length (by omega), List.take_of_length_le (by omega)]

theorem load_loop_eq (ip0 p0 : Nat) (proto : List Char) (max : Int) (lines : List (List Char))
    (list : List Conn) (h : (list.length : Int) ≤ max) :
    load_loop ip0 p0 proto max lines list =
      (list ++ lines.filterMap (conn_of_line ip0 p0 proto)).take max.toNat := by
  have hn : list.length ≤ max.toNat := by omega
  induction lines generalizing list with
  | nil => simp [load_loop, List.take_of_length_le hn]
  | cons line rest ih =>
    by_cases hlt : (list.length : Int) < max
    · cases hc : conn_of_line ip0 p0 proto line with
      | none => simp [load_loop, hlt, hc, ih list h hn]
      | some c =>
        have h2 : ((list ++ [c]).length : Int) ≤ max := by
          simp only [List.length_append, List.length_singleton]; omega
        have h3 : (list ++ [c]).length ≤ max.toNat := by omega
        simp [load_loop, hlt, hc, ih (list ++ [c]) h2 h3]
    · simp only [load_loop, hlt, if_false]
      rw [List.take_append_of_le_length (by omega), List.take_of_length_le (by omega)]

theorem collect_connections_some (ps : Int → Option (List Char)) (t : List Char) :
    collect_connections ps (some t) =
      some ((((read_lines MAX_LINE t).drop 1).filterMap (netconn_of_line ps)).take
        MAX_CONNECTIONS) := by
  simp only [collect_connections]
  cases hr : read_lines MAX_LINE t with
  | nil => simp
  | cons hd body =>
    simp only [List.drop_succ_cons, List.drop_zero]
    rw [collect_loop_eq ps body [] (Nat.zero_le _), List.nil_append]

theorem load_connections_some (ip0 p0 : Nat) (proto t : List Char) (max : Int)
    (hmax : 0 ≤ max) :
    load_connections ip0 p0 (some t) proto max =
      (((read_lines 512 t).drop 1).filterMap (conn_of_line ip0 p0 proto)).take max.toNat := by
  simp only [load_connections]
  rw [load_loop_eq ip0 p0 proto max _ [] (by simpa using hmax), List.nil_append]

/-- C7: `collect_connections` never returns more than `MAX_CONNECTIONS` = 4096
records and `load_connections` never more than `max` (for `max >= 0`),
whatever the text; the records kept are those of the first accepted lines,
in order, and the lines past the cap give none. -/
theorem collection_capped (ps : Int → Option (List Char)) (ip0 p0 : Nat)
    (proto text : List Char) (max : Int) (hmax : 0 ≤ max) :
    MAX_CONNECTIONS = 4096 ∧
    (∀ ss conns, collect_connections ps ss = some conns → conns.length ≤ MAX_CONNECTIONS) ∧
    collect_connections ps (some text) =
      some ((((read_lines MAX_LINE text).drop 1).filterMap (netconn_of_line ps)).take
        MAX_CONNECTIONS) ∧
    (∀ file, ((load_connections ip0 p0 file proto max).length : Int) ≤ max) ∧
    load_connections ip0 p0 (some text) proto max =
      (((read_lines 512 text).drop 1).filterMap (conn_of_line ip0 p0 proto)).take
        max.toNat := by
  have hc := collect_connections_some ps
  have hl := fun t => load_connections_some ip0 p0 proto t max hmax
  refine ⟨rfl, ?_, hc text, ?_, hl text⟩
  · intro ss conns h
    cases ss with
    | none => simp [collect_connections] at h
    | some t =>
      rw [hc t] at h
      cases h
      exact List.length_take_le _ _
  · intro file
    cases file with
    | none => simpa [load_connections] using hmax
    | some t =>
      rw [hl t]
      have := List.length_take_le max.toNat
        (((read_lines 512 t).drop 1).filterMap (conn_of_line ip0 p0 proto))
      omega

/-- C7, at a table with two accepted lines and `max` = 1: one record is kept,
that of the first line. -/
theorem collection_capped_witness :
    load_connections 0 0
        (some "sl\n0: 0100007F:0277 00000000:0000 0A\n1: 0100007F:0016 0200007F:0400 01\n".toList)
        "TCP".toList 1 =
      (((read_lines 512
        "sl\n0: 0100007F:0277 00000000:0000 0A\n1: 0100007F:0016 0200007F:0400 01\n".toList).drop
          1).filterMap (conn_of_line 0 0 "TCP".toList)).take 1 :=
  (collection_capped (fun _ => none) 0 0 "TCP".toList
    "sl\n0: 0100007F:0277 00000000:0000 0A\n1: 0100007F:0016 0200007F:0400 01\n".toList 1
    (by decide)).2.2.2.2

/-! ## Lines and tokens -/

theorem fgets_take_line (n : Nat) (l rest : List Char) (hnl : '\n' ∉ l) (hlen : l.length < n) :
    fgets_take n (l ++ '\n' :: rest) = (l ++ ['\n'], rest) := by
  induction l generalizing n with
  | nil =>
    obtain ⟨k, rfl⟩ : ∃ k, n = k + 1 := ⟨n - 1, by simp at hlen; omega⟩
    simp [fgets_take]
  | cons c l ih =>
    obtain ⟨k, rfl⟩ : ∃ k, n = k + 1 := ⟨n - 1, by simp at hlen; omega⟩
    have hc : c ≠ '\n' := fun e => hnl (by simp [e])
    have hl : '\n' ∉ l := fun e => hnl (by simp [e])
    simp only [List.length_cons] at hlen
    simp [fgets_take, hc, ih k hl (by omega)]

theorem unlines_length (ls : List (List Char)) : ls.length ≤ (unlines ls).length := by
  induction ls with
  | nil => simp
  | cons l ls ih => simp only [unlines, List.length_append, List.length_cons]; omega

theorem fgets_all_unlines (size : Nat) (ls : List (List Char))
    (h : ∀ l ∈ ls, '\n' ∉ l ∧ l.length + 2 ≤ size) (fuel : Nat) (hf : ls.length ≤ fuel) :
    fgets_all size fuel (unlines ls) = ls.map (fun l => l ++ ['\n']) := by
  induction ls generalizing fuel with
  | nil => cases fuel <;> simp [unlines, fgets_all, fgets]
  | cons l ls ih =>
    obtain ⟨f, rfl⟩ : ∃ f, fuel = f + 1 := ⟨fuel - 1, by simp at hf; omega⟩
    obtain ⟨hnl, hlen⟩ := h l (by simp)
    have hne : l ++ '\n' :: unlines ls ≠ [] := by simp
    simp only [List.length_cons] at hf
    simp only [unlines, fgets_all, fgets, hne, if_false,
      fgets_take_line (size - 1) l (unlines ls) hnl (by omega), List.map_cons]
    rw [ih (fun x hx => h x (by simp [hx])) f (by omega)]

theorem read_lines_unlines (size : Nat) (ls : List (List Char))
    (h : ∀ l ∈ ls, '\n' ∉ l ∧ l.length + 2 ≤ size) :
    read_lines size (unlines ls) = ls.map (fun l => l ++ ['\n']) :=
  fgets_all_unlines size ls h _ (unlines_length ls)

theorem strtok_all_append_delim (d : Char → Bool) (c : Char) (hc : d c = true) :
    ∀ s : List Char, strtok_all d (s ++ [c]) = strtok_all d s
  | [] => by simp [strtok_all, hc]
  | [x] => by
    by_cases hx : d x = true
    · simp [strtok_all, hx, hc]
    · simp [strtok_all, hx, hc]
  | x :: y :: s => by
    have ih := strtok_all_append_delim d c hc (y :: s)
    simp only [List.cons_append] at ih ⊢
    by_cases hx : d x = true
    · simp only [strtok_all, hx, if_true] at ih ⊢
      exact ih
    · by_cases hy : d y = true
      · rw [strtok_all, if_neg hx, if_pos hy, ih]
        conv_rhs => rw [strtok_all, if_neg hx, if_pos hy]
      · rw [strtok_all, if_neg hx, if_neg hy, ih]
        conv_rhs => rw [strtok_all, if_neg hx, if_neg hy]

theorem cstr_append_singleton (l : List Char) (c : Char) :
    cstr (l ++ [c]) = cstr l ∨ cstr (l ++ [c]) = cstr l ++ [c] := by
  induction l with
  | nil =>
    by_cases hc : c = NUL
    · left; simp [cstr, List.takeWhile, hc]
    · right; simp [cstr, List.takeWhile, hc]
  | cons x l ih =>
    by_cases hx : x = NUL
    · left; simp [cstr, List.takeWhile, hx]
    · simp only [cstr] at ih ⊢
      rcases ih with ih | ih
      · left; simpa [List.takeWhile, hx] using ih
      · right; simpa [List.takeWhile, hx] using ih

theorem line_tokens_newline (l : List Char) : line_tokens (l ++ ['\n']) = line_tokens l := by
  unfold line_tokens
  rcases cstr_append_singleton l '\n' with h | h
  · rw [h]
  · rw [h, strtok_all_append_delim _ '\n' (by decide)]

theorem netconn_of_line_newline (ps : Int → Option (List Char)) (l : List Char) :
    netconn_of_line ps (l ++ ['\n']) = netconn_of_line ps l := by
  simp only [netconn_of_line, line_parts, line_tokens_newline]

theorem netconn_of_line_shape (ps : Int → Option (List Char)) (line : List Char) :
    ((line_parts line).length < 6 ∧ netconn_of_line ps line = none) ∨
    (6 ≤ (line_parts line).length ∧
      ∃ c, netconn_of_line ps line = some c ∧
        c.proto = ((line_parts line).getD 0 []).take 63 ∧
        c.state = ((line_parts line).getD 1 []).take 63 ∧
        c.local_ = ((line_parts line).getD 4 []).take 63 ∧
        c.remote = ((line_parts line).getD 5 []).take 63) := by
  by_cases h : (line_parts line).length < 6
  · left
    exact ⟨h, by simp [netconn_of_line, h]⟩
  · right
    refine ⟨by omega, ?_⟩
    simp only [netconn_of_line, h, if_false]
    split
    · split
      · exact ⟨_, rfl, rfl, rfl, rfl, rfl⟩
      · split
        · split
          · exact ⟨_, rfl, rfl, rfl, rfl, rfl⟩
          · exact ⟨_, rfl, rfl, rfl, rfl, rfl⟩
        · exact ⟨_, rfl, rfl, rfl, rfl, rfl⟩
    · exact ⟨_, rfl, rfl, rfl, rfl, rfl⟩

theorem line_parts_length (line : List Char) :
    (6 ≤ (line_parts line).length) ↔ 6 ≤ (line_tokens line).length := by
  simp only [line_parts, List.length_take]
  omega

theorem netconn_of_line_isSome (ps : Int → Option (List Char)) (line : List Char) :
    (netconn_of_line ps line).isSome = decide (6 ≤ (line_tokens line).length) := by
  rcases netconn_of_line_shape ps line with ⟨h, e⟩ | ⟨h, c, e, _⟩
  · have : ¬ 6 ≤ (line_tokens line).length := fun h6 => by
      have := (line_parts_length line).2 h6
      omega
    simp [e, this]
  · have := (line_parts_length line).1 h
    simp [e, this]

theorem forall2_filterMap {α β : Type} (f : α → Option β) (ls : List α) :
    List.Forall₂ (fun l c => f l = some c) (ls.filter (fun l => (f l).isSome))
      (ls.filterMap f) := by
  induction ls with
  | nil => simp
  | cons l ls ih =>
    cases h : f l with
    | none => simpa [List.filter, List.filterMap, h] using ih
    | some c =>
      simp only [List.filter, List.filterMap, h, Option.isSome_some]
      exact List.Forall₂.cons h ih

/-- C8 fails on the code: for an output that is one header line of more than
1022 characters and nothing else, `fgets` skips only the first 1023
characters, and the rest of the header line is taken for a connection. -/
theorem collect_connections_long_header :
    collect_connections (fun _ => none)
        (some (unlines
          [List.replicate 1023 'x' ++ " tcp ESTAB 0 0 1.1.1.1:1 2.2.2.2:2".toList])) =
      some [{ proto := "tcp".toList, state := "ESTAB".toList, local_ := "1.1.1.1:1".toList,
              remote := "2.2.2.2:2".toList, pid := none, process := "-".toList,
              cmd := "-".toList, cpu := "-".toList, mem := "-".toList }] := by
  decide

/-- C8 as amended: for an output whose lines, the header included, have at
most 1022 characters before their newline, and whose lines with at least 6
tokens are no more than `MAX_CONNECTIONS`, `collect_connections` ignores the
header whatever its content and returns exactly one record for every later
line with at least 6 tokens (separated by blank, tab or newline), in source
order; the lines with fewer tokens give no record and change nothing for
the others. -/
theorem collect_connections_lines (ps : Int → Option (List Char)) (header : List Char)
    (lines : List (List Char))
    (hlen : ∀ l ∈ header :: lines, '\n' ∉ l ∧ l.length ≤ 1022)
    (hcap : (lines.filter (fun l => decide (6 ≤ (line_tokens l).length))).length ≤
      MAX_CONNECTIONS) :
    ∃ conns, collect_connections ps (some (unlines (header :: lines))) = some conns ∧
      List.Forall₂ (fun l c => netconn_of_line ps l = some c)
        (lines.filter (fun l => decide (6 ≤ (line_tokens l).length))) conns := by
  have hr := read_lines_unlines MAX_LINE (header :: lines)
    (fun l hl => ⟨(hlen l hl).1, by have := (hlen l hl).2; simp only [MAX_LINE]; omega⟩)
  have hf : (lines.map (fun l => l ++ ['\n'])).filterMap (netconn_of_line ps) =
      lines.filterMap (netconn_of_line ps) := by
    rw [List.filterMap_map]
    congr 1
    funext l
    exact netconn_of_line_newline ps l
  have hfilter : (fun l => (netconn_of_line ps l).isSome) =
      (fun l => decide (6 ≤ (line_tokens l).length)) := by
    funext l
    exact netconn_of_line_isSome ps l
  have h2 := forall2_filterMap (netconn_of_line ps) lines
  rw [hfilter] at h2
  have hl : (lines.filterMap (netconn_of_line ps)).length ≤ MAX_CONNECTIONS := by
    rw [← h2.length_eq]
    exact hcap
  refine ⟨lines.filterMap (netconn_of_line ps), ?_, h2⟩
  rw [collect_connections_some, hr, List.map_cons, List.drop_succ_cons, List.drop_zero, hf,
    List.take_of_length_le hl]

/-- C8 as amended, at an output with a header, a line of 6 tokens, a line of
2 tokens and a line of 6 tokens: two records, those of the long lines. -/
theorem collect_connections_lines_witness :
    ∃ conns, collect_connections (fun _ => none)
        (some (unlines ["Netid State".toList, "tcp ESTAB 0 0 1.1.1.1:1 2.2.2.2:2".toList,
          "bad line".toList, "udp UNCONN 0 0 3.3.3.3:3 4.4.4.4:4".toList])) = some conns ∧
      List.Forall₂ (fun l c => netconn_of_line (fun _ => none) l = some c)
        (["tcp ESTAB 0 0 1.1.1.1:1 2.2.2.2:2".toList, "bad line".toList,
          "udp UNCONN 0 0 3.3.3.3:3 4.4.4.4:4".toList].filter
            (fun l => decide (6 ≤ (line_tokens l).length))) conns :=
  collect_connections_lines (fun _ => none) "Netid State".toList
    ["tcp ESTAB 0 0 1.1.1.1:1 2.2.2.2:2".toList, "bad line".toList,
      "udp UNCONN 0 0 3.3.3.3:3 4.4.4.4:4".toList] (by decide) (by decide)

theorem strtok_all_ne_nil (d : Char → Bool) :
    ∀ (s : List Char) (t : List Char), t ∈ strtok_all d s → t ≠ []
  | [], t, h => by simp [strtok_all] at h
  | [x], t, h => by
    by_cases hx : d x = true
    · simp [strtok_all, hx] at h
    · simp [strtok_all, hx] at h
      simp [h]
  | x :: y :: s, t, h => by
    have ih := strtok_all_ne_nil d (y :: s)
    by_cases hx : d x = true
    · rw [strtok_all, if_pos hx] at h
      exact ih t h
    · by_cases hy : d y = true
      · rw [strtok_all, if_neg hx, if_pos hy] at h
        rcases List.mem_cons.1 h with h | h
        · simp [h]
        · exact ih t h
      · rw [strtok_all, if_neg hx, if_neg hy] at h
        cases hs : strtok_all d (y :: s) with
        | nil =>
          rw [hs] at h
          simp at h
          simp [h]
        | cons t0 ts =>
          rw [hs] at h
          rcases List.mem_cons.1 h with h | h
          · simp [h]
          · exact ih t (by rw [hs]; exact List.mem_cons_of_mem _ h)

theorem take_ne_nil {t : List Char} (h : t ≠ []) : t.take 63 ≠ [] := by
  cases t with
  | nil => exact absurd rfl h
  | cons c t => simp

theorem strtok_all_step (d : Char → Bool) (x y : Char) (s : List Char) :
    strtok_all d (x :: y :: s) =
      if d x = true then strtok_all d (y :: s)
      else if d y = true then [x] :: strtok_all d (y :: s)
      else
        match strtok_all d (y :: s) with
        | [] => [[x]]
        | t :: ts => (x :: t) :: ts := by
  rw [strtok_all]

theorem strtok_all_congr (d1 d2 : Char → Bool) :
    ∀ s : List Char, (∀ c ∈ s, d1 c = d2 c) → strtok_all d1 s = strtok_all d2 s
  | [], _ => rfl
  | [x], h => by
    have hx := h x (by simp)
    simp [strtok_all, hx]
  | x :: y :: s, h => by
    have ih := strtok_all_congr d1 d2 (y :: s) (fun c hc => h c (List.mem_cons_of_mem _ hc))
    have hx := h x (by simp)
    have hy := h y (by simp)
    rw [strtok_all_step, strtok_all_step, hx, hy, ih]

theorem cstr_of_no_NUL (s : List Char) (h : NUL ∉ s) : cstr s = s := by
  unfold cstr
  rw [List.takeWhile_eq_self_iff]
  intro c hc
  have : c ≠ NUL := fun e => h (e ▸ hc)
  simpa using this

/-- The tokens `collect_connections` cuts from a line with no NUL and no
white space other than blanks, tabs and newlines are the white-space
separated tokens of the line. -/
theorem line_tokens_ws (l : List Char) (hnul : NUL ∉ l)
    (hws : ∀ ch ∈ l, isspace ch = true → ch = ' ' ∨ ch = '\t' ∨ ch = '\n') :
    line_tokens l = ws_tokens l := by
  unfold line_tokens ws_tokens
  rw [cstr_of_no_NUL l hnul]
  apply strtok_all_congr
  intro c hc
  by_cases hs : isspace c = true
  · rw [hs]
    simpa using hws c hc hs
  · have hs' : isspace c = false := Bool.eq_false_iff.2 hs
    rw [hs']
    have h1 : c ≠ ' ' := fun e => hs (by rw [e]; decide)
    have h2 : c ≠ '\t' := fun e => hs (by rw [e]; decide)
    have h3 : c ≠ '\n' := fun e => hs (by rw [e]; decide)
    simp [h1, h2, h3]

/-- C9 fails on the code: for an output with a header and one line of more
than 1022 characters, two records are returned, and the second has the
proto `udp` and the local address `3.3.3.3:3`, the 1st and 5th token of the
rest of the line from character 1024 on, where the 1st and 5th white-space
separated tokens of the line are `tcp` and `1.1.1.1:1`; and for a line with
a carriage return after its 5th token the local address of the record ends
with the carriage return. -/
theorem collect_connections_long_line :
    collect_connections (fun _ => none) (some (unlines ["Netid State".toList, long_ss_line])) =
      some [{ proto := "tcp".toList, state := "ESTAB".toList, local_ := "1.1.1.1:1".toList,
              remote := "2.2.2.2:2".toList, pid := none, process := "-".toList,
              cmd := "-".toList, cpu := "-".toList, mem := "-".toList },
            { proto := "udp".toList, state := "UNCONN".toList, local_ := "3.3.3.3:3".toList,
              remote := "4.4.4.4:4".toList, pid := none, process := "-".toList,
              cmd := "-".toList, cpu := "-".toList, mem := "-".toList }] ∧
    (ws_tokens long_ss_line).take 6 =
      ["tcp".toList, "ESTAB".toList, "0".toList, "0".toList, "1.1.1.1:1".toList,
        "2.2.2.2:2".toList] ∧
    collect_connections (fun _ => none)
        (some (unlines ["Netid State".toList, "tcp ESTAB 0 0 1.1.1.1:1\r 2.2.2.2:2 x".toList])) =
      some [{ proto := "tcp".toList, state := "ESTAB".toList, local_ := "1.1.1.1:1\r".toList,
              remote := "2.2.2.2:2".toList, pid := none, process := "-".toList,
              cmd := "-".toList, cpu := "-".toList, mem := "-".toList }] ∧
    (ws_tokens "tcp ESTAB 0 0 1.1.1.1:1\r 2.2.2.2:2 x".toList).take 6 =
      ["tcp".toList, "ESTAB".toList, "0".toList, "0".toList, "1.1.1.1:1".toList,
        "2.2.2.2:2".toList] := by
  refine ⟨by decide, by decide, by decide, by decide⟩

/-- C9 as amended: every record `collect_connections` returns comes from one
piece of text that `fgets` returned after the header, a piece with at least
6 tokens separated by blank, tab or newline; its proto, state, local and
remote fields are the 1st, 2nd, 5th and 6th token of that piece, each cut to
at most 63 characters, and none of them is empty.  When every line of the
output, the header included, has at most 1022 characters before its newline,
the piece is a line of the output with its newline, and when that line has no
NUL and no white space other than blanks and tabs, the tokens are its
white-space separated tokens. -/
theorem collect_connections_fields (ps : Int → Option (List Char)) (ss : Option (List Char))
    (conns : List NetConn) (c : NetConn) (h : collect_connections ps ss = some conns)
    (hc : c ∈ conns) :
    ∃ text line t1 t2 t3 t4 t5 t6 rest,
      ss = some text ∧ line ∈ (read_lines MAX_LINE text).drop 1 ∧
      line_tokens line = t1 :: t2 :: t3 :: t4 :: t5 :: t6 :: rest ∧
      c.proto = t1.take 63 ∧ c.state = t2.take 63 ∧
      c.local_ = t5.take 63 ∧ c.remote = t6.take 63 ∧
      c.proto ≠ [] ∧ c.state ≠ [] ∧ c.local_ ≠ [] ∧ c.remote ≠ [] ∧
      c.proto.length ≤ 63 ∧ c.state.length ≤ 63 ∧ c.local_.length ≤ 63 ∧
      c.remote.length ≤ 63 ∧
      (∀ (header : List Char) (lines : List (List Char)), text = unlines (header :: lines) →
        (∀ l ∈ header :: lines, '\n' ∉ l ∧ l.length ≤ 1022) →
        ∃ l ∈ lines, line = l ++ ['\n'] ∧
          (NUL ∉ l → (∀ ch ∈ l, isspace ch = true → ch = ' ' ∨ ch = '\t') →
            ws_tokens l = t1 :: t2 :: t3 :: t4 :: t5 :: t6 :: rest)) := by
  cases ss with
  | none => simp [collect_connections] at h
  | some text =>
    rw [collect_connections_some] at h
    cases h
    have hm := List.mem_of_mem_take hc
    obtain ⟨line, hline, hrec⟩ := List.mem_filterMap.1 hm
    rcases netconn_of_line_shape ps line with ⟨_, e⟩ | ⟨h6, c2, e, hp, hs, hl, hr⟩
    · rw [e] at hrec
      cases hrec
    · rw [e] at hrec
      cases hrec
      have h6t := (line_parts_length line).1 h6
      have hne := strtok_all_ne_nil (fun c => c = ' ' ∨ c = '\t' ∨ c = '\n') (cstr line)
      have htok : line_tokens line =
          strtok_all (fun c => c = ' ' ∨ c = '\t' ∨ c = '\n') (cstr line) := rfl
      rw [← htok] at hne
      match hl6 : line_tokens line, h6t with
      | t1 :: t2 :: t3 :: t4 :: t5 :: t6 :: rest, _ =>
        rw [hl6] at hne
        have g0 : (line_parts line).getD 0 [] = t1 := by simp [line_parts, hl6]
        have g1 : (line_parts line).getD 1 [] = t2 := by simp [line_parts, hl6]
        have g4 : (line_parts line).getD 4 [] = t5 := by simp [line_parts, hl6]
        have g5 : (line_parts line).getD 5 [] = t6 := by simp [line_parts, hl6]
        rw [g0] at hp
        rw [g1] at hs
        rw [g4] at hl
        rw [g5] at hr
        refine ⟨text, line, t1, t2, t3, t4, t5, t6, rest, rfl, hline, hl6, hp, hs, hl, hr,
          ?_, ?_, ?_, ?_, ?_, ?_, ?_, ?_, ?_⟩
        · rw [hp]; exact take_ne_nil (hne t1 (by simp))
        · rw [hs]; exact take_ne_nil (hne t2 (by simp))
        · rw [hl]; exact take_ne_nil (hne t5 (by simp))
        · rw [hr]; exact take_ne_nil (hne t6 (by simp))
        · rw [hp]; simp [List.length_take]
        · rw [hs]; simp [List.length_take]
        · rw [hl]; simp [List.length_take]
        · rw [hr]; simp [List.length_take]
        · intro header lines htext hlen
          have hrl := read_lines_unlines MAX_LINE (header :: lines)
            (fun l hl => ⟨(hlen l hl).1, by have := (hlen l hl).2; simp only [MAX_LINE]; omega⟩)
          rw [htext, hrl, List.map_cons, List.drop_succ_cons, List.drop_zero] at hline
          obtain ⟨l, hlm, hle⟩ := List.mem_map.1 hline
          refine ⟨l, hlm, hle.symm, ?_⟩
          intro hnul hws
          have hnl := (hlen l (List.mem_cons_of_mem _ hlm)).1
          rw [← hle, line_tokens_newline] at hl6
          rw [← hl6]
          exact (line_tokens_ws l hnul (fun ch hch hsp => by
            rcases hws ch hch hsp with h1 | h1
            · exact Or.inl h1
            · exact Or.inr (Or.inl h1))).symm

/-- C9 as amended, at an output with a header and one connection line. -/
theorem collect_connections_fields_witness :
    ∃ text line t1 t2 t3 t4 t5 t6 rest,
      some "Netid State\ntcp ESTAB 0 0 1.1.1.1:1 2.2.2.2:2\n".toList = some text ∧
      line ∈ (read_lines MAX_LINE text).drop 1 ∧
      line_tokens line = t1 :: t2 :: t3 :: t4 :: t5 :: t6 :: rest ∧
      "tcp".toList = t1.take 63 ∧ "ESTAB".toList = t2.take 63 ∧
      "1.1.1.1:1".toList = t5.take 63 ∧ "2.2.2.2:2".toList = t6.take 63 ∧
      "tcp".toList ≠ [] ∧ "ESTAB".toList ≠ [] ∧ "1.1.1.1:1".toList ≠ [] ∧
      "2.2.2.2:2".toList ≠ [] ∧
      "tcp".toList.length ≤ 63 ∧ "ESTAB".toList.length ≤ 63 ∧
      "1.1.1.1:1".toList.length ≤ 63 ∧ "2.2.2.2:2".toList.length ≤ 63 ∧
      (∀ (header : List Char) (lines : List (List Char)), text = unlines (header :: lines) →
        (∀ l ∈ header :: lines, '\n' ∉ l ∧ l.length ≤ 1022) →
        ∃ l ∈ lines, line = l ++ ['\n'] ∧
          (NUL ∉ l → (∀ ch ∈ l, isspace ch = true → ch = ' ' ∨ ch = '\t') →
            ws_tokens l = t1 :: t2 :: t3 :: t4 :: t5 :: t6 :: rest)) :=
  collect_connections_fields (fun _ => none)
    (some "Netid State\ntcp ESTAB 0 0 1.1.1.1:1 2.2.2.2:2\n".toList)
    [{ proto := "tcp".toList, state := "ESTAB".toList, local_ := "1.1.1.1:1".toList,
       remote := "2.2.2.2:2".toList, pid := none, process := "-".toList,
       cmd := "-".toList, cpu := "-".toList, mem := "-".toList }]
    { proto := "tcp".toList, state := "ESTAB".toList, local_ := "1.1.1.1:1".toList,
      remote := "2.2.2.2:2".toList, pid := none, process := "-".toList,
      cmd := "-".toList, cpu := "-".toList, mem := "-".toList }
    (by decide) (by decide)

/-! ## The pid of a record -/

theorem users_loop_eq :
    ∀ (parts : List (List Char)) (users : List Char),
      users.length + (join_blank parts).length + 1 < MAX_LINE →
      users_loop parts users = users ++ join_blank parts
  | [], users, _ => by simp [users_loop, join_blank]
  | [p], users, h => by
    simp only [join_blank] at h
    simp [users_loop, join_blank, h]
  | p :: q :: r, users, h => by
    simp only [join_blank, List.length_append, List.length_cons] at h
    have hp : users.length + p.length + 1 < MAX_LINE := by omega
    have ih := users_loop_eq (q :: r) (users ++ p ++ [' '])
      (by simp only [List.length_append, List.length_singleton]; omega)
    rw [users_loop, if_pos hp, if_pos (by simp), ih]
    simp [join_blank]

theorem join_blank_cons_cons (x : Char) (t : List Char) (ts : List (List Char)) :
    join_blank ((x :: t) :: ts) = x :: join_blank (t :: ts) := by
  cases ts <;> simp [join_blank]

theorem strtok_all_cons_delim (d : Char → Bool) (c : Char) (s : List Char) (h : d c = true) :
    strtok_all d (c :: s) = strtok_all d s := by
  cases s <;> simp [strtok_all, h]

theorem join_blank_tokens_le (d : Char → Bool) :
    ∀ s : List Char, (join_blank (strtok_all d s)).length ≤ s.length
  | [] => by simp [strtok_all, join_blank]
  | [x] => by
    by_cases hx : d x = true <;> simp [strtok_all, join_blank, hx]
  | x :: y :: s => by
    have ih1 := join_blank_tokens_le d (y :: s)
    have ih2 := join_blank_tokens_le d s
    by_cases hx : d x = true
    · rw [strtok_all, if_pos hx]
      simp only [List.length_cons] at ih1 ⊢
      omega
    · by_cases hy : d y = true
      · have e : strtok_all d (y :: s) = strtok_all d s := strtok_all_cons_delim d y s hy
        rw [strtok_all, if_neg hx, if_pos hy, e]
        cases hs : strtok_all d s with
        | nil => simp [join_blank]
        | cons t ts =>
          rw [hs] at ih2
          simp only [join_blank, List.length_append, List.length_cons, List.length_nil,
            List.singleton_append] at ih2 ⊢
          omega
      · rw [strtok_all, if_neg hx, if_neg hy]
        cases hs : strtok_all d (y :: s) with
        | nil => simp [join_blank]
        | cons t ts =>
          rw [hs] at ih1
          simp only [join_blank_cons_cons, List.length_cons] at ih1 ⊢
          omega

theorem join_blank_tail_le (p : List Char) (rest : List (List Char)) :
    (join_blank rest).length ≤ (join_blank (p :: rest)).length := by
  cases rest with
  | nil => simp [join_blank]
  | cons q r => simp only [join_blank, List.length_append, List.length_cons]; omega

theorem join_blank_drop_le (k : Nat) (l : List (List Char)) :
    (join_blank (l.drop k)).length ≤ (join_blank l).length := by
  induction k generalizing l with
  | zero => simp
  | succ k ih =>
    cases l with
    | nil => simp
    | cons p rest =>
      have h1 := ih rest
      have h2 := join_blank_tail_le p rest
      simp only [List.drop_succ_cons]
      omega

theorem join_blank_take_le (k : Nat) (l : List (List Char)) :
    (join_blank (l.take k)).length ≤ (join_blank l).length := by
  induction l generalizing k with
  | nil => simp
  | cons p rest ih =>
    cases k with
    | zero => simp [join_blank]
    | succ k =>
      have h1 := ih k
      simp only [List.take_succ_cons]
      cases ht : rest.take k with
      | nil =>
        cases rest with
        | nil => simp [join_blank]
        | cons q r => simp only [join_blank, List.length_append, List.length_cons]; omega
      | cons t ts =>
        rw [ht] at h1
        cases rest with
        | nil => simp at ht
        | cons q r =>
          simp only [join_blank, List.length_append, List.length_cons] at h1 ⊢
          omega

theorem join_blank_drop_six (l : List (List Char)) :
    (join_blank (l.drop 6)).length + 1 ≤ (join_blank l).length ∨
      (join_blank (l.drop 6)).length = 0 := by
  cases l with
  | nil => right; simp [join_blank]
  | cons p rest =>
    have h1 := join_blank_drop_le 5 rest
    cases rest with
    | nil => right; simp [join_blank]
    | cons q r =>
      left
      simp only [List.drop_succ_cons, join_blank, List.length_append, List.length_cons] at h1 ⊢
      omega

theorem cstr_length_le (s : List Char) : (cstr s).length ≤ s.length := by
  induction s with
  | nil => simp [cstr]
  | cons c s ih =>
    simp only [cstr, List.takeWhile] at ih ⊢
    split
    · simp only [List.length_cons]; omega
    · simp

theorem users_of_line (line : List Char) (hlen : line.length < MAX_LINE) :
    users_loop ((line_parts line).drop 6) [] = join_blank ((line_parts line).drop 6) := by
  have h1 := join_blank_drop_six (line_parts line)
  have h2 := join_blank_take_le 20 (line_tokens line)
  have h3 := join_blank_tokens_le (fun c => c = ' ' ∨ c = '\t' ∨ c = '\n') (cstr line)
  have h4 := cstr_length_le line
  have hM : MAX_LINE = 1024 := rfl
  have e := users_loop_eq ((line_parts line).drop 6) []
    (by
      simp only [List.length_nil, Nat.zero_add]
      simp only [line_parts, line_tokens] at h1 h2 ⊢
      omega)
  simpa using e

theorem isdigit_toNat {c : Char} (h : isdigit c = true) : 48 ≤ c.toNat ∧ c.toNat ≤ 57 := by
  simpa [isdigit] using h

theorem isdigit_not_space {c : Char} (h : isdigit c = true) : isspace c = false := by
  have hb := isdigit_toNat h
  simp only [isspace, Bool.decide_or, Bool.decide_and, Bool.or_eq_false_iff,
    Bool.and_eq_false_imp, decide_eq_false_iff_not, decide_eq_true_eq]
  omega

theorem skipSign_digit {c : Char} (t : List Char) (h : isdigit c = true) :
    skipSign (c :: t) = (false, c :: t) := by
  have hb := isdigit_toNat h
  have h1 : c ≠ '-' := char_ne_of_toNat (by
    have : ('-' : Char).toNat = 45 := by decide
    omega)
  have h2 : c ≠ '+' := char_ne_of_toNat (by
    have : ('+' : Char).toNat = 43 := by decide
    omega)
  simp [skipSign, h1, h2]

theorem decValue_append_one (ds : List Char) (c : Char) :
    decValue (ds ++ [c]) = decValue ds * 10 + (c.toNat - 48) := by
  simp [decValue, List.foldl_append]

theorem decValue_lt (ds : List Char) (h : ∀ c ∈ ds, isdigit c = true) :
    decValue ds < 10 ^ ds.length := by
  induction ds using List.reverseRecOn with
  | nil => simp [decValue]
  | append_singleton ds c ih =>
    have h1 := ih (fun x hx => h x (by simp [hx]))
    have h2 := isdigit_toNat (h c (by simp))
    rw [decValue_append_one, List.length_append, List.length_singleton, pow_succ]
    omega

/-- On a non-empty run of at most 15 decimal digits `atoi` gives the value of
the run cut to 32 bits. -/
theorem atoi_digits (ds : List Char) (hne : ds ≠ []) (h : ∀ c ∈ ds, isdigit c = true)
    (hlen : ds.length ≤ 15) : atoi ds = wrapInt32 (decValue ds) := by
  obtain ⟨c, t, rfl⟩ := List.exists_cons_of_ne_nil hne
  have hc := h c (by simp)
  have hd : List.dropWhile isspace (c :: t) = c :: t :=
    List.dropWhile_cons_of_neg (by simp [isdigit_not_space hc])
  have ht : List.takeWhile isdigit (c :: t) = c :: t := List.takeWhile_eq_self_iff.2 h
  have hv : decValue (c :: t) < 10 ^ 15 := by
    have h1 := decValue_lt (c :: t) h
    have h2 : 10 ^ (c :: t).length ≤ 10 ^ 15 := Nat.pow_le_pow_right (by norm_num) hlen
    omega
  have hv2 : ¬ ((2 : Int) ^ 63 ≤ ((decValue (c :: t) : Nat) : Int)) := by
    have : (10 : Nat) ^ 15 < 2 ^ 63 := by norm_num
    have h3 : ((decValue (c :: t) : Nat) : Int) < 2 ^ 63 := by
      have : decValue (c :: t) < 2 ^ 63 := by omega
      exact_mod_cast this
    omega
  simp only [atoi, hd, skipSign_digit t hc, ht, Bool.false_eq_true, if_false, hv2]

theorem wrapInt32_small (v : Nat) (h : v < 2 ^ 31) : wrapInt32 (v : Int) = (v : Int) := by
  have h' : v < 2147483648 := by simpa using h
  simp only [wrapInt32]
  norm_num
  omega

/-- C10 fails on the code: a line whose metadata has `pid=` followed by 16
digits gives a record with no pid; `pid=4294967297` gives the pid 1, not
the integer the digits denote; and when the first `pid=` has no digit after
it, a later `pid=12` is not looked at. -/
theorem netconn_pid_not_parsed :
    (netconn_of_line (fun _ => none)
      "tcp ESTAB 0 0 1.1.1.1:1 2.2.2.2:2 users:((x,pid=1234567890123456,fd=3))".toList).map
        (fun c => c.pid) = some none ∧
    (netconn_of_line (fun _ => none)
      "tcp ESTAB 0 0 1.1.1.1:1 2.2.2.2:2 users:((x,pid=4294967297,fd=3))".toList).map
        (fun c => c.pid) = some (some 1) ∧
    (netconn_of_line (fun _ => none)
      "tcp ESTAB 0 0 1.1.1.1:1 2.2.2.2:2 users:((pid=,pid=12,fd=3))".toList).map
        (fun c => c.pid) = some none := by
  decide

/-- C10 as amended: for a line `fgets` can store (fewer than `MAX_LINE`
characters) with at least 6 tokens a record is always built.  With the
metadata being tokens 7 to 20 joined by single blanks, the record has a pid
exactly when the first `pid=` of the metadata is directly followed by 1 to
15 decimal digits; the pid is then the value of those digits cut to a
32-bit `int`, which is the integer they denote when it is below 2^31. -/
theorem netconn_of_line_pid (ps : Int → Option (List Char)) (line : List Char)
    (hlen : line.length < MAX_LINE) (h6 : 6 ≤ (line_tokens line).length) :
    ∃ c, netconn_of_line ps line = some c ∧
      (c.pid.isSome = true ↔
        1 ≤ (digits_after_pid (join_blank ((line_parts line).drop 6))).length ∧
          (digits_after_pid (join_blank ((line_parts line).drop 6))).length ≤ 15) ∧
      (c.pid.isSome = true →
        c.pid = some (wrapInt32
          (decValue (digits_after_pid (join_blank ((line_parts line).drop 6)))))) ∧
      (c.pid.isSome = true →
        decValue (digits_after_pid (join_blank ((line_parts line).drop 6))) < 2 ^ 31 →
        c.pid = some
          ((decValue (digits_after_pid (join_blank ((line_parts line).drop 6))) : Nat) :
            Int)) := by
  have hp6 : ¬ (line_parts line).length < 6 := by
    have := (line_parts_length line).2 h6
    omega
  have hu := users_of_line line hlen
  generalize hdg : digits_after_pid (join_blank ((line_parts line).drop 6)) = digits
  simp only [netconn_of_line, hp6, if_false, hu]
  by_cases h7 : 6 < (line_parts line).length
  · simp only [h7, if_true]
    cases hs : strstr (join_blank ((line_parts line).drop 6)) "pid=".toList with
    | none =>
      have hd : digits = [] := by
        rw [← hdg]; simp only [digits_after_pid, hs]
      subst hd
      exact ⟨_, rfl, by simp, by simp, by simp⟩
    | some found =>
      have hd : digits = (found.drop 4).takeWhile isdigit := by
        rw [← hdg]; simp only [digits_after_pid, hs]
      dsimp only
      rw [← hd]
      by_cases hr : 0 < digits.length ∧ digits.length < MAX_PID_STR
      · have hM : MAX_PID_STR = 16 := rfl
        have hne : digits ≠ [] := by
          intro e; rw [e] at hr; simp at hr
        have hall : ∀ c ∈ digits, isdigit c = true := by
          intro c hc
          rw [hd] at hc
          exact (List.mem_takeWhile_imp hc)
        have ha := atoi_digits digits hne hall (by omega)
        simp only [hr, and_self, if_true, ha]
        have hrange : 1 ≤ digits.length ∧ digits.length ≤ 15 := by omega
        cases get_process_details ps (wrapInt32 (decValue digits)) with
        | none =>
          refine ⟨_, rfl, by simp [hrange], by simp, ?_⟩
          intro _ hv
          simp [wrapInt32_small _ hv]
        | some d =>
          obtain ⟨name, cmd, cpu, mem⟩ := d
          refine ⟨_, rfl, by simp [hrange], by simp, ?_⟩
          intro _ hv
          simp [wrapInt32_small _ hv]
      · have hM : MAX_PID_STR = 16 := rfl
        simp only [hr, if_false]
        refine ⟨_, rfl, ?_, by simp, by simp⟩
        simp only [Option.isSome_none, Bool.false_eq_true, false_iff]
        omega
  · have hd0 : (line_parts line).drop 6 = [] := List.drop_eq_nil_of_le (by omega)
    have hd : digits = [] := by
      rw [← hdg, hd0]; decide
    subst hd
    simp only [h7, if_false]
    exact ⟨_, rfl, by simp, by simp, by simp⟩

/-- C10 as amended, at a line whose metadata holds `pid=1234`. -/
theorem netconn_of_line_pid_witness :
    ∃ c, netconn_of_line (fun _ => none)
        "tcp ESTAB 0 0 1.1.1.1:1 2.2.2.2:2 users:((sshd,pid=1234,fd=3))".toList = some c ∧
      c.pid = some 1234 := by
  obtain ⟨c, hc, hiff, _, hval⟩ := netconn_of_line_pid (fun _ => none)
    "tcp ESTAB 0 0 1.1.1.1:1 2.2.2.2:2 users:((sshd,pid=1234,fd=3))".toList
    (by decide) (by decide)
  exact ⟨c, hc, hval (hiff.2 (by decide)) (by decide)⟩

/-! ## Table and summary (`net_monitor`) -/

/-- C13: for a budget `max_len >= 3`, `truncate_str` leaves a string of at
most `max_len` characters: the string itself when it fits, otherwise its
first `max_len - 3` characters followed by `...`, exactly `max_len` long;
a table row holds the process name cut to 15 and the local and remote
addresses cut to 25. -/
theorem truncate_str_budget (s : List Char) (max_len : Int) (h : 3 ≤ max_len) :
    ((truncate_str s max_len).length : Int) ≤ max_len ∧
    (((cstr s).length : Int) ≤ max_len → truncate_str s max_len = cstr s) ∧
    (max_len < ((cstr s).length : Int) →
      truncate_str s max_len = (cstr s).take (max_len - 3).toNat ++ "...".toList ∧
      ((truncate_str s max_len).length : Int) = max_len) ∧
    (∀ c : NetConn,
      table_row c = fmt_row c.proto (row_pid_str c) (truncate_str c.process 15) c.state
        (truncate_str c.local_ 25) (truncate_str c.remote 25) c.cpu c.mem) := by
  have hneg : ¬ max_len < 0 := by omega
  have hfit : ((cstr s).length : Int) ≤ max_len → truncate_str s max_len = cstr s := by
    intro hle
    simp only [truncate_str, hneg, if_false, hle, if_true]
  have hcut : max_len < ((cstr s).length : Int) →
      truncate_str s max_len = (cstr s).take (max_len - 3).toNat ++ "...".toList ∧
      ((truncate_str s max_len).length : Int) = max_len := by
    intro hlt
    have hnle : ¬ ((cstr s).length : Int) ≤ max_len := by omega
    have e : truncate_str s max_len = (cstr s).take (max_len - 3).toNat ++ "...".toList := by
      simp only [truncate_str, hneg, if_false, hnle]
    refine ⟨e, ?_⟩
    rw [e]
    have h3 : "...".toList.length = 3 := by decide
    simp only [List.length_append, List.length_take, h3]
    omega
  refine ⟨?_, hfit, hcut, fun c => rfl⟩
  by_cases hle : ((cstr s).length : Int) ≤ max_len
  · rw [hfit hle]; exact hle
  · have := (hcut (by omega)).2
    omega

/-- C13, at the budget 15 of the process column and a name of 20 characters. -/
theorem truncate_str_budget_witness :
    truncate_str "systemd-resolved-xyz".toList 15 = "systemd-reso...".toList :=
  ((truncate_str_budget "systemd-resolved-xyz".toList 15 (by decide)).2.2.1 (by decide)).1.trans
    (by decide)

theorem count_states_eq (conns : List NetConn) (acc : Int × Int) :
    count_states conns acc =
      (acc.1 + ((conns.filter (fun c => strcmp_eq c.state "ESTAB".toList)).length : Int),
       acc.2 + ((conns.filter (fun c => strcmp_eq c.state "LISTEN".toList)).length : Int)) := by
  induction conns generalizing acc with
  | nil => simp [count_states]
  | cons c rest ih =>
    simp only [count_states, ih, List.filter_cons]
    split_ifs <;>
      (refine Prod.ext ?_ ?_ <;>
        simp only [List.length_cons, Nat.cast_add, Nat.cast_one] <;> omega)

/-- C15 fails on the code: for a snapshot whose records have the states
`ESTABLISHED` and `LISTEN` the summary line counts no active connection. -/
theorem summary_line_established :
    summary_line [conn_with_state "ESTABLISHED".toList, conn_with_state "LISTEN".toList] =
      "Total connections: 2 (0 active, 1 listening)\n".toList := by
  decide

/-- C15 as amended: the summary line reports the number of records, the
number of records whose state is `ESTAB` (as `ss` writes an established
connection) as active and the number whose state is `LISTEN` as listening;
for a snapshot of one `ESTAB` record and one `LISTEN` record it reads
`2 (1 active, 1 listening)`. -/
theorem summary_line_counts (conns : List NetConn) (c1 c2 : NetConn)
    (h1 : c1.state = "ESTAB".toList) (h2 : c2.state = "LISTEN".toList) :
    summary_line conns =
      "Total connections: ".toList ++ fmt_d conns.length ++ " (".toList ++
        fmt_d ((conns.filter (fun c => strcmp_eq c.state "ESTAB".toList)).length : Int) ++
        " active, ".toList ++
        fmt_d ((conns.filter (fun c => strcmp_eq c.state "LISTEN".toList)).length : Int) ++
        " listening)\n".toList ∧
    summary_line [c1, c2] = "Total connections: 2 (1 active, 1 listening)\n".toList := by
  constructor
  · simp only [summary_line, count_states_eq, zero_add]
  · have e1 : strcmp_eq "ESTAB".toList "ESTAB".toList = true := by decide
    have e2 : strcmp_eq "LISTEN".toList "ESTAB".toList = false := by decide
    have e3 : strcmp_eq "ESTAB".toList "LISTEN".toList = false := by decide
    have e4 : strcmp_eq "LISTEN".toList "LISTEN".toList = true := by decide
    simp only [summary_line, count_states_eq, zero_add, List.filter_cons, h1, h2,
      List.filter_nil, e1, e2, e3, e4, if_true, Bool.false_eq_true, if_false,
      List.length_cons, List.length_nil, zero_add]
    decide

/-- C15 as amended, at a snapshot of one `ESTAB` and one `LISTEN` record. -/
theorem summary_line_counts_witness :
    summary_line [conn_with_state "ESTAB".toList, conn_with_state "LISTEN".toList] =
      "Total connections: 2 (1 active, 1 listening)\n".toList :=
  (summary_line_counts [] (conn_with_state "ESTAB".toList) (conn_with_state "LISTEN".toList)
    rfl rfl).2

/-! ## Command line (`net_monitor`) -/

theorem parse_args_loop_json (arg : List Char) (rest : List (List Char)) (a : Args)
    (h : strcmp_eq arg "--json".toList = true) :
    parse_args_loop (arg :: rest) a = parse_args_loop rest { a with json_mode := 1 } := by
  cases rest <;> simp only [parse_args_loop, h, if_true]

theorem parse_args_loop_watch (arg : List Char) (rest : List (List Char)) (a : Args)
    (hj : ¬ strcmp_eq arg "--json".toList = true) (h : strcmp_eq arg "--watch".toList = true) :
    parse_args_loop (arg :: rest) a = parse_args_loop rest { a with watch := 1 } := by
  cases rest <;> simp only [parse_args_loop, hj, h, if_true, if_false, Bool.false_eq_true]

theorem parse_args_loop_other (arg : List Char) (rest : List (List Char)) (a : Args)
    (hj : ¬ strcmp_eq arg "--json".toList = true) (hw : ¬ strcmp_eq arg "--watch".toList = true)
    (hi : ¬ strcmp_eq arg "--interval".toList = true) :
    parse_args_loop (arg :: rest) a = parse_args_loop rest a := by
  cases rest <;> simp only [parse_args_loop, hj, hw, hi, if_false, Bool.false_eq_true]

theorem parse_args_loop_flags (args : List (List Char)) (a : Args)
    (hno : ∀ x ∈ args, strcmp_eq x "--interval".toList = false) :
    (parse_args_loop args a).interval = a.interval ∧
    (parse_args_loop args a).json_mode =
      (if args.any (fun x => strcmp_eq x "--json".toList) = true then 1 else a.json_mode) ∧
    (parse_args_loop args a).watch =
      (if args.any (fun x => strcmp_eq x "--watch".toList) = true then 1 else a.watch) := by
  induction args generalizing a with
  | nil => simp [parse_args_loop]
  | cons arg rest ih =>
    have hrest : ∀ x ∈ rest, strcmp_eq x "--interval".toList = false :=
      fun x hx => hno x (by simp [hx])
    have harg := hno arg (by simp)
    by_cases hj : strcmp_eq arg "--json".toList = true
    · have hw : strcmp_eq arg "--watch".toList = false := by
        simp only [strcmp_eq, decide_eq_true_eq, decide_eq_false_iff_not] at hj ⊢
        rw [hj]; decide
      obtain ⟨h1, h2, h3⟩ := ih { a with json_mode := 1 } hrest
      rw [parse_args_loop_json arg rest a hj]
      refine ⟨h1, ?_, ?_⟩
      · rw [h2]
        simp only [List.any_cons, hj, Bool.true_or, if_true, ite_self]
      · rw [h3]
        simp only [List.any_cons, hw, Bool.false_or]
    · have hj2 : strcmp_eq arg "--json".toList = false := Bool.eq_false_iff.2 hj
      by_cases hw : strcmp_eq arg "--watch".toList = true
      · obtain ⟨h1, h2, h3⟩ := ih { a with watch := 1 } hrest
        rw [parse_args_loop_watch arg rest a hj hw]
        refine ⟨h1, ?_, ?_⟩
        · rw [h2]
          simp only [List.any_cons, hj2, Bool.false_or]
        · rw [h3]
          simp only [List.any_cons, hw, Bool.true_or, if_true, ite_self]
      · have hw2 : strcmp_eq arg "--watch".toList = false := Bool.eq_false_iff.2 hw
        obtain ⟨h1, h2, h3⟩ := ih a hrest
        rw [parse_args_loop_other arg rest a hj hw (by rw [harg]; decide)]
        refine ⟨h1, ?_, ?_⟩
        · rw [h2]
          simp only [List.any_cons, hj2, Bool.false_or]
        · rw [h3]
          simp only [List.any_cons, hw2, Bool.false_or]

/-- The settings after the loop of `parse_args`, by the options read. -/
theorem parse_args_loop_options :
    ∀ (args : List (List Char)) (a : Args),
      parse_args_loop args a =
        { json_mode := if CliOption.json ∈ read_options args then 1 else a.json_mode
          watch := if CliOption.watch ∈ read_options args then 1 else a.watch
          interval := (((read_options args).filterMap valid_interval).getLast?).getD a.interval }
  | [], a => by simp [parse_args_loop, read_options]
  | [arg], a => by
    by_cases hj : strcmp_eq arg "--json".toList = true
    · simp only [parse_args_loop, read_options, hj, if_true]
      simp [valid_interval]
    · by_cases hw : strcmp_eq arg "--watch".toList = true
      · simp only [parse_args_loop, read_options, hj, hw, if_true, if_false]
        simp [valid_interval]
      · by_cases hi : strcmp_eq arg "--interval".toList = true
        · simp only [parse_args_loop, read_options, hj, hw, hi, if_true, if_false]
          simp [valid_interval]
        · simp only [parse_args_loop, read_options, hj, hw, hi, if_false]
          simp [valid_interval]
  | arg :: v :: rest, a => by
    by_cases hj : strcmp_eq arg "--json".toList = true
    · rw [parse_args_loop_json arg (v :: rest) a hj, parse_args_loop_options (v :: rest)]
      have e : read_options (arg :: v :: rest) = CliOption.json :: read_options (v :: rest) := by
        rw [read_options, if_pos hj]
      rw [e]
      simp [valid_interval]
    · by_cases hw : strcmp_eq arg "--watch".toList = true
      · rw [parse_args_loop_watch arg (v :: rest) a hj hw, parse_args_loop_options (v :: rest)]
        have e : read_options (arg :: v :: rest) =
            CliOption.watch :: read_options (v :: rest) := by
          rw [read_options, if_neg hj, if_pos hw]
        rw [e]
        simp [valid_interval]
      · by_cases hi : strcmp_eq arg "--interval".toList = true
        · have e : read_options (arg :: v :: rest) =
              CliOption.interval v :: read_options rest := by
            rw [read_options, if_neg hj, if_neg hw, if_pos hi]
          have e2 : parse_args_loop (arg :: v :: rest) a = parse_args_loop rest
              (if 0 < atoi v ∧ atoi v ≤ MAX_INTERVAL then { a with interval := atoi v }
                else a) := by
            rw [parse_args_loop, if_neg hj, if_neg hw, if_pos hi]
          rw [e, e2, parse_args_loop_options rest]
          by_cases hval : 0 < atoi v ∧ atoi v ≤ MAX_INTERVAL
          · simp only [hval, and_self, if_true, List.filterMap_cons, valid_interval,
              List.mem_cons, reduceCtorEq, false_or]
            cases hl : (List.filterMap valid_interval (read_options rest)) with
            | nil => simp
            | cons x xs =>
              simp only [List.getLast?_cons_cons, hl]
              have hy : (x :: xs).getLast? = some ((x :: xs).getLast (by simp)) :=
                List.getLast?_eq_getLast _ _
              rw [hy]
              rfl
          · simp only [hval, if_false, List.filterMap_cons, valid_interval,
              List.mem_cons, reduceCtorEq, false_or]
        · rw [parse_args_loop_other arg (v :: rest) a hj hw hi,
            parse_args_loop_options (v :: rest)]
          have e : read_options (arg :: v :: rest) =
              CliOption.other :: read_options (v :: rest) := by
            rw [read_options, if_neg hj, if_neg hw, if_neg hi]
          rw [e]
          simp [valid_interval]

theorem parse_args_options (prog : List Char) (args : List (List Char)) :
    parse_args (prog :: args) = args_of_options (read_options args) := by
  simp only [parse_args, List.drop_succ_cons, List.drop_zero, parse_args_loop_options,
    args_of_options]

theorem parse_args_loop_append (more : List (List Char)) :
    ∀ (args : List (List Char)) (a : Args),
      (∀ x ∈ args, strcmp_eq x "--interval".toList = false) →
      parse_args_loop (args ++ more) a = parse_args_loop more (parse_args_loop args a)
  | [], a, _ => by simp [parse_args_loop]
  | arg :: rest, a, hno => by
    have hrest : ∀ x ∈ rest, strcmp_eq x "--interval".toList = false :=
      fun x hx => hno x (List.mem_cons_of_mem _ hx)
    have harg := hno arg (List.mem_cons_self _ _)
    rw [List.cons_append]
    by_cases hj : strcmp_eq arg "--json".toList = true
    · rw [parse_args_loop_json arg _ a hj, parse_args_loop_json arg _ a hj]
      exact parse_args_loop_append more rest _ hrest
    · by_cases hw : strcmp_eq arg "--watch".toList = true
      · rw [parse_args_loop_watch arg _ a hj hw, parse_args_loop_watch arg _ a hj hw]
        exact parse_args_loop_append more rest _ hrest
      · have hi : ¬ strcmp_eq arg "--interval".toList = true := by rw [harg]; decide
        rw [parse_args_loop_other arg _ a hj hw hi, parse_args_loop_other arg _ a hj hw hi]
        exact parse_args_loop_append more rest _ hrest

theorem args_ext (a b : Args) (h1 : a.json_mode = b.json_mode) (h2 : a.watch = b.watch)
    (h3 : a.interval = b.interval) : a = b := by
  cases a
  cases b
  simp only [Args.mk.injEq]
  exact ⟨h1, h2, h3⟩

theorem parse_args_loop_value (v : List Char) (rest : List (List Char)) (a : Args) :
    parse_args_loop ("--interval".toList :: v :: rest) a =
      parse_args_loop rest
        (if 0 < atoi v ∧ atoi v ≤ MAX_INTERVAL then { a with interval := atoi v } else a) := by
  have e1 : strcmp_eq "--interval".toList "--json".toList = false := by decide
  have e2 : strcmp_eq "--interval".toList "--watch".toList = false := by decide
  have e3 : strcmp_eq "--interval".toList "--interval".toList = true := by decide
  rw [parse_args_loop, if_neg (by rw [e1]; decide), if_neg (by rw [e2]; decide), if_pos e3]

/-- C17 fails on the code: `--interval 5000` leaves the interval at its
default 3; it is not clamped to 3600. -/
theorem parse_args_interval_5000 :
    (parse_args ["netmon".toList, "--interval".toList, "5000".toList]).interval = 3 := by
  decide

/-- C17 as amended: `parse_args` reads the arguments from left to right, and
the argument that follows an `--interval` is its value, not an option; json
mode and watch mode are 1 when `--json` and `--watch` are among the options
read and 0 otherwise, and the interval is that of the last `--interval`
whose value `atoi` reads as a number from 1 to 3600, and 3 when there is
none.  So without an `--interval` the interval is 3; with `--interval N`
after or before any options with no other `--interval`, N written in at most
9 decimal digits, the flags are as without it and the interval is N when
1 <= N <= 3600 and 3 otherwise, a value above 3600 being ignored; `--json`
right after `--interval` is taken for a value and sets no flag; and of two
`--interval` the later one with a value in range counts. -/
theorem parse_args_interval (prog v : List Char) (args : List (List Char))
    (hno : ∀ x ∈ args, strcmp_eq x "--interval".toList = false)
    (hne : v ≠ []) (hdig : ∀ c ∈ v, isdigit c = true) (hlen : v.length ≤ 9) :
    (∀ args2 : List (List Char),
      parse_args (prog :: args2) = args_of_options (read_options args2)) ∧
    (parse_args (prog :: args)).interval = 3 ∧
    (parse_args (prog :: args)).json_mode =
      (if args.any (fun x => strcmp_eq x "--json".toList) = true then 1 else 0) ∧
    (parse_args (prog :: args)).watch =
      (if args.any (fun x => strcmp_eq x "--watch".toList) = true then 1 else 0) ∧
    parse_args (prog :: (args ++ ["--interval".toList, v])) =
      { json_mode := (parse_args (prog :: args)).json_mode
        watch := (parse_args (prog :: args)).watch
        interval :=
          if 1 ≤ decValue v ∧ decValue v ≤ 3600 then ((decValue v : Nat) : Int) else 3 } ∧
    parse_args (prog :: "--interval".toList :: v :: args) =
      { json_mode := (parse_args (prog :: args)).json_mode
        watch := (parse_args (prog :: args)).watch
        interval :=
          if 1 ≤ decValue v ∧ decValue v ≤ 3600 then ((decValue v : Nat) : Int) else 3 } ∧
    parse_args [prog, "--interval".toList, "--json".toList] =
      { json_mode := 0, watch := 0, interval := 3 } ∧
    parse_args [prog, "--interval".toList, "10".toList, "--interval".toList, "5000".toList] =
      { json_mode := 0, watch := 0, interval := 10 } := by
  obtain ⟨h1, h2, h3⟩ := parse_args_loop_flags args
    { json_mode := 0, watch := 0, interval := DEFAULT_INTERVAL } hno
  have hv : decValue v < 2 ^ 31 := by
    have h4 := decValue_lt v hdig
    have h5 : 10 ^ v.length ≤ 10 ^ 9 := Nat.pow_le_pow_right (by norm_num) hlen
    have h6 : (10 : Nat) ^ 9 < 2 ^ 31 := by norm_num
    omega
  have ha : atoi v = ((decValue v : Nat) : Int) := by
    rw [atoi_digits v hne hdig (by omega), wrapInt32_small _ hv]
  have hM : MAX_INTERVAL = 3600 := rfl
  have hD : DEFAULT_INTERVAL = 3 := rfl
  have hvalid : (0 < atoi v ∧ atoi v ≤ MAX_INTERVAL) ↔ (1 ≤ decValue v ∧ decValue v ≤ 3600) := by
    rw [ha, hM]
    omega
  refine ⟨fun args2 => parse_args_options prog args2, h1, h2, h3, ?_, ?_, ?_, ?_⟩
  · simp only [parse_args, List.drop_succ_cons, List.drop_zero] at h1 h2 h3 ⊢
    rw [parse_args_loop_append _ args _ hno, parse_args_loop_value]
    by_cases hr : 1 ≤ decValue v ∧ decValue v ≤ 3600
    · rw [if_pos (hvalid.2 hr), if_pos hr, ha]
      exact args_ext _ _ rfl rfl rfl
    · rw [if_neg (fun h => hr (hvalid.1 h)), if_neg hr]
      exact args_ext _ _ rfl rfl (by simpa [parse_args_loop] using h1)
  · simp only [parse_args, List.drop_succ_cons, List.drop_zero] at h1 h2 h3 ⊢
    rw [parse_args_loop_value]
    by_cases hr : 1 ≤ decValue v ∧ decValue v ≤ 3600
    · rw [if_pos (hvalid.2 hr), if_pos hr, ha]
      obtain ⟨g1, g2, g3⟩ := parse_args_loop_flags args
        { json_mode := 0, watch := 0, interval := ((decValue v : Nat) : Int) } hno
      exact args_ext _ _ (by rw [g2, h2]) (by rw [g3, h3]) g1
    · rw [if_neg (fun h => hr (hvalid.1 h)), if_neg hr]
      exact args_ext _ _ rfl rfl (by rw [h1]; rfl)
  · have e := parse_args_loop_value "--json".toList []
      { json_mode := 0, watch := 0, interval := DEFAULT_INTERVAL }
    simp only [parse_args, List.drop_succ_cons, List.drop_zero]
    rw [e]
    decide
  · have e := parse_args_loop_value "10".toList ["--interval".toList, "5000".toList]
      { json_mode := 0, watch := 0, interval := DEFAULT_INTERVAL }
    simp only [parse_args, List.drop_succ_cons, List.drop_zero]
    rw [e]
    decide

/-- C17 as amended, at `--json --watch`, `--watch --interval 10` and
`--interval 10 --json`. -/
theorem parse_args_interval_witness :
    (parse_args ["netmon".toList, "--json".toList, "--watch".toList]).interval = 3 ∧
    (parse_args ["netmon".toList, "--json".toList, "--watch".toList]).json_mode = 1 ∧
    (parse_args ["netmon".toList, "--json".toList, "--watch".toList]).watch = 1 ∧
    parse_args ["netmon".toList, "--watch".toList, "--interval".toList, "10".toList] =
      { json_mode := 0, watch := 1, interval := 10 } ∧
    parse_args ["netmon".toList, "--interval".toList, "10".toList, "--json".toList] =
      { json_mode := 1, watch := 0, interval := 10 } := by
  obtain ⟨_, h1, h2, h3, _⟩ := parse_args_interval "netmon".toList "10".toList
    ["--json".toList, "--watch".toList] (by decide) (by decide) (by decide) (by decide)
  obtain ⟨_, _, _, _, h4, _⟩ := parse_args_interval "netmon".toList "10".toList
    ["--watch".toList] (by decide) (by decide) (by decide) (by decide)
  obtain ⟨_, _, _, _, _, h5, _⟩ := parse_args_interval "netmon".toList "10".toList
    ["--json".toList] (by decide) (by decide) (by decide) (by decide)
  exact ⟨h1, h2.trans (by decide), h3.trans (by decide), h4.trans (by decide),
    h5.trans (by decide)⟩

/-! ## Structured document (`net_monitor`) -/

theorem json_object_text (c : NetConn) (last : Bool) :
    json_object c last =
      "  \x7b\n".toList ++ members_text (record_members c) ++
        (if last then "  \x7d\n".toList else "  \x7d,\n".toList) := by
  cases hp : c.pid <;> cases last <;>
    simp [json_object, record_members, members_text, JsonValue.raw_text, hp]

theorem print_json_loop_eq :
    ∀ (conns : List NetConn) (i count : Int), count = i + conns.length →
      print_json_loop count i conns = objects_text (conns.map record_members)
  | [], _, _, _ => by simp [print_json_loop, objects_text]
  | [c], i, count, h => by
    have hl : i = count - 1 := by simp at h; omega
    simp only [print_json_loop, json_object_text, hl, decide_True, if_true, List.map,
      objects_text, List.append_nil, List.append_assoc]
  | c :: d :: r, i, count, h => by
    have hl : ¬ i = count - 1 := by simp at h; omega
    have ih := print_json_loop_eq (d :: r) (i + 1) count (by simp at h ⊢; omega)
    simp only [List.map] at ih
    simp only [print_json_loop, json_object_text, hl, decide_False, Bool.false_eq_true,
      if_false, List.map, objects_text, List.append_assoc] at ih ⊢
    rw [ih]

/-- C14: `print_json` writes one object for every record of the snapshot, in
snapshot order; the members `pid`, `process`, `cmd`, `cpu` and `mem` of an
object are all `null` when the record has no pid and all values (a number
and four strings) when it has one; for the output of `ss` with an ESTAB line
owned by pid 1234 and a LISTEN line with no owner the document has two
objects, the first with the five values and the second with five `null`. -/
theorem print_json_objects (conns : List NetConn) :
    print_json conns = document_text (conns.map record_members) ∧
    (conns.map record_members).length = conns.length ∧
    (∀ c : NetConn, c.pid = none →
      (record_members c).drop 4 =
        [("pid".toList, JsonValue.null), ("process".toList, JsonValue.null),
         ("cmd".toList, JsonValue.null), ("cpu".toList, JsonValue.null),
         ("mem".toList, JsonValue.null)]) ∧
    (∀ (c : NetConn) (pid : Int), c.pid = some pid →
      (record_members c).drop 4 =
        [("pid".toList, JsonValue.number pid),
         ("process".toList, JsonValue.string (cstr c.process)),
         ("cmd".toList, JsonValue.string (cstr c.cmd)),
         ("cpu".toList, JsonValue.string (cstr c.cpu)),
         ("mem".toList, JsonValue.string (cstr c.mem))]) ∧
    (collect_connections ps_sshd
        (some ("Netid State Recv-Q Send-Q Local Peer Process\n" ++
          "tcp ESTAB 0 0 10.0.0.1:22 10.0.0.2:5555 users:((sshd,pid=1234,fd=3))\n" ++
          "tcp LISTEN 0 128 0.0.0.0:22 0.0.0.0:*\n").toList)).map print_json =
      some (document_text
        [[("proto".toList, JsonValue.string "tcp".toList),
          ("state".toList, JsonValue.string "ESTAB".toList),
          ("local".toList, JsonValue.string "10.0.0.1:22".toList),
          ("remote".toList, JsonValue.string "10.0.0.2:5555".toList),
          ("pid".toList, JsonValue.number 1234),
          ("process".toList, JsonValue.string "sshd".toList),
          ("cmd".toList, JsonValue.string "sshd: root@pts/0".toList),
          ("cpu".toList, JsonValue.string "0.0".toList),
          ("mem".toList, JsonValue.string "0.1".toList)],
         [("proto".toList, JsonValue.string "tcp".toList),
          ("state".toList, JsonValue.string "LISTEN".toList),
          ("local".toList, JsonValue.string "0.0.0.0:22".toList),
          ("remote".toList, JsonValue.string "0.0.0.0:*".toList),
          ("pid".toList, JsonValue.null), ("process".toList, JsonValue.null),
          ("cmd".toList, JsonValue.null), ("cpu".toList, JsonValue.null),
          ("mem".toList, JsonValue.null)]]) := by
  refine ⟨?_, by simp, ?_, ?_, by decide⟩
  · simp only [print_json, document_text]
    rw [print_json_loop_eq conns 0 conns.length (by simp)]
  · intro c h
    simp [record_members, h]
  · intro c pid h
    simp [record_members, h]

/-- C16, evaluated on the code: the command line `sh -c "a\b"` cannot stand
between double quotes as it is, and `print_json` copies it between double
quotes as it is, so the member `cmd` is not a valid quoted string.  The
brackets and the commas between objects are as the claim says. -/
theorem print_json_copies_quotes :
    needs_no_escape conn_quoted_cmd.cmd = false ∧
    print_json [conn_quoted_cmd] =
      ("[\n  \x7b\n    \x22proto\x22: \x22tcp\x22,\n    \x22state\x22: \x22ESTAB\x22,\n" ++
       "    \x22local\x22: \x221.1.1.1:1\x22,\n    \x22remote\x22: \x222.2.2.2:2\x22,\n" ++
       "    \x22pid\x22: 77,\n    \x22process\x22: \x22sh\x22,\n" ++
       "    \x22cmd\x22: \x22sh -c \x22a\x5cb\x22\x22,\n" ++
       "    \x22cpu\x22: \x220.0\x22,\n    \x22mem\x22: \x220.1\x22\n  \x7d\n]\n").toList := by
  decide

/-! ## The run of `main` (`net_monitor`) -/

theorem main_step_flag (a : Args) (ps : Int → Option (List Char)) (inp : StepInput)
    (s : MainState) (h : s.flag = true) : (main_step a ps inp s).flag = true := by
  unfold main_step
  cases hp : s.phase <;> simp only [h, Bool.true_or, if_true]
  · cases collect_connections ps inp.ss <;> rfl
  · cases collect_connections ps inp.ss <;> rfl

theorem main_step_finished (a : Args) (ps : Int → Option (List Char)) (inp : StepInput)
    (s : MainState) (code : Int) (h : s.phase = Phase.finished code) :
    main_step a ps inp s = s := by
  simp only [main_step, h]

theorem main_run_finished (a : Args) (ps : Int → Option (List Char)) (inputs : List StepInput)
    (s : MainState) (code : Int) (h : s.phase = Phase.finished code) :
    main_run a ps inputs s = s := by
  induction inputs with
  | nil => rfl
  | cons inp rest ih => rw [main_run, main_step_finished a ps inp s code h, ih]

theorem main_step_past_start (a : Args) (ps : Int → Option (List Char)) (inp : StepInput)
    (s : MainState) (h : past_start s) : past_start (main_step a ps inp s) := by
  obtain ⟨h1, h2⟩ := h
  unfold main_step
  cases hp : s.phase with
  | initial => exact absurd hp h1
  | first_render conns =>
    refine ⟨by simp only []; split <;> simp, ?_⟩
    intro code hc
    simp only [] at hc
    split at hc
    · cases hc
    · cases hc; rfl
  | loop_test =>
    simp only []
    split
    · exact ⟨by simp, fun code hc => by cases hc; rfl⟩
    · exact ⟨by simp, fun code hc => by cases hc⟩
  | sleeping => exact ⟨by simp, fun code hc => by cases hc⟩
  | woke =>
    simp only []
    split
    · exact ⟨by simp, fun code hc => by cases hc; rfl⟩
    · exact ⟨by simp, fun code hc => by cases hc⟩
  | collecting =>
    simp only []
    cases collect_connections ps inp.ss with
    | none => exact ⟨by simp, fun code hc => by cases hc⟩
    | some conns => exact ⟨by simp, fun code hc => by cases hc⟩
  | rendering conns => exact ⟨by simp, fun code hc => by cases hc⟩
  | finished code =>
    simp only []
    exact ⟨h1, h2⟩

theorem main_run_past_start (a : Args) (ps : Int → Option (List Char))
    (inputs : List StepInput) (s : MainState) (h : past_start s) :
    past_start (main_run a ps inputs s) := by
  induction inputs generalizing s with
  | nil => exact h
  | cons inp rest ih => exact ih _ (main_step_past_start a ps inp s h)

theorem main_step_sigint (a : Args) (ps : Int → Option (List Char)) (inp : StepInput)
    (s : MainState) (hsig : inp.sigint = true) :
    (main_step a ps inp s).flag = true ∨ ∃ code, s.phase = Phase.finished code := by
  unfold main_step
  cases hp : s.phase <;> simp only [hsig, Bool.or_true]
  · left; cases collect_connections ps inp.ss <;> rfl
  · left; trivial
  · left; split <;> rfl
  · left; trivial
  · left; split <;> rfl
  · left; cases collect_connections ps inp.ss <;> rfl
  · left; trivial
  · right; exact ⟨_, rfl⟩

theorem main_step_dist (a : Args) (ps : Int → Option (List Char)) (inp : StepInput)
    (s : MainState) (hw : a.watch ≠ 0) (hf : s.flag = true) :
    shutdown_dist (main_step a ps inp s).phase ≤ shutdown_dist s.phase - 1 := by
  unfold main_step
  cases hp : s.phase with
  | initial =>
    simp only []
    cases collect_connections ps inp.ss <;> simp [shutdown_dist]
  | first_render conns => simp [shutdown_dist, hw]
  | loop_test => simp [shutdown_dist, hf]
  | sleeping => simp [shutdown_dist]
  | woke => simp [shutdown_dist, hf]
  | collecting =>
    simp only []
    cases collect_connections ps inp.ss <;> simp [shutdown_dist]
  | rendering conns => simp [shutdown_dist]
  | finished code => simp [shutdown_dist, hp]

theorem main_run_dist (a : Args) (ps : Int → Option (List Char)) (hw : a.watch ≠ 0)
    (inputs : List StepInput) (s : MainState) (hf : s.flag = true) :
    shutdown_dist (main_run a ps inputs s).phase ≤ shutdown_dist s.phase - inputs.length := by
  induction inputs generalizing s with
  | nil => simp [main_run]
  | cons inp rest ih =>
    have h1 := main_step_dist a ps inp s hw hf
    have h2 := ih (main_step a ps inp s) (main_step_flag a ps inp s hf)
    simp only [main_run, List.length_cons]
    omega

theorem shutdown_dist_zero (p : Phase) (h : shutdown_dist p = 0) :
    ∃ code, p = Phase.finished code := by
  cases p <;> simp [shutdown_dist] at h
  exact ⟨_, rfl⟩

theorem main_run_append (a : Args) (ps : Int → Option (List Char))
    (l1 l2 : List StepInput) (s : MainState) :
    main_run a ps (l1 ++ l2) s = main_run a ps l2 (main_run a ps l1 s) := by
  induction l1 generalizing s with
  | nil => rfl
  | cons inp rest ih =>
    rw [List.cons_append, main_run, main_run]
    exact ih _

/-- C18: `main` returns 1 exactly when the first `collect_connections` of the
run fails, in single-shot and in watch mode alike, and 0 whenever it returns
otherwise, whatever later collections do.  It does return: at once when the
first collection fails, after the rendering in single-shot mode, and within
four steps of a SIGINT in watch mode. -/
theorem main_exit_code (argv : List (List Char)) (ps : Int → Option (List Char)) :
    (∀ inputs code, (main argv ps inputs).phase = Phase.finished code →
      ∃ i rest, inputs = i :: rest ∧
        (code = 1 ↔ collect_connections ps i.ss = none) ∧ (code = 0 ∨ code = 1)) ∧
    (∀ i rest, collect_connections ps i.ss = none →
      (main argv ps (i :: rest)).phase = Phase.finished 1) ∧
    (∀ i i2 rest, collect_connections ps i.ss ≠ none → (parse_args argv).watch = 0 →
      (main argv ps (i :: i2 :: rest)).phase = Phase.finished 0) ∧
    (∀ pre sig post, (parse_args argv).watch ≠ 0 → sig.sigint = true → 4 ≤ post.length →
      ∃ code, (main argv ps (pre ++ sig :: post)).phase = Phase.finished code) := by
  have hfirst : ∀ i : StepInput, collect_connections ps i.ss = none →
      (main_step (parse_args argv) ps i
        { flag := false, phase := Phase.initial, out := [], err := [] }).phase =
        Phase.finished 1 := by
    intro i hi
    simp only [main_step, hi]
  have hok : ∀ i : StepInput, collect_connections ps i.ss ≠ none →
      ∃ conns, (main_step (parse_args argv) ps i
        { flag := false, phase := Phase.initial, out := [], err := [] }).phase =
        Phase.first_render conns := by
    intro i hi
    cases hc : collect_connections ps i.ss with
    | none => exact absurd hc hi
    | some conns => exact ⟨conns, by simp only [main_step, hc]⟩
  have hB : ∀ i rest, collect_connections ps i.ss = none →
      (main argv ps (i :: rest)).phase = Phase.finished 1 := by
    intro i rest hi
    simp only [main, main_run]
    rw [main_run_finished _ _ _ _ 1 (hfirst i hi)]
    exact hfirst i hi
  refine ⟨?_, hB, ?_, ?_⟩
  · intro inputs code h
    cases inputs with
    | nil => simp [main, main_run] at h
    | cons i rest =>
      refine ⟨i, rest, rfl, ?_⟩
      by_cases hi : collect_connections ps i.ss = none
      · rw [hB i rest hi] at h
        cases h
        exact ⟨by simp [hi], Or.inr rfl⟩
      · obtain ⟨conns, hc⟩ := hok i hi
        have hp : past_start (main_step (parse_args argv) ps i
            { flag := false, phase := Phase.initial, out := [], err := [] }) := by
          refine ⟨by rw [hc]; simp, ?_⟩
          intro c hcc
          rw [hc] at hcc
          cases hcc
        have h0 := (main_run_past_start (parse_args argv) ps rest _ hp).2 code h
        subst h0
        exact ⟨by simp [hi], Or.inl rfl⟩
  · intro i i2 rest hi hw
    obtain ⟨conns, hc⟩ := hok i hi
    have h2 : (main_step (parse_args argv) ps i2
        (main_step (parse_args argv) ps i
          { flag := false, phase := Phase.initial, out := [], err := [] })).phase =
        Phase.finished 0 := by
      rw [main_step, hc]
      simp [hw]
    simp only [main, main_run]
    rw [main_run_finished _ _ _ _ 0 h2]
    exact h2
  · intro pre sig post hw hsig hlen
    simp only [main]
    rw [main_run_append, main_run]
    rcases main_step_sigint (parse_args argv) ps sig
        (main_run (parse_args argv) ps pre
          { flag := false, phase := Phase.initial, out := [], err := [] }) hsig with hf | ⟨c, hc⟩
    · have hd := main_run_dist (parse_args argv) ps hw post _ hf
      have hle : ∀ p : Phase, shutdown_dist p ≤ 4 := by
        intro p; cases p <;> simp [shutdown_dist]
      have := hle (main_step (parse_args argv) ps sig
        (main_run (parse_args argv) ps pre
          { flag := false, phase := Phase.initial, out := [], err := [] })).phase
      exact shutdown_dist_zero _ (by omega)
    · rw [main_step_finished _ _ _ _ c hc, main_run_finished _ _ _ _ c hc]
      exact ⟨c, hc⟩

/-- C18, at a watch-mode run whose first collection succeeds, whose second
fails and which is interrupted in the following sleep: it returns 0. -/
theorem main_exit_code_witness :
    ∃ i rest, watch_inputs = i :: rest ∧
      ((0 : Int) = 1 ↔ collect_connections ps_sshd i.ss = none) ∧
      ((0 : Int) = 0 ∨ (0 : Int) = 1) :=
  (main_exit_code ["netmon".toList, "--watch".toList] ps_sshd).1 watch_inputs 0 (by decide)

/-- C20 fails on the code: an iteration of the watch loop whose collection
fails has already called `clear_screen`, so it writes the clear sequence
after the previous display. -/
theorem watch_failed_collection_clears :
    (main_step (parse_args ["netmon".toList, "--watch".toList]) ps_sshd step_fail
      state_collecting).out = "previous display\n\x1B[2J\x1B[0;0H".toList := by
  decide

/-- C20 as amended: in watch mode an iteration after the first whose
`collect_connections` fails writes the clear-screen sequence and nothing else
to the output (the display is cleared, nothing is rendered) and the message
of `collect_connections` to the error stream; the loop does not end but goes
back to its test and, when no SIGINT has arrived, on to the next sleep
without writing anything more. -/
theorem watch_failed_collection (a : Args) (ps : Int → Option (List Char)) (s : MainState)
    (inp inp2 : StepInput) (hp : s.phase = Phase.collecting)
    (hfail : collect_connections ps inp.ss = none) :
    (main_step a ps inp s).out = s.out ++ clear_screen ∧
    (main_step a ps inp s).err = s.err ++ "Failed to run \x27ss\x27\n".toList ∧
    (main_step a ps inp s).phase = Phase.loop_test ∧
    ((main_step a ps inp s).flag = false →
      (main_step a ps inp2 (main_step a ps inp s)).phase = Phase.sleeping ∧
      (main_step a ps inp2 (main_step a ps inp s)).out = s.out ++ clear_screen) := by
  have h1 : (main_step a ps inp s).phase = Phase.loop_test := by
    simp only [main_step, hp, hfail]
  have h2 : (main_step a ps inp s).out = s.out ++ clear_screen := by
    simp only [main_step, hp, hfail]
  refine ⟨h2, by simp only [main_step, hp, hfail], h1, ?_⟩
  intro hf
  constructor
  · rw [main_step, h1]
    simp [hf]
  · rw [main_step, h1]
    simp [hf, h2]

/-- C20 as amended, at a state of the watch loop with a display written. -/
theorem watch_failed_collection_witness :
    (main_step (parse_args ["netmon".toList, "--watch".toList]) ps_sshd step_fail
      state_collecting).phase = Phase.loop_test :=
  (watch_failed_collection (parse_args ["netmon".toList, "--watch".toList]) ps_sshd
    state_collecting step_fail step_ok rfl rfl).2.2.1

/-! ## Enrichment (`net_monitor`) -/

theorem get_process_details_congr (ps ps2 : Int → Option (List Char)) (q : Int)
    (h : ps2 q = ps q) : get_process_details ps2 q = get_process_details ps q := by
  simp only [get_process_details, h]

theorem netconn_of_line_rel (ps ps2 : Int → Option (List Char)) (p : Int)
    (hagree : ∀ q, q ≠ p → ps2 q = ps q) (line : List Char) :
    (netconn_of_line ps line = none ∧ netconn_of_line ps2 line = none) ∨
    ∃ x y, netconn_of_line ps line = some x ∧ netconn_of_line ps2 line = some y ∧
      same_but_details p x y := by
  by_cases h6 : (line_parts line).length < 6
  · left
    simp [netconn_of_line, h6]
  · right
    simp only [netconn_of_line, h6, if_false]
    by_cases h7 : 6 < (line_parts line).length
    · simp only [h7, if_true]
      cases hs : strstr (users_loop ((line_parts line).drop 6) []) "pid=".toList with
      | none => exact ⟨_, _, rfl, rfl, rfl, rfl, rfl, rfl, rfl, fun _ => rfl⟩
      | some found =>
        dsimp only
        by_cases hr : 0 < ((found.drop 4).takeWhile isdigit).length ∧
            ((found.drop 4).takeWhile isdigit).length < MAX_PID_STR
        · simp only [hr, and_self, if_true]
          by_cases hq : atoi ((found.drop 4).takeWhile isdigit) = p
          · cases get_process_details ps (atoi ((found.drop 4).takeWhile isdigit)) with
            | none =>
              cases get_process_details ps2 (atoi ((found.drop 4).takeWhile isdigit)) with
              | none => exact ⟨_, _, rfl, rfl, rfl, rfl, rfl, rfl, rfl, fun _ => rfl⟩
              | some d2 =>
                exact ⟨_, _, rfl, rfl, rfl, rfl, rfl, rfl, rfl,
                  fun hne => absurd (by simp [hq]) hne⟩
            | some d1 =>
              cases get_process_details ps2 (atoi ((found.drop 4).takeWhile isdigit)) with
              | none =>
                exact ⟨_, _, rfl, rfl, rfl, rfl, rfl, rfl, rfl,
                  fun hne => absurd (by simp [hq]) hne⟩
              | some d2 =>
                exact ⟨_, _, rfl, rfl, rfl, rfl, rfl, rfl, rfl,
                  fun hne => absurd (by simp [hq]) hne⟩
          · rw [get_process_details_congr ps ps2 _ (hagree _ hq)]
            cases get_process_details ps (atoi ((found.drop 4).takeWhile isdigit)) with
            | none => exact ⟨_, _, rfl, rfl, rfl, rfl, rfl, rfl, rfl, fun _ => rfl⟩
            | some d1 => exact ⟨_, _, rfl, rfl, rfl, rfl, rfl, rfl, rfl, fun _ => rfl⟩
        · simp only [hr, if_false]
          exact ⟨_, _, rfl, rfl, rfl, rfl, rfl, rfl, rfl, fun _ => rfl⟩
    · simp only [h7, if_false]
      exact ⟨_, _, rfl, rfl, rfl, rfl, rfl, rfl, rfl, fun _ => rfl⟩

theorem filterMap_rel {α β : Type} (R : β → β → Prop) (f g : α → Option β)
    (h : ∀ a, (f a = none ∧ g a = none) ∨ ∃ x y, f a = some x ∧ g a = some y ∧ R x y)
    (ls : List α) : List.Forall₂ R (ls.filterMap f) (ls.filterMap g) := by
  induction ls with
  | nil => simp
  | cons a ls ih =>
    rcases h a with ⟨h1, h2⟩ | ⟨x, y, h1, h2, hr⟩
    · simpa [List.filterMap, h1, h2] using ih
    · simp only [List.filterMap, h1, h2]
      exact List.Forall₂.cons hr ih

theorem forall2_take {β : Type} (R : β → β → Prop) (n : Nat) :
    ∀ (l1 l2 : List β), List.Forall₂ R l1 l2 → List.Forall₂ R (l1.take n) (l2.take n) := by
  induction n with
  | zero => intro l1 l2 _; simp
  | succ n ih =>
    intro l1 l2 h
    cases h with
    | nil => simp
    | cons hr ht => simpa using List.Forall₂.cons hr (ih _ _ ht)

/-- C12 fails on the code: for a line that carries pid 77 and a `ps` that
gives nothing, the record is kept with process and cmd `???`, but cpu and
mem stay at `-`. -/
theorem netconn_failed_enrichment :
    (netconn_of_line (fun _ => none)
      "tcp ESTAB 0 0 1.1.1.1:1 2.2.2.2:2 users:((x,pid=77,fd=3))".toList).map
        (fun c => (c.pid, c.process, c.cmd, c.cpu, c.mem)) =
      some (some 77, "???".toList, "???".toList, "-".toList, "-".toList) := by
  decide

/-- C12 as amended: when `get_process_details` fails for the pid of a line,
the record is still built, with process and cmd `???` and with cpu and mem
left at `-`; and whatever `ps` does for that pid, `collect_connections`
returns as many records, each with the same proto, state, local, remote and
pid, and the records of other pids are the same. -/
theorem failed_enrichment (ps ps2 : Int → Option (List Char)) (line : List Char) (c : NetConn)
    (p : Int) (h : netconn_of_line ps line = some c) (hp : c.pid = some p)
    (hfail : get_process_details ps p = none) (hagree : ∀ q, q ≠ p → ps2 q = ps q) :
    c.process = "???".toList ∧ c.cmd = "???".toList ∧ c.cpu = "-".toList ∧
    c.mem = "-".toList ∧
    (∀ ss, (collect_connections ps ss = none ∧ collect_connections ps2 ss = none) ∨
      ∃ conns conns2, collect_connections ps ss = some conns ∧
        collect_connections ps2 ss = some conns2 ∧ conns.length = conns2.length ∧
        List.Forall₂ (same_but_details p) conns conns2) := by
  have hfields : c.process = "???".toList ∧ c.cmd = "???".toList ∧ c.cpu = "-".toList ∧
      c.mem = "-".toList := by
    by_cases h6 : (line_parts line).length < 6
    · simp [netconn_of_line, h6] at h
    · simp only [netconn_of_line, h6, if_false] at h
      by_cases h7 : 6 < (line_parts line).length
      · simp only [h7, if_true] at h
        cases hs : strstr (users_loop ((line_parts line).drop 6) []) "pid=".toList with
        | none =>
          rw [hs] at h
          cases h
          simp at hp
        | some found =>
          rw [hs] at h
          dsimp only at h
          by_cases hr : 0 < ((found.drop 4).takeWhile isdigit).length ∧
              ((found.drop 4).takeWhile isdigit).length < MAX_PID_STR
          · simp only [hr, and_self, if_true] at h
            cases hg : get_process_details ps (atoi ((found.drop 4).takeWhile isdigit)) with
            | none =>
              rw [hg] at h
              cases h
              exact ⟨rfl, rfl, rfl, rfl⟩
            | some d =>
              rw [hg] at h
              cases h
              simp only [Option.some.injEq] at hp
              rw [hp, hfail] at hg
              cases hg
          · simp only [hr, if_false] at h
            cases h
            simp at hp
      · simp only [h7, if_false] at h
        cases h
        simp at hp
  refine ⟨hfields.1, hfields.2.1, hfields.2.2.1, hfields.2.2.2, ?_⟩
  intro ss
  cases ss with
  | none => left; simp [collect_connections]
  | some text =>
    right
    have hrel := forall2_take (same_but_details p) MAX_CONNECTIONS _ _
      (filterMap_rel (same_but_details p) (netconn_of_line ps) (netconn_of_line ps2)
        (netconn_of_line_rel ps ps2 p hagree) ((read_lines MAX_LINE text).drop 1))
    exact ⟨_, _, collect_connections_some ps text, collect_connections_some ps2 text,
      hrel.length_eq, hrel⟩

/-- C12 as amended, at a line that carries pid 77 and a `ps` that gives
nothing for it. -/
theorem failed_enrichment_witness :
    conn_pid_77.process = "???".toList ∧ conn_pid_77.cmd = "???".toList ∧
    conn_pid_77.cpu = "-".toList ∧ conn_pid_77.mem = "-".toList :=
  have h := failed_enrichment (fun _ => none) ps_only_77
    "tcp ESTAB 0 0 1.1.1.1:1 2.2.2.2:2 users:((x,pid=77,fd=3))".toList conn_pid_77 77
    (by decide) rfl (by decide) (by intro q hq; simp [ps_only_77, hq])
  ⟨h.1, h.2.1, h.2.2.1, h.2.2.2.1⟩

/-! ### The line of `ps` -/

theorem strtok_all_first (d : Char → Bool) (c : Char) (rest : List Char) (hc : d c = true) :
    ∀ name : List Char, name ≠ [] → (∀ x ∈ name, d x = false) →
      strtok_all d (name ++ c :: rest) = name :: strtok_all d rest
  | [], h, _ => absurd rfl h
  | [x], _, hx => by
    have h1 : d x = false := hx x (by simp)
    rw [List.singleton_append, strtok_all, if_neg (by simp [h1]), if_pos hc,
      strtok_all_cons_delim d c rest hc]
  | x :: y :: n, _, hx => by
    have h1 : d x = false := hx x (by simp)
    have h2 : d y = false := hx y (by simp)
    have ih := strtok_all_first d c rest hc (y :: n) (by simp)
      (fun z hz => hx z (by simp [List.mem_cons] at hz ⊢; tauto))
    simp only [List.cons_append] at ih ⊢
    rw [strtok_all, if_neg (by simp [h1]), if_neg (by simp [h2]), ih]

theorem getD_at_length (pre : List Char) (x : Char) (post : List Char) (d : Char) :
    (pre ++ x :: post).getD pre.length d = x := by
  induction pre with
  | nil => simp
  | cons a pre ih => simpa using ih

theorem skip_back_over (p : Char → Bool) (lo : Nat) (pre : List Char) (x : Char)
    (run : List Char) (hx : p x = false) (hlo : lo ≤ pre.length) :
    ∀ post : List Char, (∀ c ∈ run, p c = true) →
      skip_back (pre ++ x :: (run ++ post)) p lo (pre.length + run.length) = pre.length := by
  induction run using List.reverseRecOn with
  | nil =>
    intro post _
    simp only [List.nil_append, List.length_nil, Nat.add_zero]
    cases hn : pre.length with
    | zero => rfl
    | succ n =>
      have hg := getD_at_length pre x post NUL
      rw [hn] at hg
      simp only [skip_back, hg, hx, Bool.false_eq_true, and_false, if_false]
  | append_singleton run y ih =>
    intro post hrun
    have hy : p y = true := hrun y (by simp)
    have hg : (pre ++ x :: (run ++ [y] ++ post)).getD (pre.length + run.length + 1) NUL = y := by
      have := getD_at_length (pre ++ x :: run) y post NUL
      simpa [List.append_assoc, Nat.add_assoc] using this
    have hi := ih (y :: post) (fun c hc => hrun c (by simp [hc]))
    rw [List.length_append, List.length_singleton, ← Nat.add_assoc, skip_back,
      if_pos ⟨by omega, by rw [hg]; exact hy⟩]
    simpa [List.append_assoc] using hi

theorem strrchr_none (s : List Char) (ch : Char) (h : ∀ c ∈ s, c ≠ ch) :
    strrchr s ch = none := by
  induction s with
  | nil => rfl
  | cons c s ih =>
    have hc : c ≠ ch := h c (by simp)
    simp only [strrchr, ih (fun x hx => h x (by simp [hx])), hc, if_false]

theorem strrchr_last (ch : Char) (post : List Char) (hpost : ∀ c ∈ post, c ≠ ch) :
    ∀ pre : List Char, strrchr (pre ++ ch :: post) ch = some pre.length
  | [] => by
    simp only [List.nil_append, strrchr, strrchr_none post ch hpost, if_true, List.length_nil]
  | a :: pre => by
    have ih := strrchr_last ch post hpost pre
    rw [List.cons_append, strrchr, ih]
    rfl

theorem takeWhile_append_stop (p : Char → Bool) (l : List Char) (x : Char) (r : List Char)
    (hl : ∀ c ∈ l, p c = true) (hx : p x = false) : (l ++ x :: r).takeWhile p = l := by
  induction l with
  | nil => simp [List.takeWhile, hx]
  | cons a l ih =>
    have ha : p a = true := hl a (by simp)
    simp [List.takeWhile, ha, ih (fun c hc => hl c (by simp [hc]))]

theorem takeWhile_all (p : Char → Bool) (l : List Char) (hl : ∀ c ∈ l, p c = true) :
    l.takeWhile p = l := List.takeWhile_eq_self_iff.2 hl

theorem all_blank_split (sp : List Char) (hne : sp ≠ []) (h : ∀ c ∈ sp, c = ' ') :
    ∃ t, sp = ' ' :: t ∧ sp = t ++ [' '] ∧ ∀ c ∈ t, c = ' ' := by
  have hrep : sp = List.replicate sp.length ' ' := List.eq_replicate_of_mem h
  obtain ⟨n, hn⟩ : ∃ n, sp.length = n + 1 := by
    cases sp with
    | nil => exact absurd rfl hne
    | cons a t => exact ⟨t.length, rfl⟩
  refine ⟨List.replicate n ' ', ?_, ?_, ?_⟩
  · rw [hrep, hn]; rfl
  · rw [hrep, hn, List.replicate_succ']
  · intro c hc
    exact (List.mem_replicate.1 hc).2

theorem parse_process_line_tokens (name sp1 mid cpu sp3 mem : List Char)
    (hname : name ≠ [] ∧ (∀ c ∈ name, c ≠ ' ' ∧ c ≠ '\t') ∧ name.length ≤ 63)
    (hsp1 : sp1 ≠ [] ∧ ∀ c ∈ sp1, c = ' ')
    (hmid : (∃ c t, mid = c :: t ∧ c ≠ ' ' ∧ c ≠ '\t') ∧ mid.length ≤ 255)
    (hcpu : cpu ≠ [] ∧ (∀ c ∈ cpu, c ≠ ' ') ∧ cpu.length ≤ 7)
    (hsp3 : sp3 ≠ [] ∧ ∀ c ∈ sp3, c = ' ')
    (hmem : mem ≠ [] ∧ (∀ c ∈ mem, c ≠ ' ') ∧ mem.length ≤ 7)
    (hchars : ∀ c ∈ name ++ sp1 ++ mid ++ ' ' :: cpu ++ sp3 ++ mem, c ≠ NUL ∧ c ≠ '\n') :
    parse_process_line ((name ++ sp1 ++ mid ++ ' ' :: cpu ++ sp3 ++ mem) ++ ['\n']) =
      some (name, mid, cpu, mem) := by
  obtain ⟨hname_ne, hname_ch, hname_len⟩ := hname
  obtain ⟨sp1t, hsp1a, _, _⟩ := all_blank_split sp1 hsp1.1 hsp1.2
  obtain ⟨sp3i, hsp3a, hsp3b, hsp3i⟩ := all_blank_split sp3 hsp3.1 hsp3.2
  obtain ⟨⟨m0, mt, hm, hm0, hm0t⟩, hmid_len⟩ := hmid
  obtain ⟨hcpu_ne, hcpu_ch, hcpu_len⟩ := hcpu
  obtain ⟨hmem_ne, hmem_ch, hmem_len⟩ := hmem
  obtain ⟨cpui, cpul, hcpuil⟩ : ∃ i l, cpu = i ++ [l] :=
    ⟨cpu.dropLast, cpu.getLast hcpu_ne, (List.dropLast_append_getLast hcpu_ne).symm⟩
  obtain ⟨cp0, cpt, hcp0⟩ := List.exists_cons_of_ne_nil hcpu_ne
  obtain ⟨me0, met, hme0⟩ := List.exists_cons_of_ne_nil hmem_ne
  generalize hL : name ++ sp1 ++ mid ++ ' ' :: cpu ++ sp3 ++ mem = L at hchars ⊢
  have hL2 : L = name ++ (sp1 ++ (mid ++ (' ' :: cpu ++ (sp3 ++ mem)))) := by
    rw [← hL]; simp [List.append_assoc]
  have hL1 : L = name ++ ' ' :: (sp1t ++ (mid ++ (' ' :: cpu ++ (sp3 ++ mem)))) := by
    rw [hL2]; conv_lhs => rw [hsp1a]
    simp
  have hL3 : L = (name ++ sp1) ++ (m0 :: (mt ++ (' ' :: cpu ++ (sp3 ++ mem)))) := by
    rw [hL2, hm]; simp [List.append_assoc]
  have hL3b : L = (name ++ sp1) ++ (mid ++ ' ' :: cpu ++ sp3i) ++ ' ' :: mem := by
    rw [hL2]; conv_lhs => rw [hsp3b]
    simp [List.append_assoc]
  have hL4 : L = (name ++ sp1 ++ mid ++ ' ' :: cpui) ++ cpul :: (sp3 ++ mem) := by
    rw [hL2, hcpuil]; simp [List.append_assoc]
  have hL5 : L = (name ++ sp1 ++ mid) ++ ' ' :: (cpu ++ (sp3 ++ mem)) := by
    rw [hL2]; simp [List.append_assoc]
  have hL5b : L = (name ++ sp1 ++ mid ++ [' ']) ++ (cp0 :: (cpt ++ (sp3 ++ mem))) := by
    rw [hL2, hcp0]; simp [List.append_assoc]
  have hL6 : L = (name ++ sp1 ++ mid ++ ' ' :: cpu ++ sp3) ++ mem := by
    rw [hL2]; simp [List.append_assoc]
  have hcstr : cstr (L ++ ['\n']) = L ++ ['\n'] := by
    apply takeWhile_all
    intro c hc
    rcases List.mem_append.1 hc with h | h
    · simpa using (hchars c h).1
    · simp only [List.mem_singleton] at h
      rw [h]; decide
  have hline : (L ++ ['\n']).takeWhile (fun c => c ≠ '\n') = L :=
    takeWhile_append_stop _ L '\n' [] (fun c hc => by simpa using (hchars c hc).2) (by decide)
  have hlen0 : ¬ L.length = 0 := by
    rw [hL2]
    cases name with
    | nil => exact absurd rfl hname_ne
    | cons a t => simp
  have f1 : strtok_all (fun c => c = ' ' ∨ c = '\t') L =
      name :: strtok_all (fun c => c = ' ' ∨ c = '\t')
        (sp1t ++ (mid ++ (' ' :: cpu ++ (sp3 ++ mem)))) := by
    rw [hL1]
    exact strtok_all_first _ ' ' _ (by decide) name hname_ne
      (fun x hx => by have := hname_ch x hx; simp [this.1, this.2])
  have f2 : skip_fwd L (fun c => c = ' ' ∨ c = '\t') name.length =
      name.length + sp1.length := by
    unfold skip_fwd
    have hd : L.drop name.length = sp1 ++ m0 :: (mt ++ (' ' :: cpu ++ (sp3 ++ mem))) := by
      rw [hL3, List.append_assoc, List.drop_left]
    rw [hd, takeWhile_append_stop _ sp1 m0 _ (fun c hc => by simp [hsp1.2 c hc])
      (by simp [hm0, hm0t])]
  have f3 : strrchr (L.drop (name.length + sp1.length)) ' ' =
      some (mid.length + cpu.length + sp3.length) := by
    have hd : L.drop (name.length + sp1.length) = (mid ++ ' ' :: cpu ++ sp3i) ++ ' ' :: mem := by
      rw [hL3b, List.append_assoc, ← List.length_append, List.drop_left]
    rw [hd, strrchr_last ' ' mem hmem_ch]
    congr 1
    have : sp3.length = sp3i.length + 1 := by rw [hsp3b]; simp
    simp only [List.length_append, List.length_cons]
    omega
  have f4 : skip_back L (fun c => c = ' ') (name.length + sp1.length)
      (name.length + sp1.length + (mid.length + cpu.length + sp3.length)) =
      name.length + sp1.length + mid.length + cpu.length := by
    have hcl : cpul ≠ ' ' := hcpu_ch cpul (by rw [hcpuil]; simp)
    have h := skip_back_over (fun c => c = ' ') (name.length + sp1.length)
      (name ++ sp1 ++ mid ++ ' ' :: cpui) cpul sp3 (by simp [hcl])
      (by simp only [List.length_append, List.length_cons]; omega) mem
      (fun c hc => by simp [hsp3.2 c hc])
    rw [← hL4] at h
    have hlen : (name ++ sp1 ++ mid ++ ' ' :: cpui).length =
        name.length + sp1.length + mid.length + cpu.length := by
      rw [hcpuil]; simp only [List.length_append, List.length_cons, List.length_nil]
    rw [hlen] at h
    rw [← h]
    congr 1
    omega
  have f5 : skip_back L (fun c => c ≠ ' ') (name.length + sp1.length)
      (name.length + sp1.length + mid.length + cpu.length) =
      name.length + sp1.length + mid.length := by
    have h := skip_back_over (fun c => c ≠ ' ') (name.length + sp1.length)
      (name ++ sp1 ++ mid) ' ' cpu (by decide)
      (by simp only [List.length_append]; omega) (sp3 ++ mem)
      (fun c hc => by simpa using hcpu_ch c hc)
    rw [← hL5] at h
    simpa only [List.length_append] using h
  have f6 : ¬ (name.length + sp1.length + mid.length ≤ name.length + sp1.length) := by
    rw [hm]; simp
  have f7 : skip_fwd L (fun c => c = ' ') (name.length + sp1.length + mid.length + 1) =
      name.length + sp1.length + mid.length + 1 := by
    unfold skip_fwd
    have hd : L.drop (name.length + sp1.length + mid.length + 1) =
        cp0 :: (cpt ++ (sp3 ++ mem)) := by
      have hl : (name ++ sp1 ++ mid ++ [' ']).length =
          name.length + sp1.length + mid.length + 1 := by
        simp only [List.length_append, List.length_singleton]
      rw [hL5b, ← hl, List.drop_left]
    have hc0 : cp0 ≠ ' ' := hcpu_ch cp0 (by rw [hcp0]; simp)
    rw [hd]
    simp [List.takeWhile, hc0]
  have hlast : (name ++ sp1 ++ mid ++ ' ' :: cpu ++ sp3).length =
      name.length + sp1.length + (mid.length + cpu.length + sp3.length) + 1 := by
    simp only [List.length_append, List.length_cons]; omega
  have hdm : L.drop (name.length + sp1.length + (mid.length + cpu.length + sp3.length) + 1) =
      mem := by
    rw [hL6, ← hlast, List.drop_left]
  have f8 : skip_fwd L (fun c => c = ' ')
      (name.length + sp1.length + (mid.length + cpu.length + sp3.length) + 1) =
      name.length + sp1.length + (mid.length + cpu.length + sp3.length) + 1 := by
    unfold skip_fwd
    have hc0 : me0 ≠ ' ' := hmem_ch me0 (by rw [hme0]; simp)
    rw [hdm, hme0]
    simp [List.takeWhile, hc0]
  have f9 : ((L.drop (name.length + sp1.length + mid.length + 1)).take (SIZEOF_PTR - 1)).takeWhile
      (fun c => c ≠ ' ') = cpu := by
    have hd : L.drop (name.length + sp1.length + mid.length + 1) = cpu ++ (sp3 ++ mem) := by
      have hl : (name ++ sp1 ++ mid ++ [' ']).length =
          name.length + sp1.length + mid.length + 1 := by
        simp only [List.length_append, List.length_singleton]
      rw [hL5b, ← hl, List.drop_left, hcp0]; simp
    have h7 : SIZEOF_PTR - 1 = cpu.length + (7 - cpu.length) := by
      simp only [SIZEOF_PTR]; omega
    rw [hd, h7, List.take_append]
    cases ht : (sp3 ++ mem).take (7 - cpu.length) with
    | nil =>
      rw [List.append_nil]
      exact takeWhile_all _ cpu (fun c hc => by simpa using hcpu_ch c hc)
    | cons a t =>
      have ha : a = ' ' := by
        rw [hsp3a] at ht
        cases hk : 7 - cpu.length with
        | zero => rw [hk] at ht; simp at ht
        | succ k =>
          rw [hk] at ht
          simp only [List.cons_append, List.take_succ_cons, List.cons.injEq] at ht
          exact ht.1.symm
      rw [ha]
      exact takeWhile_append_stop _ cpu ' ' t (fun c hc => by simpa using hcpu_ch c hc)
        (by decide)
  have f10 : (L.drop (name.length + sp1.length + (mid.length + cpu.length + sp3.length) + 1)).take
      (SIZEOF_PTR - 1) = mem := by
    rw [hdm]
    exact List.take_of_length_le (by simp only [SIZEOF_PTR]; omega)
  have f11 : ((L.take (name.length + sp1.length + mid.length)).drop
      (name.length + sp1.length)).take (MAX_CMDLINE - 1) = mid := by
    have ht : L.take (name.length + sp1.length + mid.length) = (name ++ sp1) ++ mid := by
      have hl : (name ++ sp1 ++ mid).length = name.length + sp1.length + mid.length := by
        simp only [List.length_append]
      rw [hL5, ← hl, List.take_left]
    rw [ht, ← List.length_append, List.drop_left]
    exact List.take_of_length_le (by simp only [MAX_CMDLINE]; omega)
  have f12 : name.take (MAX_PROC_NAME - 1) = name :=
    List.take_of_length_le (by simp only [MAX_PROC_NAME]; omega)
  simp only [parse_process_line, hcstr, hline, hlen0, if_false, f1, f2, f3, f4, f5, f6, f7,
    f8, f9, f10, f11, f12]

/-- C11 fails on the code: for a line of four tokens whose first token has
64 characters the name returned is cut to 63 characters. -/
theorem get_process_details_long_name :
    (get_process_details ps_long_name 1).map (fun d => (d.1.length, d.2.1, d.2.2.1, d.2.2.2)) =
      some (63, "/bin/a".toList, "0.0".toList, "0.1".toList) := by
  decide

/-- C11 as amended: for a line of `ps` of at most 1022 characters, with no
leading or trailing white space, made of a name of at most 63 characters
without blank or tab, blanks, a command text of at most 255 characters that
starts with neither blank nor tab, a blank, a cpu token and a mem token of
at most 7 characters that are separated by blanks, `get_process_details`
succeeds with that name, cpu and mem, and with cmd the text from the first
character after the name's blanks up to the blank before the cpu token. -/
theorem get_process_details_tokens (ps : Int → Option (List Char)) (pid : Int)
    (name sp1 mid cpu sp3 mem more : List Char)
    (hname : name ≠ [] ∧ (∀ c ∈ name, c ≠ ' ' ∧ c ≠ '\t') ∧ name.length ≤ 63)
    (hsp1 : sp1 ≠ [] ∧ ∀ c ∈ sp1, c = ' ')
    (hmid : (∃ c t, mid = c :: t ∧ c ≠ ' ' ∧ c ≠ '\t') ∧ mid.length ≤ 255)
    (hcpu : cpu ≠ [] ∧ (∀ c ∈ cpu, c ≠ ' ') ∧ cpu.length ≤ 7)
    (hsp3 : sp3 ≠ [] ∧ ∀ c ∈ sp3, c = ' ')
    (hmem : mem ≠ [] ∧ (∀ c ∈ mem, c ≠ ' ') ∧ mem.length ≤ 7)
    (hchars : ∀ c ∈ name ++ sp1 ++ mid ++ ' ' :: cpu ++ sp3 ++ mem, c ≠ NUL ∧ c ≠ '\n')
    (hlen : (name ++ sp1 ++ mid ++ ' ' :: cpu ++ sp3 ++ mem).length ≤ 1022)
    (hps : ps pid = some ((name ++ sp1 ++ mid ++ ' ' :: cpu ++ sp3 ++ mem) ++ '\n' :: more)) :
    get_process_details ps pid = some (name, mid, cpu, mem) := by
  have hne : (name ++ sp1 ++ mid ++ ' ' :: cpu ++ sp3 ++ mem) ++ '\n' :: more ≠ [] := by simp
  have hf := fgets_take_line (MAX_LINE - 1) (name ++ sp1 ++ mid ++ ' ' :: cpu ++ sp3 ++ mem)
    more (fun h => (hchars _ h).2 rfl) (by simp only [MAX_LINE]; omega)
  simp only [get_process_details, hps, fgets, hne, if_false, hf]
  exact parse_process_line_tokens name sp1 mid cpu sp3 mem hname hsp1 hmid hcpu hsp3 hmem hchars

/-- C11 as amended, at the line `sshd sshd: root@pts/0 0.0 0.1`. -/
theorem get_process_details_tokens_witness :
    get_process_details ps_sshd 1234 =
      some ("sshd".toList, "sshd: root@pts/0".toList, "0.0".toList, "0.1".toList) :=
  get_process_details_tokens ps_sshd 1234 "sshd".toList " ".toList "sshd: root@pts/0".toList
    "0.0".toList " ".toList "0.1".toList [] (by decide) (by decide)
    ⟨⟨'s', "shd: root@pts/0".toList, rfl, by decide, by decide⟩, by decide⟩
    (by decide) (by decide) (by decide) (by decide) (by decide) (by decide)

open CLib

/-! ## The arithmetic of `int` -/

theorem wrapInt32_id (x : Int) (h1 : INT_MIN ≤ x) (h2 : x ≤ INT_MAX) : wrapInt32 x = x := by
  have e1 : INT_MIN = -2147483648 := rfl
  have e2 : INT_MAX = 2147483647 := rfl
  simp only [wrapInt32]
  norm_num
  omega

theorem wrapInt32_range (x : Int) : INT_MIN ≤ wrapInt32 x ∧ wrapInt32 x ≤ INT_MAX := by
  have e1 : INT_MIN = -2147483648 := rfl
  have e2 : INT_MAX = 2147483647 := rfl
  simp only [wrapInt32]
  norm_num
  omega

theorem add32_eq (a b : Int) (h1 : INT_MIN ≤ a + b) (h2 : a + b ≤ INT_MAX) :
    add32 a b = a + b := wrapInt32_id _ h1 h2

theorem sub32_eq (a b : Int) (h1 : INT_MIN ≤ a - b) (h2 : a - b ≤ INT_MAX) :
    sub32 a b = a - b := wrapInt32_id _ h1 h2

theorem mul32_eq (a b : Int) (h1 : INT_MIN ≤ a * b) (h2 : a * b ≤ INT_MAX) :
    mul32 a b = a * b := wrapInt32_id _ h1 h2

open CLib TcpUdpShowKeys

/-! ## The keys of the connection viewer -/

/-- C29 (refuted, defect of the code): with no connection, Page Down sets
the offset to `count - 1 = -1`, whatever the offset was: the clamp of the
Page Down branch has no lower bound, where the Down branch tests
`offset < count - 1` first.  With at least one connection, or for any other
key, an offset `>= 0` stays `>= 0`; with at least one connection an offset of
at most `count - 1` stays so.  The sums are within `int` for the screen
heights assumed. -/
theorem key_step_offset (ch row count offset : Int) (hrow : 3 ≤ row) (hcount : 0 ≤ count)
    (hmax : count ≤ INT_MAX) (hoff : 0 ≤ offset) (hsum : offset + (row - 3) ≤ INT_MAX) :
    (count = 0 → ch = KEY_NPAGE → (key_step ch row count offset).1 = -1) ∧
    (1 ≤ count ∨ ch ≠ KEY_NPAGE → 0 ≤ (key_step ch row count offset).1) ∧
    (1 ≤ count → offset ≤ count - 1 → (key_step ch row count offset).1 ≤ count - 1) := by
  have e1 : INT_MIN = -2147483648 := rfl
  have e2 : INT_MAX = 2147483647 := rfl
  have k1 : KEY_DOWN = 258 := rfl
  have k2 : KEY_UP = 259 := rfl
  have k3 : KEY_NPAGE = 338 := rfl
  have k4 : KEY_PPAGE = 339 := rfl
  have s1 : sub32 count 1 = count - 1 := sub32_eq _ _ (by omega) (by omega)
  have s2 : sub32 row 3 = row - 3 := sub32_eq _ _ (by omega) (by omega)
  have s3 : add32 offset (row - 3) = offset + (row - 3) := add32_eq _ _ (by omega) (by omega)
  have s4 : sub32 offset (row - 3) = offset - (row - 3) := sub32_eq _ _ (by omega) (by omega)
  have s5 : offset < count - 1 → add32 offset 1 = offset + 1 :=
    fun h => add32_eq _ _ (by omega) (by omega)
  have s6 : sub32 offset 1 = offset - 1 := sub32_eq _ _ (by omega) (by omega)
  unfold key_step
  rw [s1, s2, s3, s4, s6]
  refine ⟨?_, ?_, ?_⟩
  · intro hc hk
    rw [if_neg (by omega), if_neg (by omega), if_pos hk]
    dsimp only
    rw [if_pos (by omega)]
    omega
  · intro h
    split_ifs <;> dsimp only <;>
      omega
  · intro hc ho
    split_ifs <;> dsimp only <;>
      omega

/-- Page Down on the empty list from offset 0, on a screen of 24 rows,
gives the offset -1. -/
theorem key_step_offset_witness :
    (3 : Int) ≤ 24 ∧ key_step KEY_NPAGE 24 0 0 = (-1, false) ∧
    (key_step KEY_NPAGE 24 0 0).1 = -1 :=
  ⟨by decide, by decide,
    (key_step_offset KEY_NPAGE 24 0 0 (by decide) (by decide) (by decide) (by decide)
      (by decide)).1 rfl rfl⟩

open CLib CalculatorApp CalcSpec

/-! ## The calculator -/

/-- In the error state every button but the first leaves the state as it is. -/
theorem ProcessButtonPress_error {V : Type} (ops : DoubleOps V) (cs : Calculator V)
    (idx : Int) (herr : cs.error = true) (hidx : idx ≠ 0) :
    ProcessButtonPress ops cs idx = some cs := by
  simp [ProcessButtonPress, ProcessButtonPress_body, herr, hidx]

/-- Button 0 gives the initial state from every state. -/
theorem ProcessButtonPress_clear {V : Type} (ops : DoubleOps V) (cs : Calculator V) :
    ProcessButtonPress ops cs 0 = some (InitCalculator ops) := by
  have h : strcmp_eq "C".toList "C".toList = true := by decide
  have hl : buttonLabels.get? (0 : Int).toNat = some "C".toList := by decide
  unfold ProcessButtonPress ProcessButtonPress_body
  rw [hl]
  simp only [h]
  simp

/-- Button 19 changes no state: its label is none of the strings the
function compares with, and its first character is no digit. -/
theorem ProcessButtonPress_19 {V : Type} (ops : DoubleOps V) (cs : Calculator V) :
    ProcessButtonPress ops cs 19 = some cs := by
  have h1 : strcmp_eq "←".toList "C".toList = false := by decide
  have h2 : strcmp_eq "←".toList "⌫".toList = false := by decide
  have h3 : strcmp_eq "←".toList "±".toList = false := by decide
  have h4 : strcmp_eq "←".toList "%".toList = false := by decide
  have h5 : strcmp_eq "←".toList ".".toList = false := by decide
  have h6 : strcmp_eq "←".toList "=".toList = false := by decide
  have h7 : strcmp_eq "←".toList "+".toList = false := by decide
  have h8 : strcmp_eq "←".toList "-".toList = false := by decide
  have h9 : strcmp_eq "←".toList "*".toList = false := by decide
  have h10 : strcmp_eq "←".toList "/".toList = false := by decide
  have h11 : (decide ('0' ≤ ("←".toList).headD NUL) && decide (("←".toList).headD NUL ≤ '9'))
      = false := by decide
  have hl : buttonLabels.get? (19 : Int).toNat = some "←".toList := by decide
  unfold ProcessButtonPress ProcessButtonPress_body
  rw [hl]
  simp only [h1, h2, h3, h4, h5, h6, h7, h8, h9, h10, h11]
  simp

/-- C22 (refuted, defect of the code): the index the keyboard handler
computes for the digit `d` is 16 for 0 and `d + 4` otherwise; it is the
index of the button labelled `d` only for 0, 4, 5 and 6.  The key 7 presses
button 11, labelled `-`, where the button labelled 7 has index 4: from the
initial state the key 7 leaves the display at 0 and sets the pending
operation `-`, while a click on the button 7 makes the display read 7. -/
theorem digit_button_index_labels :
    (∀ d : Fin 10, digit_button_index d.val = (if d.val = 0 then 16 else (d.val : Int) + 4)) ∧
    (∀ d : Fin 10, digit_button_index d.val = (buttonLabels.indexOf (digit_label d.val) : Int) ↔
      d.val ∈ [0, 4, 5, 6]) ∧
    digit_button_index 7 = 11 ∧ buttonLabels.get? 11 = some "-".toList ∧
    buttonLabels.indexOf (digit_label 7) = 4 ∧
    digit_key_press int_ops (InitCalculator int_ops) (KEY_ZERO + 7) =
      some { InitCalculator int_ops with operation := '-' } ∧
    ProcessButtonPress int_ops (InitCalculator int_ops) 4 =
      some { InitCalculator int_ops with display := "7".toList, currentValue := 7,
                                         newInput := false } := by
  refine ⟨by decide, by decide, by decide, by decide, by decide, by decide, by decide⟩

/-- C24 (refuted, defect of the code): with a pending `/` and a current
value whose magnitude is below 1e-10, button 18 sets the error flag and
changes nothing else: the display keeps its text and does not read Error,
since the function returns before `UpdateDisplay`.  From the state reached,
every button but button 0 leaves the state as it is, and button 0 gives the
initial state. -/
theorem divide_by_zero_display {V : Type} (ops : DoubleOps V) (cs : Calculator V)
    (herr : cs.error = false) (hop : cs.operation = '/')
    (hsmall : ops.small cs.currentValue = true) :
    ProcessButtonPress ops cs 18 = some { cs with error := true } ∧
    (∀ idx : Int, idx ≠ 0 →
      ProcessButtonPress ops { cs with error := true } idx = some { cs with error := true }) ∧
    ProcessButtonPress ops { cs with error := true } 0 = some (InitCalculator ops) := by
  refine ⟨?_, fun idx hidx => ProcessButtonPress_error ops _ idx rfl hidx,
    ProcessButtonPress_clear ops _⟩
  have h1 : strcmp_eq "=".toList "C".toList = false := by decide
  have h2 : strcmp_eq "=".toList "⌫".toList = false := by decide
  have h3 : strcmp_eq "=".toList "±".toList = false := by decide
  have h4 : strcmp_eq "=".toList "%".toList = false := by decide
  have h5 : strcmp_eq "=".toList ".".toList = false := by decide
  have h6 : strcmp_eq "=".toList "=".toList = true := by decide
  have hl : buttonLabels.get? (18 : Int).toNat = some "=".toList := by decide
  have hn : ('/' != NUL) = true := by decide
  unfold ProcessButtonPress ProcessButtonPress_body
  rw [hl]
  simp only [h1, h2, h3, h4, h5, h6, herr, hop, hsmall, hn]
  simp

/-- The state after the presses 5, /, 0 has a pending `/` and the value 0;
button 18 then sets the error flag and the display still reads 0. -/
theorem divide_by_zero_display_witness :
    five_over_zero.error = false ∧ five_over_zero.operation = '/' ∧
    int_ops.small five_over_zero.currentValue = true ∧
    five_over_zero.display = "0".toList ∧
    (ProcessButtonPress int_ops five_over_zero 18 =
        some { five_over_zero with error := true } ∧
      (∀ idx : Int, idx ≠ 0 →
        ProcessButtonPress int_ops { five_over_zero with error := true } idx =
          some { five_over_zero with error := true }) ∧
      ProcessButtonPress int_ops { five_over_zero with error := true } 0 =
        some (InitCalculator int_ops)) :=
  ⟨rfl, rfl, by decide, rfl,
    divide_by_zero_display int_ops five_over_zero rfl rfl (by decide)⟩

/-- C25 (refuted, defect of the code): button 19, the one the Backspace
and Delete keys are routed to, leaves every state as it is, so the display
keeps its last character: the label of button 19 is the arrow U+2190, and
the backspace branch of `ProcessButtonPress` compares the label with U+232B.
A display reading 12 still reads 12 afterwards, and a display reading 7
still reads 7, not 0. -/
theorem backspace_button_ignored :
    (∀ (V : Type) (ops : DoubleOps V) (cs : Calculator V),
      ProcessButtonPress ops cs 19 = some cs) ∧
    buttonLabels.get? 19 = some "←".toList ∧
    strcmp_eq "←".toList "⌫".toList = false ∧
    ProcessButtonPress int_ops shows_twelve 19 = some shows_twelve ∧
    shows_twelve.display = "12".toList ∧ shows_twelve.display.dropLast = "1".toList ∧
    (ProcessButtonPress int_ops { shows_twelve with display := "7".toList } 19).map
      (fun c => c.display) = some "7".toList := by
  refine ⟨fun V ops cs => ProcessButtonPress_19 ops cs, by decide, by decide, by decide,
    by decide, by decide, by decide⟩

open CLib CliSnake SnakeSpec

/-! ## The snake -/

theorem shift_body_length (i : Nat) (s : List Point) : (shift_body i s).length = s.length := by
  induction i generalizing s with
  | zero => rfl
  | succ i ih => rw [shift_body, ih, List.length_set]

theorem in_grid_origin : in_grid ⟨0, 0⟩ := by decide

theorem getD_in_grid (s : List Point) (i : Nat) (h : ∀ p ∈ s, in_grid p) :
    in_grid (s.getD i ⟨0, 0⟩) := by
  by_cases hi : i < s.length
  · rw [List.getD_eq_getElem _ _ hi]
    exact h _ (List.getElem_mem hi)
  · rw [List.getD_eq_default _ _ (by omega)]
    exact in_grid_origin

theorem set_in_grid (s : List Point) (i : Nat) (q : Point) (h : ∀ p ∈ s, in_grid p)
    (hq : in_grid q) : ∀ p ∈ s.set i q, in_grid p := by
  intro p hp
  rcases List.mem_or_eq_of_mem_set hp with hp | hp
  · exact h p hp
  · rw [hp]; exact hq

theorem shift_body_in_grid (i : Nat) (s : List Point) (h : ∀ p ∈ s, in_grid p) :
    ∀ p ∈ shift_body i s, in_grid p := by
  induction i generalizing s with
  | zero => exact h
  | succ i ih =>
    rw [shift_body]
    exact ih _ (set_in_grid s (i + 1) _ h (getD_in_grid s i h))

theorem wrap_step_in_grid (d : Direction) (p : Point) (h : in_grid p) :
    in_grid (wrap_head (step_head d p)) := by
  obtain ⟨x, y⟩ := p
  have hW : GRID_WIDTH = 40 := by decide
  have hH : GRID_HEIGHT = 30 := by decide
  have e1 : INT_MIN = -2147483648 := rfl
  have e2 : INT_MAX = 2147483647 := rfl
  simp only [in_grid, hW, hH] at h
  obtain ⟨h1, h2, h3, h4⟩ := h
  have a1 : add32 x 1 = x + 1 := add32_eq x 1 (by omega) (by omega)
  have a2 : sub32 x 1 = x - 1 := sub32_eq x 1 (by omega) (by omega)
  have a3 : add32 y 1 = y + 1 := add32_eq y 1 (by omega) (by omega)
  have a4 : sub32 y 1 = y - 1 := sub32_eq y 1 (by omega) (by omega)
  cases d <;> simp only [wrap_head, step_head, in_grid, hW, hH, a1, a2, a3, a4] <;>
    split_ifs <;> dsimp only at * <;> omega

theorem generate_food_loop_snake (rand : Nat → Nat) (r a : Nat) (g : GameState) :
    (generate_food_loop rand r a g).snake = g.snake ∧
    (generate_food_loop rand r a g).snake_length = g.snake_length := by
  induction r generalizing a g with
  | zero => exact ⟨rfl, rfl⟩
  | succ r ih =>
    rw [generate_food_loop]
    dsimp only
    split_ifs
    · exact ih _ _
    · exact ⟨rfl, rfl⟩

theorem all_slots_active (g : GameState) (h : ∀ p ∈ g.snake, in_grid p) : active_in_grid g :=
  fun i _ => getD_in_grid g.snake i h

theorem move_snake_cases (rand : Nat → Nat) (g : GameState) :
    ((g.game_over ≠ 0 ∨ g.paused ≠ 0) ∧ move_snake rand g = g) ∨
    (is_position_occupied g (wrap_head (step_head g.direction (slot g 0))).x
        (wrap_head (step_head g.direction (slot g 0))).y = true ∧
      move_snake rand g = { g with game_over := 1 }) ∨
    (g.game_over = 0 ∧ g.paused = 0 ∧
      is_position_occupied g (wrap_head (step_head g.direction (slot g 0))).x
        (wrap_head (step_head g.direction (slot g 0))).y = false ∧
      (move_snake rand g).snake =
        (shift_body (g.snake_length - 1).toNat g.snake).set 0
          (wrap_head (step_head g.direction (slot g 0))) ∧
      ((move_snake rand g).snake_length = g.snake_length ∨
        (g.snake_length < MAX_SNAKE_LENGTH ∧
          (move_snake rand g).snake_length = g.snake_length + 1))) := by
  unfold move_snake
  by_cases h0 : g.game_over ≠ 0 ∨ g.paused ≠ 0
  · left; rw [if_pos h0]; exact ⟨h0, rfl⟩
  · rw [if_neg h0]
    push_neg at h0
    dsimp only
    by_cases hc : is_position_occupied g (wrap_head (step_head g.direction (slot g 0))).x
        (wrap_head (step_head g.direction (slot g 0))).y = true
    · right; left; rw [if_pos hc]; exact ⟨hc, rfl⟩
    · right; right
      rw [if_neg hc]
      refine ⟨h0.1, h0.2, by simpa using hc, ?_⟩
      split_ifs with hf hl
      · unfold generate_food
        exact ⟨(generate_food_loop_snake _ _ _ _).1, Or.inr ⟨hl, (generate_food_loop_snake _ _ _ _).2⟩⟩
      · unfold generate_food
        exact ⟨(generate_food_loop_snake _ _ _ _).1, Or.inl (generate_food_loop_snake _ _ _ _).2⟩
      · exact ⟨rfl, Or.inl rfl⟩

theorem start_state_slots : start_state.snake.length = MAX_SNAKE_LENGTH.toNat := by
  simp [start_state, MAX_SNAKE_LENGTH]

theorem start_state_in_grid : ∀ p ∈ start_state.snake, in_grid p := by
  intro p hp
  simp only [start_state, List.mem_append, List.mem_cons, List.mem_replicate,
    List.mem_nil_iff, or_false] at hp
  rcases hp with (hp | hp | hp) | ⟨_, hp⟩ <;> rw [hp] <;> decide

/-- C23 (amended): when all `MAX_SNAKE_LENGTH` slots of the array lie inside
the grid and the length is between 1 and `MAX_SNAKE_LENGTH`, the state after
`move_snake` has the same properties, so its active segments, a gained one
included, lie inside the grid; the length stays or grows by one; a head that
moved is the wrapped step of the old head, and the wrap of a coordinate one
past an edge is the opposite edge. -/
theorem move_snake_in_grid (rand : Nat → Nat) (g : GameState)
    (hslots : g.snake.length = MAX_SNAKE_LENGTH.toNat)
    (hall : ∀ p ∈ g.snake, in_grid p)
    (h1 : 1 ≤ g.snake_length) (h2 : g.snake_length ≤ MAX_SNAKE_LENGTH) :
    (move_snake rand g).snake.length = MAX_SNAKE_LENGTH.toNat ∧
    (∀ p ∈ (move_snake rand g).snake, in_grid p) ∧
    active_in_grid (move_snake rand g) ∧
    1 ≤ (move_snake rand g).snake_length ∧
    (move_snake rand g).snake_length ≤ MAX_SNAKE_LENGTH ∧
    g.snake_length ≤ (move_snake rand g).snake_length ∧
    (move_snake rand g).snake_length ≤ g.snake_length + 1 ∧
    (g.game_over = 0 → g.paused = 0 →
      is_position_occupied g (wrap_head (step_head g.direction (slot g 0))).x
        (wrap_head (step_head g.direction (slot g 0))).y = false →
      slot (move_snake rand g) 0 = wrap_head (step_head g.direction (slot g 0))) ∧
    (∀ y : Int, 0 ≤ y → y < GRID_HEIGHT →
      wrap_head ⟨-1, y⟩ = ⟨GRID_WIDTH - 1, y⟩ ∧ wrap_head ⟨GRID_WIDTH, y⟩ = ⟨0, y⟩) ∧
    (∀ x : Int, 0 ≤ x → x < GRID_WIDTH →
      wrap_head ⟨x, -1⟩ = ⟨x, GRID_HEIGHT - 1⟩ ∧ wrap_head ⟨x, GRID_HEIGHT⟩ = ⟨x, 0⟩) := by
  have hW : GRID_WIDTH = 40 := by decide
  have hH : GRID_HEIGHT = 30 := by decide
  have hwrapx : ∀ y : Int, 0 ≤ y → y < GRID_HEIGHT →
      wrap_head ⟨-1, y⟩ = ⟨GRID_WIDTH - 1, y⟩ ∧ wrap_head ⟨GRID_WIDTH, y⟩ = ⟨0, y⟩ := by
    intro y hy0 hy1
    rw [hH] at hy1
    constructor <;> simp only [wrap_head, hW, hH] <;> split_ifs <;>
      dsimp only at * <;> first | rfl | omega
  have hwrapy : ∀ x : Int, 0 ≤ x → x < GRID_WIDTH →
      wrap_head ⟨x, -1⟩ = ⟨x, GRID_HEIGHT - 1⟩ ∧ wrap_head ⟨x, GRID_HEIGHT⟩ = ⟨x, 0⟩ := by
    intro x hx0 hx1
    rw [hW] at hx1
    constructor <;> simp only [wrap_head, hW, hH] <;> split_ifs <;>
      dsimp only at * <;> first | rfl | omega
  have hhead : in_grid (wrap_head (step_head g.direction (slot g 0))) :=
    wrap_step_in_grid _ _ (getD_in_grid g.snake 0 hall)
  rcases move_snake_cases rand g with ⟨h0, h⟩ | ⟨hc, h⟩ | ⟨hg, hp, hocc, hs, hl⟩
  · rw [h]
    refine ⟨hslots, hall, all_slots_active g hall, h1, h2, le_refl _, by omega, ?_, hwrapx, hwrapy⟩
    intro hg hp _
    rcases h0 with h0 | h0
    · exact absurd hg h0
    · exact absurd hp h0
  · rw [h]
    refine ⟨hslots, hall, all_slots_active _ hall, h1, h2, le_refl _, ?_, ?_, hwrapx, hwrapy⟩
    · show g.snake_length ≤ g.snake_length + 1
      omega
    · intro _ _ hocc
      rw [hocc] at hc
      exact absurd hc (by decide)
  · have hall2 : ∀ p ∈ (move_snake rand g).snake, in_grid p := by
      rw [hs]
      exact set_in_grid _ 0 _ (shift_body_in_grid _ _ hall) hhead
    have hlen2 : (move_snake rand g).snake.length = MAX_SNAKE_LENGTH.toNat := by
      rw [hs, List.length_set, shift_body_length, hslots]
    have hM : MAX_SNAKE_LENGTH = 1000 := rfl
    refine ⟨hlen2, hall2, all_slots_active _ hall2, ?_, ?_, ?_, ?_, ?_, hwrapx, hwrapy⟩
    · rcases hl with hl | ⟨_, hl⟩ <;> omega
    · rcases hl with hl | ⟨_, hl⟩ <;> omega
    · rcases hl with hl | ⟨_, hl⟩ <;> omega
    · rcases hl with hl | ⟨_, hl⟩ <;> omega
    · intro _ _ _
      unfold slot
      rw [hs]
      have hpos : 0 < (shift_body (g.snake_length - 1).toNat g.snake).length := by
        rw [shift_body_length, hslots, hM]; decide
      rw [List.getD_eq_getElem _ _ (by rw [List.length_set]; exact hpos)]
      exact List.getElem_set_self _

/-- The state set up by `init_game` in the zeroed global has all its slots
inside the grid; after the move that eats the food ahead, the snake has four
segments. -/
theorem move_snake_in_grid_witness :
    start_state.snake.length = MAX_SNAKE_LENGTH.toNat ∧
    (∀ p ∈ start_state.snake, in_grid p) ∧
    (1 ≤ start_state.snake_length ∧ start_state.snake_length ≤ MAX_SNAKE_LENGTH) ∧
    (move_snake (fun _ => 0) start_state).snake_length = 4 ∧
    active_in_grid (move_snake (fun _ => 0) start_state) :=
  ⟨start_state_slots, start_state_in_grid, by decide, by decide,
    (move_snake_in_grid (fun _ => 0) start_state start_state_slots start_state_in_grid
      (by decide) (by decide)).2.2.1⟩

/-- C23 (counterexample): the active segments of `stale_state` lie inside
the grid and its length is 3, and the point (100, 100) is in slot 3; the
move eats the food ahead, the length becomes 4, and the gained segment is
the point of slot 3, outside the grid. -/
theorem stale_slot_outside_grid :
    active_in_grid stale_state ∧ stale_state.snake.length = MAX_SNAKE_LENGTH.toNat ∧
    (1 ≤ stale_state.snake_length ∧ stale_state.snake_length ≤ MAX_SNAKE_LENGTH) ∧
    (move_snake (fun _ => 0) stale_state).snake_length = 4 ∧
    slot (move_snake (fun _ => 0) stale_state) 3 = ⟨100, 100⟩ ∧
    ¬ in_grid ⟨100, 100⟩ ∧
    ¬ active_in_grid (move_snake (fun _ => 0) stale_state) := by
  refine ⟨by decide, by simp [stale_state, start_state, MAX_SNAKE_LENGTH], by decide, by decide,
    by decide, by decide, by decide⟩

open CLib CalNavigate CalSpec

/-! ## The calendar -/

theorem sub32_add32_one (y : Int) (h : is_int y) : sub32 (add32 y 1) 1 = y := by
  have e1 : INT_MIN = -2147483648 := rfl
  have e2 : INT_MAX = 2147483647 := rfl
  obtain ⟨h1, h2⟩ := h
  simp only [sub32, add32, wrapInt32]
  norm_num
  omega

theorem add32_sub32_one (y : Int) (h : is_int y) : add32 (sub32 y 1) 1 = y := by
  have e1 : INT_MIN = -2147483648 := rfl
  have e2 : INT_MAX = 2147483647 := rfl
  obtain ⟨h1, h2⟩ := h
  simp only [sub32, add32, wrapInt32]
  norm_num
  omega

theorem days_in_month_range (y m : Int) : 28 ≤ days_in_month y m ∧ days_in_month y m ≤ 31 := by
  unfold days_in_month
  split_ifs <;> omega

theorem next_day_valid (d : Date) (h : valid_date d) : valid_date (next_day d) := by
  obtain ⟨y, m, dd⟩ := d
  unfold valid_date at h
  dsimp only at h
  have r1 := days_in_month_range (add32 y 1) 1
  have r2 := days_in_month_range y (m + 1)
  unfold next_day valid_date
  dsimp only
  split_ifs <;> dsimp only <;> omega

theorem prev_day_valid (d : Date) (h : valid_date d) : valid_date (prev_day d) := by
  obtain ⟨y, m, dd⟩ := d
  unfold valid_date at h
  dsimp only at h
  have r1 := days_in_month_range (sub32 y 1) 12
  have r2 := days_in_month_range y (m - 1)
  unfold prev_day valid_date
  dsimp only
  split_ifs <;> dsimp only <;> omega

theorem next_day_year (d : Date) (h : is_int d.year) : is_int (next_day d).year := by
  unfold next_day
  split_ifs
  · exact h
  · exact wrapInt32_range _
  · exact h

theorem prev_day_year (d : Date) (h : is_int d.year) : is_int (prev_day d).year := by
  unfold prev_day
  split_ifs
  · exact h
  · exact wrapInt32_range _
  · exact h

theorem prev_next_day (d : Date) (h : valid_date d) (hy : is_int d.year) :
    prev_day (next_day d) = d := by
  obtain ⟨h1, h2, h3, h4⟩ := h
  obtain ⟨y, m, dd⟩ := d
  dsimp only at h1 h2 h3 h4 hy
  unfold next_day
  dsimp only
  split_ifs with ha hb
  · unfold prev_day
    dsimp only
    rw [if_pos (by omega)]
    simp
  · unfold prev_day
    dsimp only
    rw [if_neg (by omega), if_pos rfl, sub32_add32_one y hy]
    subst hb
    have : days_in_month y 12 = 31 := by simp [days_in_month]
    simp only [Date.mk.injEq, true_and]
    omega
  · unfold prev_day
    dsimp only
    rw [if_neg (by omega), if_neg (by omega)]
    simp only [add_sub_cancel_right, Date.mk.injEq, true_and]
    omega

theorem next_prev_day (d : Date) (h : valid_date d) (hy : is_int d.year) :
    next_day (prev_day d) = d := by
  obtain ⟨h1, h2, h3, h4⟩ := h
  obtain ⟨y, m, dd⟩ := d
  dsimp only at h1 h2 h3 h4 hy
  unfold prev_day
  dsimp only
  split_ifs with ha hb
  · unfold next_day
    dsimp only
    rw [if_pos (by omega)]
    simp
  · unfold next_day
    dsimp only
    rw [if_neg (by omega), if_pos rfl, add32_sub32_one y hy]
    simp only [Date.mk.injEq, true_and]
    omega
  · unfold next_day
    dsimp only
    rw [if_neg (by omega), if_neg (by omega)]
    simp only [sub_add_cancel, Date.mk.injEq, true_and]
    omega

theorem next_day_iterate_within (d : Date) (k : Nat)
    (h : d.day + k ≤ days_in_month d.year d.month) :
    next_day^[k] d = { d with day := d.day + k } := by
  induction k with
  | zero => simp
  | succ k ih =>
    rw [Function.iterate_succ_apply', ih (by push_cast at h; omega)]
    unfold next_day
    dsimp only
    rw [if_pos (by push_cast at h; omega)]
    simp only [Date.mk.injEq, true_and]
    push_cast
    omega

theorem prev_day_iterate_within (d : Date) (k : Nat) (h : (k : Int) < d.day) :
    prev_day^[k] d = { d with day := d.day - k } := by
  induction k with
  | zero => simp
  | succ k ih =>
    rw [Function.iterate_succ_apply', ih (by push_cast at h; omega)]
    unfold prev_day
    dsimp only
    rw [if_pos (by push_cast at h; omega)]
    simp only [Date.mk.injEq, true_and]
    push_cast
    omega

theorem next_day_iterate_valid (d : Date) (k : Nat) (h : valid_date d) :
    valid_date (next_day^[k] d) := by
  induction k with
  | zero => exact h
  | succ k ih => rw [Function.iterate_succ_apply']; exact next_day_valid _ ih

theorem prev_day_iterate_valid (d : Date) (k : Nat) (h : valid_date d) :
    valid_date (prev_day^[k] d) := by
  induction k with
  | zero => exact h
  | succ k ih => rw [Function.iterate_succ_apply']; exact prev_day_valid _ ih

theorem next_day_iterate_year (d : Date) (k : Nat) (h : is_int d.year) :
    is_int (next_day^[k] d).year := by
  induction k with
  | zero => exact h
  | succ k ih => rw [Function.iterate_succ_apply']; exact next_day_year _ ih

theorem prev_day_iterate_year (d : Date) (k : Nat) (h : is_int d.year) :
    is_int (prev_day^[k] d).year := by
  induction k with
  | zero => exact h
  | succ k ih => rw [Function.iterate_succ_apply']; exact prev_day_year _ ih

theorem prev_next_iterate (d : Date) (k : Nat) (h : valid_date d) (hy : is_int d.year) :
    prev_day^[k] (next_day^[k] d) = d := by
  induction k with
  | zero => rfl
  | succ k ih =>
    rw [Function.iterate_succ_apply, Function.iterate_succ_apply',
      prev_next_day _ (next_day_iterate_valid d k h) (next_day_iterate_year d k hy), ih]

theorem next_prev_iterate (d : Date) (k : Nat) (h : valid_date d) (hy : is_int d.year) :
    next_day^[k] (prev_day^[k] d) = d := by
  induction k with
  | zero => rfl
  | succ k ih =>
    rw [Function.iterate_succ_apply, Function.iterate_succ_apply',
      next_prev_day _ (prev_day_iterate_valid d k h) (prev_day_iterate_year d k hy), ih]

/-- The first loop of `add_days` on a valid date and a count `n >= 0` with
`day + n` within `int` returns, with more than `n` units of fuel, the date
`n` days later and the count 0. -/
theorem add_days_forward_eq (fuel : Nat) (d : Date) (n : Nat) (hv : valid_date d)
    (hn : d.day + (n : Int) ≤ INT_MAX) (hf : n < fuel) :
    add_days_forward fuel d (n : Int) = some (next_day^[n] d, 0) := by
  have e1 : INT_MIN = -2147483648 := rfl
  have e2 : INT_MAX = 2147483647 := rfl
  induction fuel generalizing d n with
  | zero => omega
  | succ fuel ih =>
    rw [add_days_forward]
    obtain ⟨h1, h2, h3, h4⟩ := hv
    have hr := days_in_month_range d.year d.month
    by_cases hpos : (n : Int) > 0
    · rw [if_pos hpos]
      dsimp only
      have hfuel : 0 < fuel := by omega
      rw [add32_eq d.day n (by omega) hn]
      by_cases hfit : d.day + (n : Int) ≤ days_in_month d.year d.month
      · rw [if_pos hfit]
        have h0 := ih { d with day := d.day + n } 0
          ⟨h1, h2, by show 1 ≤ d.day + (n : Int); omega, hfit⟩
          (by show d.day + (n : Int) + ((0 : Nat) : Int) ≤ INT_MAX; omega) hfuel
        rw [Nat.cast_zero] at h0
        rw [h0, next_day_iterate_within d n hfit]
        rfl
      · rw [if_neg hfit]
        rw [sub32_eq (days_in_month d.year d.month) d.day (by omega) (by omega),
          add32_eq (days_in_month d.year d.month - d.day) 1 (by omega) (by omega),
          sub32_eq (n : Int) (days_in_month d.year d.month - d.day + 1) (by omega) (by omega),
          add32_eq d.month 1 (by omega) (by omega)]
        have hk : ∃ k : Nat, (k : Int) = days_in_month d.year d.month - d.day :=
          ⟨(days_in_month d.year d.month - d.day).toNat, by omega⟩
        obtain ⟨k, hk⟩ := hk
        have hm : ∃ m : Nat, (m : Int) = (n : Int) - (days_in_month d.year d.month - d.day + 1) :=
          ⟨((n : Int) - (days_in_month d.year d.month - d.day + 1)).toNat, by omega⟩
        obtain ⟨m, hm⟩ := hm
        have hnm : n = m + (k + 1) := by omega
        have hlast : next_day^[k] d = { d with day := days_in_month d.year d.month } := by
          rw [next_day_iterate_within d k (by omega)]
          simp only [Date.mk.injEq, true_and]
          omega
        have hstep : next_day^[k + 1] d =
            if d.month = 12 then ⟨add32 d.year 1, 1, 1⟩ else ⟨d.year, d.month + 1, 1⟩ := by
          rw [Function.iterate_succ_apply', hlast]
          unfold next_day
          dsimp only
          rw [if_neg (by omega)]
        rw [← hm, hnm, Function.iterate_add_apply, hstep]
        have hv1 : valid_date (next_day^[k + 1] d) :=
          next_day_iterate_valid d (k + 1) ⟨h1, h2, h3, h4⟩
        rw [hstep] at hv1
        split_ifs with h12
        · rw [if_pos h12] at hv1
          exact ih _ m hv1 (by show (1 : Int) + (m : Int) ≤ INT_MAX; omega) (by omega)
        · rw [if_neg h12] at hv1
          exact ih _ m hv1 (by show (1 : Int) + (m : Int) ≤ INT_MAX; omega) (by omega)
    · rw [if_neg hpos]
      have : n = 0 := by omega
      subst this
      rfl

/-- The second loop of `add_days` on a valid date and a count `-n <= 0`
within `int` returns, with more than `n` units of fuel, the date `n` days
earlier. -/
theorem add_days_backward_eq (fuel : Nat) (d : Date) (n : Nat) (hv : valid_date d)
    (hn : INT_MIN ≤ -(n : Int)) (hf : n < fuel) :
    add_days_backward fuel d (-(n : Int)) = some (prev_day^[n] d, 0) := by
  have e1 : INT_MIN = -2147483648 := rfl
  have e2 : INT_MAX = 2147483647 := rfl
  induction fuel generalizing d n with
  | zero => omega
  | succ fuel ih =>
    rw [add_days_backward]
    obtain ⟨h1, h2, h3, h4⟩ := hv
    have hr := days_in_month_range d.year d.month
    by_cases hneg : -(n : Int) < 0
    · rw [if_pos hneg]
      have hfuel : 0 < fuel := by omega
      rw [add32_eq d.day (-(n : Int)) (by omega) (by omega)]
      by_cases hfit : d.day + -(n : Int) > 0
      · rw [if_pos hfit]
        have h0 := ih { d with day := d.day + -(n : Int) } 0
          ⟨h1, h2, by show 1 ≤ d.day + -(n : Int); omega,
            by show d.day + -(n : Int) ≤ days_in_month d.year d.month; omega⟩
          (by omega) hfuel
        rw [Nat.cast_zero, neg_zero] at h0
        rw [h0, prev_day_iterate_within d n (by omega)]
        rfl
      · rw [if_neg hfit]
        dsimp only
        rw [add32_eq (-(n : Int)) d.day (by omega) (by omega),
          sub32_eq d.month 1 (by omega) (by omega)]
        have hk : ∃ k : Nat, (k : Int) = d.day - 1 := ⟨(d.day - 1).toNat, by omega⟩
        obtain ⟨k, hk⟩ := hk
        have hm : ∃ m : Nat, -(m : Int) = -(n : Int) + d.day :=
          ⟨(n - d.day).toNat, by omega⟩
        obtain ⟨m, hm⟩ := hm
        have hnm : n = m + (k + 1) := by omega
        have hfirst : prev_day^[k] d = { d with day := 1 } := by
          rw [prev_day_iterate_within d k (by omega)]
          simp only [Date.mk.injEq, true_and]
          omega
        have hstep : prev_day^[k + 1] d =
            if d.month = 1 then ⟨sub32 d.year 1, 12, days_in_month (sub32 d.year 1) 12⟩
            else ⟨d.year, d.month - 1, days_in_month d.year (d.month - 1)⟩ := by
          rw [Function.iterate_succ_apply', hfirst]
          unfold prev_day
          dsimp only
          rw [if_neg (by omega)]
        rw [← hm, hnm, Function.iterate_add_apply, hstep]
        have hv1 : valid_date (prev_day^[k + 1] d) :=
          prev_day_iterate_valid d (k + 1) ⟨h1, h2, h3, h4⟩
        rw [hstep] at hv1
        split_ifs with h12
        · rw [if_pos h12] at hv1
          exact ih _ m hv1 (by omega) (by omega)
        · rw [if_neg h12] at hv1
          exact ih _ m hv1 (by omega) (by omega)
    · rw [if_neg hneg]
      have : n = 0 := by omega
      subst this
      rfl

/-- The function `add_days` on a valid date, for a count `n >= 0` with
`day + n` within `int`. -/
theorem add_days_nonneg (fuel : Nat) (d : Date) (n : Nat) (hv : valid_date d)
    (hn : d.day + (n : Int) ≤ INT_MAX) (hf : n < fuel) :
    add_days fuel d (n : Int) = some (next_day^[n] d) := by
  unfold add_days
  rw [add_days_forward_eq fuel d n hv hn hf]
  dsimp only
  have h := add_days_backward_eq fuel (next_day^[n] d) 0 (next_day_iterate_valid d n hv)
    (by decide) (by omega)
  rw [Nat.cast_zero, neg_zero] at h
  rw [h]
  rfl

/-- The function `add_days` on a valid date, for a count `-n <= 0` within
`int`. -/
theorem add_days_nonpos (fuel : Nat) (d : Date) (n : Nat) (hv : valid_date d)
    (hn : INT_MIN ≤ -(n : Int)) (hf : n < fuel) :
    add_days fuel d (-(n : Int)) = some (prev_day^[n] d) := by
  unfold add_days
  have h1 : add_days_forward fuel d (-(n : Int)) = some (d, -(n : Int)) := by
    cases fuel with
    | zero => omega
    | succ fuel => rw [add_days_forward, if_neg (by omega)]
  rw [h1]
  dsimp only
  rw [add_days_backward_eq fuel d n hv hn hf]
  rfl

theorem tmod_seven_normalize (a : Int) : ((a.tmod 7) + 7).tmod 7 = a % 7 := by
  by_cases h : 0 ≤ a
  · rw [Int.tmod_eq_emod h (by decide), Int.tmod_eq_emod (by omega) (by decide)]
    omega
  · have h1 : a.tmod 7 = a + 7 * ((-a) / 7) := by
      have h2 := Int.neg_tdiv (-a) 7
      rw [neg_neg] at h2
      rw [Int.tmod_def, h2, Int.tdiv_eq_ediv (by omega) (by decide)]
      ring
    rw [h1, Int.tmod_eq_emod (by omega) (by decide)]
    omega

theorem is_leap_year_iff (y : Int) (hy : 0 ≤ y) :
    is_leap_year y = true ↔ (y % 4 = 0 ∧ y % 100 ≠ 0) ∨ y % 400 = 0 := by
  unfold is_leap_year
  rw [Int.tmod_eq_emod hy (by decide), Int.tmod_eq_emod hy (by decide),
    Int.tmod_eq_emod hy (by decide)]
  simp

theorem tmod_seven_bounds (a : Int) : -6 ≤ a.tmod 7 ∧ a.tmod 7 ≤ 6 := by
  by_cases h : 0 ≤ a
  · rw [Int.tmod_eq_emod h (by decide)]
    omega
  · have h2 := Int.neg_tdiv (-a) 7
    rw [neg_neg] at h2
    rw [Int.tmod_def, h2, Int.tdiv_eq_ediv (by omega) (by decide)]
    omega

/-- The value of `get_weekday` when the year the congruence uses, `Y`, is
not negative: the sum of the congruence with the rounding-down quotient,
reduced to its non-negative remainder modulo 7. -/
theorem get_weekday_emod (y m dd Y : Int) (hY : (if m < 3 then sub32 y 1 else y) = Y)
    (hY0 : 0 ≤ Y) (hY1 : Y ≤ INT_MAX) (hm1 : 1 ≤ m) (hm2 : m ≤ 12)
    (hd1 : 1 ≤ dd) (hd2 : dd ≤ 31) :
    get_weekday ⟨y, m, dd⟩ =
      (dd + (13 * ((if m < 3 then m + 12 else m) + 1)) / 5
        + (Y % 100 + Y % 100 / 4 + Y / 100 / 4 - 2 * (Y / 100))) % 7 := by
  have e1 : INT_MIN = -2147483648 := rfl
  have e2 : INT_MAX = 2147483647 := rfl
  unfold get_weekday
  dsimp only
  have hM : (if m < 3 then add32 m 12 else m) = (if m < 3 then m + 12 else m) := by
    split_ifs
    · exact add32_eq m 12 (by omega) (by omega)
    · rfl
  rw [hM, hY]
  generalize hMdef : (if m < 3 then m + 12 else m) = M
  have hMr : 3 ≤ M ∧ M ≤ 14 := by
    rw [← hMdef]
    split_ifs <;> omega
  have hb := tmod_seven_bounds
    (dd + 13 * (M + 1) / 5 + Y % 100 + Y % 100 / 4 + Y / 100 / 4 - 2 * (Y / 100))
  rw [add32_eq M 1 (by omega) (by omega), mul32_eq 13 (M + 1) (by omega) (by omega),
    Int.tdiv_eq_ediv (by omega) (by decide), Int.tmod_eq_emod hY0 (by decide),
    Int.tdiv_eq_ediv hY0 (by decide),
    Int.tdiv_eq_ediv (Int.emod_nonneg _ (by decide)) (by decide),
    Int.tdiv_eq_ediv (Int.ediv_nonneg hY0 (by decide)) (by decide),
    mul32_eq 2 (Y / 100) (by omega) (by omega),
    add32_eq dd (13 * (M + 1) / 5) (by omega) (by omega),
    add32_eq _ (Y % 100) (by omega) (by omega),
    add32_eq _ (Y % 100 / 4) (by omega) (by omega),
    add32_eq _ (Y / 100 / 4) (by omega) (by omega),
    sub32_eq _ (2 * (Y / 100)) (by omega) (by omega),
    add32_eq _ 7 (by omega) (by omega), tmod_seven_normalize]
  congr 1
  ring

theorem get_weekday_range (d : Date) : 0 ≤ get_weekday d ∧ get_weekday d ≤ 6 := by
  have e1 : INT_MIN = -2147483648 := rfl
  have e2 : INT_MAX = 2147483647 := rfl
  unfold get_weekday
  dsimp only
  generalize (sub32 _ _) = X
  have hb := tmod_seven_bounds X
  rw [add32_eq _ 7 (by omega) (by omega), tmod_seven_normalize]
  omega

/-- The year part of the congruence grows by one from a year to the next,
and by two into a leap year, modulo 7. -/
theorem year_term_step (y : Int) (hy : 1 ≤ y) :
    (y % 100 + y % 100 / 4 + y / 100 / 4 - 2 * (y / 100)) % 7 =
      (((y - 1) % 100 + (y - 1) % 100 / 4 + (y - 1) / 100 / 4 - 2 * ((y - 1) / 100))
        + (if is_leap_year y then 2 else 1)) % 7 := by
  have hleap := is_leap_year_iff y (by omega)
  obtain ⟨q, r, p, t, hr0, hr1, ht0, ht1, hyq, hK0, hK1⟩ : ∃ q r p t : Int, 0 ≤ r ∧ r < 4 ∧
      0 ≤ t ∧ t < 4 ∧ y = 100 * (4 * q + r) + (4 * p + t) ∧ 0 ≤ 4 * p + t ∧ 4 * p + t < 100 :=
    ⟨y / 100 / 4, y / 100 % 4, y % 100 / 4, y % 100 % 4, by omega, by omega, by omega, by omega,
      by omega, by omega, by omega⟩
  have e1 : y % 100 = 4 * p + t := by omega
  have e2 : y / 100 = 4 * q + r := by omega
  have e3 : (4 * p + t) / 4 = p := by omega
  have e4 : (4 * q + r) / 4 = q := by omega
  have e5 : y % 4 = t := by omega
  have e6 : y % 400 = 100 * r + (4 * p + t) := by omega
  rw [e1, e2, e3, e4]
  by_cases hK : 4 * p + t = 0
  · have e7 : (y - 1) % 100 = 99 := by omega
    have e8 : (y - 1) / 100 = 4 * q + r - 1 := by omega
    rw [e7, e8]
    by_cases hr : r = 0
    · have e9 : (4 * q + r - 1) / 4 = q - 1 := by omega
      have hl : is_leap_year y = true := hleap.mpr (Or.inr (by omega))
      rw [if_pos hl, e9]
      omega
    · have e9 : (4 * q + r - 1) / 4 = q := by omega
      have hl : ¬ is_leap_year y = true := by
        intro hl
        rcases hleap.mp hl with h | h <;> omega
      rw [if_neg hl, e9]
      omega
  · have e7 : (y - 1) % 100 = 4 * p + t - 1 := by omega
    have e8 : (y - 1) / 100 = 4 * q + r := by omega
    rw [e7, e8, e4]
    by_cases ht : t = 0
    · have e9 : (4 * p + t - 1) / 4 = p - 1 := by omega
      have hl : is_leap_year y = true := hleap.mpr (Or.inl ⟨by omega, by omega⟩)
      rw [if_pos hl, e9]
      omega
    · have e9 : (4 * p + t - 1) / 4 = p := by omega
      have hl : ¬ is_leap_year y = true := by
        intro hl
        rcases hleap.mp hl with h | h <;> omega
      rw [if_neg hl, e9]
      omega

theorem zeller_year_le (d : Date) (h : is_int d.year) : zeller_year d ≤ INT_MAX := by
  unfold zeller_year
  split_ifs
  · exact (wrapInt32_range _).2
  · exact h.2

/-- The weekday of the day after a valid date, when the years the
congruence uses for the two dates are not negative. -/
theorem get_weekday_next_day (d : Date) (hv : valid_date d) (hi : is_int d.year)
    (hZ0 : 0 ≤ zeller_year d) (hZ1 : 0 ≤ zeller_year (next_day d)) :
    get_weekday (next_day d) = (get_weekday d + 1) % 7 := by
  have e1 : INT_MIN = -2147483648 := rfl
  have e2 : INT_MAX = 2147483647 := rfl
  have hZle := zeller_year_le d hi
  have hZle1 := zeller_year_le (next_day d) (next_day_year d hi)
  obtain ⟨y, m, dd⟩ := d
  obtain ⟨h1, h2, h3, h4⟩ := hv
  obtain ⟨hi1, hi2⟩ := hi
  dsimp only at h1 h2 h3 h4 hi1 hi2
  have hr := days_in_month_range y m
  unfold zeller_year at hZ0 hZle
  dsimp only at hZ0 hZle
  unfold next_day zeller_year at hZ1 hZle1
  unfold next_day
  dsimp only at hZ1 hZle1 ⊢
  by_cases hlt : dd < days_in_month y m
  · rw [if_pos hlt, get_weekday_emod y m _ _ rfl hZ0 hZle h1 h2 (by omega) (by omega),
      get_weekday_emod y m _ _ rfl hZ0 hZle h1 h2 (by omega) (by omega)]
    generalize (if m < 3 then sub32 y 1 else y) % 100 + (if m < 3 then sub32 y 1 else y) % 100 / 4
      + (if m < 3 then sub32 y 1 else y) / 100 / 4 - 2 * ((if m < 3 then sub32 y 1 else y) / 100)
      = S
    omega
  · rw [if_neg hlt] at hZ1 hZle1 ⊢
    have hdd : dd = days_in_month y m := by omega
    by_cases h12 : m = 12
    · have hY : (if (1 : Int) < 3 then sub32 (add32 y 1) 1 else add32 y 1) = y := by
        rw [if_pos (by decide)]
        exact sub32_add32_one y ⟨hi1, hi2⟩
      subst h12
      rw [if_neg (by decide)] at hZ0
      rw [if_pos rfl, get_weekday_emod (add32 y 1) 1 1 y hY hZ0 hi2 (by decide) (by decide)
          (by decide) (by decide),
        get_weekday_emod y 12 _ y (if_neg (by decide)) hZ0 hi2 h1 h2 (by omega) (by omega)]
      have h31 : days_in_month y 12 = 31 := by simp [days_in_month]
      rw [h31] at hdd
      subst hdd
      simp only [show ((1 : Int) < 3) = True from by decide, if_true,
        show ((12 : Int) < 3) = False from by decide, if_false]
      generalize y % 100 + y % 100 / 4 + y / 100 / 4 - 2 * (y / 100) = S
      omega
    · rw [if_neg h12] at hZ1 hZle1 ⊢
      dsimp only at hZ1 hZle1
      rw [get_weekday_emod y (m + 1) 1 _ rfl hZ1 hZle1 (by omega) (by omega)
          (by decide) (by decide),
        get_weekday_emod y m _ _ rfl hZ0 hZle h1 h2 (by omega) (by omega)]
      have hm : m = 1 ∨ m = 2 ∨ m = 3 ∨ m = 4 ∨ m = 5 ∨ m = 6 ∨ m = 7 ∨ m = 8 ∨ m = 9 ∨
          m = 10 ∨ m = 11 := by omega
      by_cases hm2 : m = 2
      · subst hm2
        rw [if_pos (by decide)] at hZ0
        rw [if_neg (by decide)] at hZ1
        have hy : 1 ≤ y := by
          by_contra hcon
          have hy0 : y = 0 := by omega
          rw [hy0] at hZ0
          exact absurd hZ0 (by decide)
        have hsub : sub32 y 1 = y - 1 := sub32_eq y 1 (by omega) (by omega)
        have hstep := year_term_step y hy
        rw [hsub]
        simp [days_in_month] at hdd ⊢
        generalize y % 100 + y % 100 / 4 + y / 100 / 4 - 2 * (y / 100) = S1 at hstep ⊢
        generalize (y - 1) % 100 + (y - 1) % 100 / 4 + (y - 1) / 100 / 4 - 2 * ((y - 1) / 100)
          = S0 at hstep ⊢
        split_ifs at hdd hstep <;> omega
      · rcases hm with hm | hm | hm | hm | hm | hm | hm | hm | hm | hm | hm <;> subst hm <;>
          simp [days_in_month] at hdd ⊢ <;> omega

theorem zeller_year_forward (e : Date) (i : Int)
    (hP : 1 ≤ e.year ∨ (e.year = INT_MIN ∧ e.month = 1 ∧ e.day ≤ i)) (hint : is_int e.year) :
    0 ≤ zeller_year e := by
  have e1 : INT_MIN = -2147483648 := rfl
  have e2 : INT_MAX = 2147483647 := rfl
  unfold zeller_year
  rcases hP with h | ⟨h, hm, _⟩
  · split_ifs
    · rw [sub32_eq e.year 1 (by omega) (by have := hint.2; omega)]
      omega
    · omega
  · rw [if_pos (by omega), h]
    decide

theorem next_day_forward (e : Date) (i : Int) (hv : valid_date e) (hint : is_int e.year)
    (hP : 1 ≤ e.year ∨ (e.year = INT_MIN ∧ e.month = 1 ∧ e.day ≤ i)) (hi0 : 0 ≤ i)
    (hi : i < 31) :
    1 ≤ (next_day e).year ∨
      ((next_day e).year = INT_MIN ∧ (next_day e).month = 1 ∧ (next_day e).day ≤ i + 1) := by
  have e1 : INT_MIN = -2147483648 := rfl
  have e2 : INT_MAX = 2147483647 := rfl
  obtain ⟨y, m, dd⟩ := e
  obtain ⟨h1, h2, h3, h4⟩ := hv
  obtain ⟨hi1, hi2⟩ := hint
  dsimp only at h1 h2 h3 h4 hi1 hi2 hP
  unfold next_day
  dsimp only
  rcases hP with h | ⟨h, hm, hd⟩
  · split_ifs with ha hb
    · exact Or.inl h
    · by_cases hmax : y = INT_MAX
      · right
        rw [hmax]
        exact ⟨by decide, rfl, by show (1 : Int) ≤ i + 1; omega⟩
      · left
        show 1 ≤ add32 y 1
        rw [add32_eq y 1 (by omega) (by omega)]
        omega
    · exact Or.inl h
  · subst hm
    have h31 : days_in_month y 1 = 31 := by simp [days_in_month]
    rw [if_pos (by omega)]
    right
    exact ⟨h, rfl, by show dd + 1 ≤ i + 1; omega⟩

theorem zeller_year_backward (e : Date) (i : Int)
    (hQ : 1 ≤ e.year ∨ (e.year = 0 ∧ e.month = 12 ∧ 32 - i ≤ e.day)) (hint : is_int e.year) :
    0 ≤ zeller_year e := by
  have e1 : INT_MIN = -2147483648 := rfl
  have e2 : INT_MAX = 2147483647 := rfl
  unfold zeller_year
  rcases hQ with h | ⟨h, hm, _⟩
  · split_ifs
    · rw [sub32_eq e.year 1 (by omega) (by have := hint.2; omega)]
      omega
    · omega
  · rw [if_neg (by omega), h]

theorem prev_day_backward (e : Date) (i : Int) (hv : valid_date e) (hint : is_int e.year)
    (hQ : 1 ≤ e.year ∨ (e.year = 0 ∧ e.month = 12 ∧ 32 - i ≤ e.day)) (hi0 : 0 ≤ i)
    (hi : i < 31) :
    1 ≤ (prev_day e).year ∨
      ((prev_day e).year = 0 ∧ (prev_day e).month = 12 ∧ 32 - (i + 1) ≤ (prev_day e).day) := by
  have e1 : INT_MIN = -2147483648 := rfl
  have e2 : INT_MAX = 2147483647 := rfl
  obtain ⟨y, m, dd⟩ := e
  obtain ⟨h1, h2, h3, h4⟩ := hv
  obtain ⟨hi1, hi2⟩ := hint
  dsimp only at h1 h2 h3 h4 hi1 hi2 hQ
  unfold prev_day
  dsimp only
  rcases hQ with h | ⟨h, hm, hd⟩
  · split_ifs with ha hb
    · exact Or.inl h
    · have hsub : sub32 y 1 = y - 1 := sub32_eq y 1 (by omega) (by omega)
      rw [hsub]
      have h31 : days_in_month (y - 1) 12 = 31 := by simp [days_in_month]
      by_cases hone : y = 1
      · right
        subst hone
        exact ⟨rfl, rfl, by show 32 - (i + 1) ≤ days_in_month (1 - 1) 12; omega⟩
      · left
        show 1 ≤ y - 1
        omega
    · exact Or.inl h
  · rw [if_pos (by omega)]
    right
    exact ⟨h, hm, by show 32 - (i + 1) ≤ dd - 1; omega⟩

/-- The weekday advances by one with each of up to 7 days after a valid
date of a year `>= 1`. -/
theorem get_weekday_forward (d : Date) (hv : valid_date d) (hint : is_int d.year)
    (hy : 1 ≤ d.year) (i : Nat) (hi : i ≤ 7) :
    (1 ≤ (next_day^[i] d).year ∨ ((next_day^[i] d).year = INT_MIN ∧
      (next_day^[i] d).month = 1 ∧ (next_day^[i] d).day ≤ (i : Int))) ∧
    get_weekday (next_day^[i] d) = (get_weekday d + i) % 7 := by
  induction i with
  | zero =>
    have := get_weekday_range d
    exact ⟨Or.inl hy, by show get_weekday d = (get_weekday d + ((0 : Nat) : Int)) % 7; omega⟩
  | succ i ih =>
    obtain ⟨hP, hw⟩ := ih (by omega)
    have hv1 := next_day_iterate_valid d i hv
    have hy1 := next_day_iterate_year d i hint
    have hP1 := next_day_forward _ (i : Int) hv1 hy1 hP (by omega) (by omega)
    rw [Function.iterate_succ_apply']
    refine ⟨by push_cast; exact hP1, ?_⟩
    rw [get_weekday_next_day _ hv1 hy1 (zeller_year_forward _ _ hP hy1)
      (zeller_year_forward _ _ hP1 (next_day_year _ hy1)), hw]
    push_cast
    omega

/-- The weekday goes back by one with each of up to 7 days before a valid
date of a year `>= 1`. -/
theorem get_weekday_backward (d : Date) (hv : valid_date d) (hint : is_int d.year)
    (hy : 1 ≤ d.year) (i : Nat) (hi : i ≤ 7) :
    (1 ≤ (prev_day^[i] d).year ∨ ((prev_day^[i] d).year = 0 ∧
      (prev_day^[i] d).month = 12 ∧ 32 - (i : Int) ≤ (prev_day^[i] d).day)) ∧
    (get_weekday (prev_day^[i] d) + i) % 7 = get_weekday d := by
  induction i with
  | zero =>
    have := get_weekday_range d
    exact ⟨Or.inl hy, by show (get_weekday d + ((0 : Nat) : Int)) % 7 = get_weekday d; omega⟩
  | succ i ih =>
    obtain ⟨hQ, hw⟩ := ih (by omega)
    have hv1 := prev_day_iterate_valid d i hv
    have hy1 := prev_day_iterate_year d i hint
    have hQ1 := prev_day_backward _ (i : Int) hv1 hy1 hQ (by omega) (by omega)
    have hv2 := prev_day_valid _ hv1
    have hy2 := prev_day_year _ hy1
    have hstep := get_weekday_next_day (prev_day (prev_day^[i] d)) hv2 hy2
      (zeller_year_backward _ _ hQ1 hy2)
      (by rw [next_prev_day _ hv1 hy1]; exact zeller_year_backward _ _ hQ hy1)
    rw [next_prev_day _ hv1 hy1] at hstep
    rw [Function.iterate_succ_apply']
    refine ⟨by push_cast; exact hQ1, ?_⟩
    rw [hstep] at hw
    push_cast
    omega

/-- The function `add_days` for a count `n > 0` with `day + n` beyond
`int`: the sum wraps to a negative day, which passes the test against the
length of the month. -/
theorem add_days_wrapped (fuel : Nat) (d : Date) (n : Int) (hv : valid_date d)
    (hn : n ≤ INT_MAX) (hov : INT_MAX < d.day + n) (hf : 2 ≤ fuel) :
    add_days fuel d n = some { d with day := d.day + n - 4294967296 } ∧
    add_days fuel { d with day := d.day + n - 4294967296 } (-n) = some d := by
  have e1 : INT_MIN = -2147483648 := rfl
  have e2 : INT_MAX = 2147483647 := rfl
  obtain ⟨h1, h2, h3, h4⟩ := hv
  have hr := days_in_month_range d.year d.month
  obtain ⟨f, rfl⟩ : ∃ f, fuel = f + 2 := ⟨fuel - 2, by omega⟩
  have hw : add32 d.day n = d.day + n - 4294967296 := by
    simp only [add32, wrapInt32]
    norm_num
    omega
  have hw2 : add32 (d.day + n - 4294967296) (-n) = d.day := by
    simp only [add32, wrapInt32]
    norm_num
    omega
  constructor
  · unfold add_days
    rw [add_days_forward, if_pos (by omega)]
    dsimp only
    rw [hw, if_pos (by omega), add_days_forward, if_neg (by decide)]
    dsimp only
    rw [add_days_backward, if_neg (by decide)]
    rfl
  · unfold add_days
    rw [add_days_forward, if_neg (by omega)]
    dsimp only
    rw [add_days_backward, if_pos (by omega)]
    dsimp only
    rw [hw2, if_pos (by omega), add_days_backward, if_neg (by decide)]
    rfl

/-- A count `k` of `INT_MAX` days back from a valid date and then forward:
the forward call wraps the sum `day + days` and returns a negative day. -/
theorem add_days_back_and_forth (d : Date) (k : Nat) (hv : valid_date d)
    (hk1 : (k : Int) ≤ INT_MAX) (hk2 : INT_MAX ≤ (k : Int)) (fuel : Nat) (hf : k < fuel) :
    ∃ e r : Date, add_days fuel d (-(k : Int)) = some e ∧ add_days fuel e (k : Int) = some r ∧
      r.day < 0 := by
  have e1 : INT_MIN = -2147483648 := rfl
  have e2 : INT_MAX = 2147483647 := rfl
  have hv1 := prev_day_iterate_valid d k hv
  have hr1 := days_in_month_range (prev_day^[k] d).year (prev_day^[k] d).month
  have hd1 := hv1.2.2
  have hd0 := hv1.2.2.1
  refine ⟨_, _, add_days_nonpos fuel d k hv (by omega) hf,
    (add_days_wrapped fuel _ k hv1 hk1 (by omega) (by omega)).1, ?_⟩
  show (prev_day^[k] d).day + (k : Int) - 4294967296 < 0
  omega

/-- C21 (refuted, defect of the code): `get_weekday` numbers the days with
Saturday = 0, not Sunday = 0.  For Monday 2024-01-01 it returns 2, so
`render` writes two blank cells and puts day 1 under `Tu`; for Sunday
2024-09-01 it returns 1 and for Saturday 2024-01-06 it returns 0. -/
theorem get_weekday_numbering :
    get_weekday ⟨2024, 1, 1⟩ = 2 ∧
    render_blanks 2024 1 = "      ".toList ∧
    get_weekday ⟨2024, 9, 1⟩ = 1 ∧
    get_weekday ⟨2024, 1, 6⟩ = 0 := by
  refine ⟨by decide, by decide, by decide, by decide⟩

/-- C26 (amended): for every valid date and every `int` count `n` with
`day + n` within `int`, `add_days` returns, with any fuel above the
magnitude of `n`, one and the same date, and that date is valid. -/
theorem add_days_valid (d : Date) (n : Int) (hv : valid_date d) (hlo : INT_MIN ≤ n)
    (hhi : d.day + n ≤ INT_MAX) :
    ∃ e : Date, valid_date e ∧ ∀ fuel : Nat, n.natAbs < fuel → add_days fuel d n = some e := by
  by_cases h0 : 0 ≤ n
  · obtain ⟨k, rfl⟩ := Int.eq_ofNat_of_zero_le h0
    refine ⟨next_day^[k] d, next_day_iterate_valid d k hv, fun fuel hf => ?_⟩
    exact add_days_nonneg fuel d k hv hhi (by simpa using hf)
  · obtain ⟨k, hk⟩ : ∃ k : Nat, n = -(k : Int) := ⟨n.natAbs, by omega⟩
    subst hk
    refine ⟨prev_day^[k] d, prev_day_iterate_valid d k hv, fun fuel hf => ?_⟩
    exact add_days_nonpos fuel d k hv hlo (by simpa using hf)

/-- Two days after 2024-02-28 is 2024-03-01, past the leap day. -/
theorem add_days_valid_witness :
    valid_date ⟨2024, 2, 28⟩ ∧
    ∃ e : Date, valid_date e ∧
      ∀ fuel : Nat, (2 : Int).natAbs < fuel → add_days fuel ⟨2024, 2, 28⟩ 2 = some e :=
  ⟨by decide, add_days_valid ⟨2024, 2, 28⟩ 2 (by decide) (by decide) (by decide)⟩

/-- C26 (counterexample): for the valid date 2024-01-01 and the count
2147483647, the sum `day + days` wraps to -2147483648, which passes the test
against the length of the month: the date returned has that day and is not
valid. -/
theorem add_days_day_overflow :
    valid_date ⟨2024, 1, 1⟩ ∧
    add_days 8 ⟨2024, 1, 1⟩ 2147483647 = some ⟨2024, 1, -2147483648⟩ ∧
    ¬ valid_date ⟨2024, 1, -2147483648⟩ := by
  refine ⟨by decide, by decide, by decide⟩

/-- C27 (amended): for every valid date with an `int` year and every count
`n` from `-(INT_MAX - 31)` to `INT_MAX`, `add_days` with `n` and then with
`-n` returns the date it started from, with any fuel above the magnitude of
`n` for each call. -/
theorem add_days_round_trip (d : Date) (n : Int) (hv : valid_date d) (hy : is_int d.year)
    (hlo : -(INT_MAX - 31) ≤ n) (hhi : n ≤ INT_MAX) (fuel1 fuel2 : Nat)
    (h1 : n.natAbs < fuel1) (h2 : n.natAbs < fuel2) :
    (add_days fuel1 d n).bind (fun e => add_days fuel2 e (-n)) = some d := by
  have e1 : INT_MIN = -2147483648 := rfl
  have e2 : INT_MAX = 2147483647 := rfl
  have hr := days_in_month_range d.year d.month
  have hd := hv.2.2
  by_cases h0 : 0 ≤ n
  · by_cases hov : d.day + n ≤ INT_MAX
    · obtain ⟨k, rfl⟩ := Int.eq_ofNat_of_zero_le h0
      rw [add_days_nonneg fuel1 d k hv hov (by simpa using h1)]
      show add_days fuel2 (next_day^[k] d) (-(k : Int)) = some d
      rw [add_days_nonpos fuel2 _ k (next_day_iterate_valid d k hv) (by omega)
        (by simpa using h2), prev_next_iterate d k hv hy]
    · have hw := add_days_wrapped fuel1 d n hv hhi (by omega) (by omega)
      have hw2 := add_days_wrapped fuel2 d n hv hhi (by omega) (by omega)
      rw [hw.1]
      exact hw2.2
  · obtain ⟨k, hk⟩ : ∃ k : Nat, n = -(k : Int) := ⟨n.natAbs, by omega⟩
    subst hk
    rw [add_days_nonpos fuel1 d k hv (by omega) (by simpa using h1)]
    show add_days fuel2 (prev_day^[k] d) (- -(k : Int)) = some d
    rw [neg_neg]
    have hv1 := prev_day_iterate_valid d k hv
    have hr1 := days_in_month_range (prev_day^[k] d).year (prev_day^[k] d).month
    have hd1 := hv1.2.2
    rw [add_days_nonneg fuel2 _ k hv1 (by omega) (by simpa using h2),
      next_prev_iterate d k hv hy]

/-- A week back from 2024-03-03 and a week forward again. -/
theorem add_days_round_trip_witness :
    valid_date ⟨2024, 3, 3⟩ ∧ is_int 2024 ∧
    (add_days 8 ⟨2024, 3, 3⟩ (-7)).bind (fun e => add_days 8 e (- -7)) = some ⟨2024, 3, 3⟩ :=
  ⟨by decide, by decide,
    add_days_round_trip ⟨2024, 3, 3⟩ (-7) (by decide) (by decide) (by decide) (by decide) 8 8
      (by decide) (by decide)⟩

/-- C27 (counterexample): from 2024-01-01, `add_days` with -2147483647
returns a date, and `add_days` with 2147483647 from that date does not
return 2024-01-01: the sum `day + days` wraps, and the date returned has a
negative day. -/
theorem round_trip_day_overflow :
    ∃ e r : Date, add_days 2147483648 ⟨2024, 1, 1⟩ (-2147483647) = some e ∧
      add_days 2147483648 e 2147483647 = some r ∧ r.day < 0 ∧ r ≠ ⟨2024, 1, 1⟩ := by
  obtain ⟨e, r, h1, h2, h3⟩ := add_days_back_and_forth ⟨2024, 1, 1⟩ 2147483647 (by decide)
    (by decide) (by decide) 2147483648 (by decide)
  refine ⟨e, r, ?_, ?_, h3, ?_⟩
  · exact_mod_cast h1
  · exact_mod_cast h2
  · intro hcon
    rw [hcon] at h3
    exact absurd h3 (by decide)

/-- C28: for every valid date of a year `>= 1`, the weekday of the date
`add_days` returns for the count 1 is the weekday of the date plus one,
modulo 7; `get_weekday` is between 0 and 6 for every date; and the dates 7
days later and 7 days earlier have the weekday of the date. -/
theorem get_weekday_following_day (d : Date) (hv : valid_date d) (hy : 1 ≤ d.year)
    (hi : d.year ≤ INT_MAX) (fuel : Nat) (hf : 7 < fuel) :
    (add_days fuel d 1).map get_weekday = some ((get_weekday d + 1) % 7) ∧
    (∀ e : Date, 0 ≤ get_weekday e ∧ get_weekday e ≤ 6) ∧
    (add_days fuel d 7).map get_weekday = some (get_weekday d) ∧
    (add_days fuel d (-7)).map get_weekday = some (get_weekday d) := by
  have e1 : INT_MIN = -2147483648 := rfl
  have e2 : INT_MAX = 2147483647 := rfl
  have hint : is_int d.year := ⟨by omega, hi⟩
  have hr := days_in_month_range d.year d.month
  have hd := hv.2.2
  have hrange := get_weekday_range d
  have a1 := add_days_nonneg fuel d 1 hv (by push_cast; omega) (by omega)
  have a7 := add_days_nonneg fuel d 7 hv (by push_cast; omega) (by omega)
  have b7 := add_days_nonpos fuel d 7 hv (by decide) (by omega)
  have f1 := (get_weekday_forward d hv hint hy 1 (by omega)).2
  have f7 := (get_weekday_forward d hv hint hy 7 (by omega)).2
  have g7 := (get_weekday_backward d hv hint hy 7 (by omega)).2
  have hrange7 := get_weekday_range (prev_day^[7] d)
  push_cast at a1 a7 b7 f1 f7 g7
  refine ⟨?_, get_weekday_range, ?_, ?_⟩
  · rw [a1, Option.map_some', f1]
  · have h7 : (get_weekday d + 7) % 7 = get_weekday d := by omega
    rw [a7, Option.map_some', f7, h7]
  · have h7 : get_weekday (prev_day^[7] d) = get_weekday d := by omega
    rw [b7, Option.map_some', h7]

/-- The last day of 2024 and the first day of 2025: `get_weekday` gives 3
and 4. -/
theorem get_weekday_following_day_witness :
    valid_date ⟨2024, 12, 31⟩ ∧ get_weekday ⟨2024, 12, 31⟩ = 3 ∧
    (add_days 8 ⟨2024, 12, 31⟩ 1).map get_weekday = some ((get_weekday ⟨2024, 12, 31⟩ + 1) % 7) :=
  ⟨by decide, by decide,
    (get_weekday_following_day ⟨2024, 12, 31⟩ (by decide) (by decide) (by decide) 8
      (by decide)).1⟩
